import Mathlib

/-!
# Image cache: refresh policy, file lock, atomic publish and the consumer's polling

A shallow embedding of `1.13/the-project-step-7/app-image-cache/src/index.js` and of the
functions of `app-log-output/src/index.js` (versions 1.13 and 1.12) that decide when to
trigger the image cache and wait for the artifact.

Asynchronous functions become state transformers over a `World` (the files of the
data directory, an effect log and the positions reached in the environment's
answer streams) that either return a value or throw a `JsError`.  Everything the
program cannot decide itself is an input, collected in `Env`: the value of every
`Date.now()` reading, the random suffix of every temporary name, the outcome of
every `fetch`, and whether a `writeFile` fails.

Numbers are integers: the metadata fields are epoch milliseconds, and `TTL_MS` is
what `parseInt` returns for a decimal string.  Non-finite and fractional numbers are
outside the model.  `JSON.stringify` and `JSON.parse` belong to the runtime and are a
parameter (`JsonCodec`) of which only the round trip is assumed.
-/

namespace ImageCache

/-! ## JavaScript values -/

/-- A thrown error: the `code` property (absent for `new Error(msg)`) and the message. -/
structure JsError where
  code : Option String
  message : String
deriving DecidableEq, Repr

/-- The error built by `new Error(msg)`. -/
def JsError.new (msg : String) : JsError :=
  { code := none, message := msg }

/-- A value as `JSON.parse` returns it. An object is the list of its own
properties in property order. -/
inductive Json where
  | null
  | bool (b : Bool)
  | num (n : Int)
  | str (s : String)
  | arr (xs : List Json)
  | obj (kvs : List (String × Json))

namespace Json

/-- Truthiness, as tested by `!meta`. -/
def truthy : Json → Bool
  | null => false
  | bool b => b
  | num n => n != 0
  | str s => s != ""
  | arr _ => true
  | obj _ => true

/-- Property read `v.k` for a key that is no built-in member (`expiresAtMs`,
`afterExpiryServedOnce`): `none` is `undefined`. -/
def getProp (v : Json) (k : String) : Option Json :=
  match v with
  | obj kvs => kvs.lookup k
  | _ => none

/-- The test `typeof x === "number"`. -/
def isNumber : Option Json → Bool
  | some (num _) => true
  | _ => false

/-- The test `x === true`. -/
def isTrue : Option Json → Bool
  | some (bool true) => true
  | _ => false

/-- The own enumerable properties copied by an object spread. -/
def ownEntries : Json → List (String × Json)
  | obj kvs => kvs
  | arr xs => xs.enum.map (fun p => (toString p.1, p.2))
  | str s => s.data.enum.map (fun p => (toString p.1, str (String.singleton p.2)))
  | _ => []

/-- Defining property `k` on a property list: an existing key keeps its place and
takes the new value, a new key goes last. -/
def setEntry (k : String) (v : Json) : List (String × Json) → List (String × Json)
  | [] => [(k, v)]
  | kv :: rest => if kv.1 = k then (kv.1, v) :: rest else kv :: setEntry k v rest

/-- The object literal `{ ...v, [k]: x }`. -/
def spreadSet (v : Json) (k : String) (x : Json) : Json :=
  obj (setEntry k x v.ownEntries)

end Json

/-! ## The world -/

/-- A regular file: its contents and its modification time. -/
structure File (C : Type) where
  data : C
  mtimeMs : Int

/-- An interaction with the environment, in the order of the calls: a clock reading
with its value, or an effect the program asked for. -/
inductive Event where
  | now (t : Int)
  | mkdir (path : String)
  | openWx (path : String)
  | unlink (path : String)
  | writeFile (path : String)
  | rename (src dst : String)
  | fetch (url : String)
  | sleep (ms : Nat)
deriving DecidableEq, Repr

/-- What `fetch` resolved to. `contentType` is `headers.get("content-type")`
(`none` for `null`), `body` the outcome of `arrayBuffer()`: the bytes, or the message
of the `TypeError` it rejects with. -/
structure Response where
  ok : Bool
  status : Nat
  statusText : String
  contentType : Option String
  body : Except String (List Nat)

/-- The outcome of one `fetch` call: a response, or a rejection with a `TypeError` or
`DOMException` (neither carries a string `code`) of the given message. -/
inductive FetchResult where
  | rejected (msg : String)
  | response (r : Response)

/-- The inputs of a run that the program does not control. -/
structure Env where
  pid : Nat
  clock : Nat → Int
  random : Nat → String
  fetch : Nat → FetchResult
  mtime : Nat → Int
  writeFault : Nat → Option JsError

/-- The state a run threads through: the files, and how far each answer stream of
the environment has been consumed. -/
structure World (C : Type) where
  fs : String → Option (File C)
  clockReads : Nat
  randoms : Nat
  fetches : Nat
  fileOps : Nat
  log : List Event

/-- An asynchronous function: it runs on a world and returns or throws. -/
def Prog (C : Type) (α : Type) : Type :=
  World C → Except JsError α × World C

namespace Prog

variable {C : Type} {α β : Type}

/-- Return a value. -/
def ret (a : α) : Prog C α :=
  fun s => (.ok a, s)

/-- Sequencing (`await`). -/
def andThen (x : Prog C α) (f : α → Prog C β) : Prog C β :=
  fun s =>
    match x s with
    | (.ok a, s1) => f a s1
    | (.error e, s1) => (.error e, s1)

/-- The statement `throw e`. -/
def raise (e : JsError) : Prog C α :=
  fun s => (.error e, s)

/-- The statement `try { x } catch (e) { h e }`. -/
def catching (x : Prog C α) (h : JsError → Prog C α) : Prog C α :=
  fun s =>
    match x s with
    | (.ok a, s1) => (.ok a, s1)
    | (.error e, s1) => h e s1

/-- The statement `try { x } finally { fin }` for a `fin` that does not throw. -/
def finallyDo (x : Prog C α) (fin : Prog C Unit) : Prog C α :=
  fun s =>
    match x s with
    | (r, s1) => (r, (fin s1).2)

instance : Monad (Prog C) where
  pure := ret
  bind := andThen

instance : MonadExcept JsError (Prog C) where
  throw := raise
  tryCatch := catching

end Prog

/-- The two runtime functions on file contents of type `C`:
`stringify v` is the contents of a file written from `JSON.stringify(v, null, 2) + "\n"`,
`parse c` is `JSON.parse` of the file read as UTF-8 (`none` when it throws), and
`buffer b` is the contents of a file written from the byte buffer `b`. -/
structure JsonCodec (C : Type) where
  buffer : List Nat → C
  stringify : Json → C
  parse : C → Option Json
  parse_stringify : ∀ v, parse (stringify v) = some v

/-- File contents kept symbolically: raw bytes, or the text of a JSON document. -/
inductive Doc where
  | raw (bytes : List Nat)
  | json (v : Json)

/-- A codec on `Doc`: raw bytes are taken not to parse. -/
def docCodec : JsonCodec Doc where
  buffer := Doc.raw
  stringify := Doc.json
  parse := fun d => match d with
    | Doc.raw _ => none
    | Doc.json v => some v
  parse_stringify := fun _ => rfl

/-! ## Runtime and file-system primitives -/

/-- The method `String.prototype.toLowerCase`, on the ASCII letters (the only ones
that can produce the characters of `image/`). -/
def toLowerCase (s : String) : String :=
  String.mk (s.data.map Char.toLower)

/-- The method `String.prototype.startsWith`. -/
def startsWith (s pre : String) : Bool :=
  pre.data.isPrefixOf s.data

section Primitives

variable {C : Type}

/-- The function `nowMs`: one reading of `Date.now()`. -/
def nowMs (env : Env) : Prog C Int :=
  fun s =>
    (.ok (env.clock s.clockReads),
      { s with clockReads := s.clockReads + 1, log := s.log ++ [Event.now (env.clock s.clockReads)] })

/-- The function `sleep`: the wait is recorded, the clock is the environment's. -/
def sleep (ms : Nat) : Prog C Unit :=
  fun s => (.ok (), { s with log := s.log ++ [Event.sleep ms] })

/-- The call `crypto.randomBytes(8).toString("hex")`. -/
def randomHex (env : Env) : Prog C String :=
  fun s => (.ok (env.random s.randoms), { s with randoms := s.randoms + 1 })

/-- The call `fetch(url, ...)`. -/
def fetch (env : Env) (url : String) : Prog C Response :=
  fun s =>
    let s1 := { s with fetches := s.fetches + 1, log := s.log ++ [Event.fetch url] }
    match env.fetch s.fetches with
    | FetchResult.rejected msg => (.error (JsError.new msg), s1)
    | FetchResult.response r => (.ok r, s1)

/-- The call `res.arrayBuffer()` followed by `Buffer.from`. -/
def arrayBuffer (res : Response) : Prog C (List Nat) :=
  fun s =>
    match res.body with
    | .ok buf => (.ok buf, s)
    | .error msg => (.error (JsError.new msg), s)

namespace fsp

/-- The call `fsp.mkdir(dir, { recursive: true })`: no regular file changes. -/
def mkdir (dir : String) : Prog C Unit :=
  fun s => (.ok (), { s with log := s.log ++ [Event.mkdir dir] })

/-- The call `fsp.readFile(path, "utf8")`, before any decoding. -/
def readFile (path : String) : Prog C C :=
  fun s =>
    match s.fs path with
    | some f => (.ok f.data, s)
    | none => (.error { code := some "ENOENT", message := "no such file or directory" }, s)

/-- The call `fsp.writeFile(path, data, { mode })`: it fails when the environment says
so and otherwise creates or replaces the file. -/
def writeFile (env : Env) (path : String) (data : C) : Prog C Unit :=
  fun s =>
    let s1 := { s with fileOps := s.fileOps + 1, log := s.log ++ [Event.writeFile path] }
    match env.writeFault s.fileOps with
    | some e => (.error e, s1)
    | none =>
      (.ok (), { s1 with
        fs := Function.update s.fs path (some { data := data, mtimeMs := env.mtime s.fileOps }) })

/-- The call `fsp.rename(src, dst)`. -/
def rename (src dst : String) : Prog C Unit :=
  fun s =>
    let s1 := { s with log := s.log ++ [Event.rename src dst] }
    match s.fs src with
    | none => (.error { code := some "ENOENT", message := "no such file or directory" }, s1)
    | some f =>
      (.ok (), { s1 with fs := Function.update (Function.update s.fs src none) dst (some f) })

/-- The call `fsp.access(path, F_OK)`. -/
def access (path : String) : Prog C Unit :=
  fun s =>
    match s.fs path with
    | some _ => (.ok (), s)
    | none => (.error { code := some "ENOENT", message := "no such file or directory" }, s)

/-- The call `fsp.stat(path)`; of the result only `mtimeMs` is used. -/
def stat (path : String) : Prog C Int :=
  fun s =>
    match s.fs path with
    | some f => (.ok f.mtimeMs, s)
    | none => (.error { code := some "ENOENT", message := "no such file or directory" }, s)

/-- The call `fsp.unlink(path)`. -/
def unlink (path : String) : Prog C Unit :=
  fun s =>
    let s1 := { s with log := s.log ++ [Event.unlink path] }
    match s.fs path with
    | none => (.error { code := some "ENOENT", message := "no such file or directory" }, s1)
    | some _ => (.ok (), { s1 with fs := Function.update s.fs path none })

/-- The call `fsp.open(path, "wx")`: create exclusively, `EEXIST` when the path exists. -/
def openWx (J : JsonCodec C) (env : Env) (path : String) : Prog C Unit :=
  fun s =>
    let s1 := { s with fileOps := s.fileOps + 1, log := s.log ++ [Event.openWx path] }
    match s.fs path with
    | some _ => (.error { code := some "EEXIST", message := "file already exists" }, s1)
    | none =>
      (.ok (), { s1 with
        fs := Function.update s.fs path
          (some { data := J.buffer [], mtimeMs := env.mtime s.fileOps }) })

end fsp

end Primitives

/-! ## The image cache (`app-image-cache/src/index.js`) -/

/-- The constants read from the process environment. -/
structure Config where
  DATA_DIR : String
  IMAGE_URL : String
  TTL_MS : Int

/-- The call `path.join(dir, name)` for a normalised directory name. -/
def pathJoin (dir name : String) : String :=
  dir ++ "/" ++ name

/-- The constant `imagePath`. -/
def Config.imagePath (cfg : Config) : String :=
  pathJoin cfg.DATA_DIR "image.jpg"

/-- The constant `metaPath`. -/
def Config.metaPath (cfg : Config) : String :=
  pathJoin cfg.DATA_DIR "meta.json"

/-- The constant `lockPath`. -/
def Config.lockPath (cfg : Config) : String :=
  pathJoin cfg.DATA_DIR ".download.lock"

/-- The temporary name built from a path, the process id and random hex digits. -/
def tmpName (filePath : String) (pid : Nat) (hex : String) : String :=
  filePath ++ ".tmp-" ++ toString pid ++ "-" ++ hex

/-- What `ensureImage` returns. -/
structure Result where
  action : String
  meta : Json

/-- The number held by a property that passed the `typeof` test. -/
def Json.numberOf : Option Json → Int
  | some (Json.num n) => n
  | _ => 0

/-- The value `safeReadJson` computes from the files: `null` for a missing or
unparseable file. -/
def readJson {C : Type} (J : JsonCodec C) (fs : String → Option (File C)) (path : String) :
    Json :=
  match fs path with
  | none => Json.null
  | some f => (J.parse f.data).getD Json.null

section Owner

variable {C : Type} (J : JsonCodec C) (cfg : Config) (env : Env)

/-- The function `ensureDataDir`. -/
def ensureDataDir : Prog C Unit :=
  fsp.mkdir cfg.DATA_DIR

/-- The function `safeReadJson`: the parsed file, `null` when reading or parsing throws. -/
def safeReadJson (filePath : String) : Prog C Json :=
  try
    let raw ← fsp.readFile filePath
    match J.parse raw with
    | some v => pure v
    | none => throw (JsError.new "Unexpected token in JSON")
  catch _ =>
    pure Json.null

/-- The function `atomicWriteFile`: write a temporary file, then rename it. -/
def atomicWriteFile (filePath : String) (data : C) : Prog C Unit := do
  let tmp := tmpName filePath env.pid (← randomHex env)
  fsp.writeFile env tmp data
  fsp.rename tmp filePath

/-- The function `fileExists`. -/
def fileExists (filePath : String) : Prog C Bool :=
  try
    fsp.access filePath
    pure true
  catch _ =>
    pure false

/-- The function `statOrNull`, returning the `mtimeMs` of the stat. -/
def statOrNull (filePath : String) : Prog C (Option Int) :=
  try
    let st ← fsp.stat filePath
    pure (some st)
  catch _ =>
    pure none

/-- The expression `fsp.unlink(path).catch(() => {})`. -/
def unlinkQuiet (path : String) : Prog C Unit :=
  try
    fsp.unlink path
  catch _ =>
    pure ()

/-- The function `breakStaleLockIfNeeded`. -/
def breakStaleLockIfNeeded : Prog C Unit := do
  let st ← statOrNull cfg.lockPath
  match st with
  | none => pure ()
  | some mtimeMs =>
    let age := (← nowMs env) - mtimeMs
    if age > 60000 then
      unlinkQuiet cfg.lockPath
    else
      pure ()

/-- The error thrown by `withLock` when the wait exceeds its ceiling. -/
def lockTimeout : JsError :=
  JsError.new "Lock timeout: another download seems stuck"

/-- The outer `try` block of `withLock`: open the marker exclusively, then run `fn`
with the `finally` that closes the handle and removes the marker. -/
def lockedRun {α : Type} (fn : Prog C α) : Prog C α := do
  fsp.openWx J env cfg.lockPath
  Prog.finallyDo fn (unlinkQuiet cfg.lockPath)

/-- One iteration of the `while (true)` loop of `withLock`: `some v` is `return v`,
`none` is `continue`. -/
def withLockIter {α : Type} (fn : Prog C α) (start : Int) : Prog C (Option α) := do
  breakStaleLockIfNeeded cfg env
  try
    let v ← lockedRun J cfg env fn
    pure (some v)
  catch e =>
    if e.code = some "EEXIST" then
      if (← nowMs env) - start > 15000 then
        throw lockTimeout
      else
        sleep 150
        pure none
    else
      throw e

/-- The loop of `withLock`, for at most `fuel` iterations (`none`: more are needed). -/
def withLockLoop {α : Type} (fn : Prog C α) (start : Int) :
    Nat → World C → Option (Except JsError α × World C)
  | 0, _ => none
  | fuel + 1, s =>
    match withLockIter J cfg env fn start s with
    | (.ok (some v), s1) => some (.ok v, s1)
    | (.ok none, s1) => withLockLoop fn start fuel s1
    | (.error e, s1) => some (.error e, s1)

/-- The function `withLock`. -/
def withLock {α : Type} (fuel : Nat) (fn : Prog C α) :
    World C → Option (Except JsError α × World C) :=
  fun s =>
    match nowMs env s with
    | (.ok start, s1) => withLockLoop J cfg env fn start fuel s1
    | (.error e, s1) => some (.error e, s1)

/-- The world in which the callback of `withLock` starts when the first attempt
creates the marker: the start time has been read and the marker exists. -/
def acquired (s : World C) : World C :=
  (fsp.openWx J env cfg.lockPath (nowMs env s).2).2

/-- The world left by the `finally` block of `withLock`. -/
def released (s : World C) : World C :=
  (unlinkQuiet cfg.lockPath s).2

/-- The function `downloadImageTo`. -/
def downloadImageTo (imageFilePath : String) : Prog C Unit := do
  let res ← fetch env cfg.IMAGE_URL
  if !res.ok then
    throw (JsError.new
      ("Failed to fetch image: " ++ toString res.status ++ " " ++ res.statusText))
  else
    let ct := toLowerCase (res.contentType.getD "")
    if !startsWith ct "image/" then
      throw (JsError.new ("Unexpected content-type: " ++ ct))
    else
      let buf ← arrayBuffer res
      if buf.length < 1024 then
        throw (JsError.new
          ("Image too small (" ++ toString buf.length ++ " bytes), refusing to write"))
      else
        let tmp := tmpName imageFilePath env.pid (← randomHex env)
        fsp.writeFile env tmp (J.buffer buf)
        fsp.rename tmp imageFilePath

/-- The record built by `newMeta` from the clock reading `t`. -/
def metaAt (cfg : Config) (t : Int) : Json :=
  Json.obj [("createdAtMs", Json.num t), ("expiresAtMs", Json.num (t + cfg.TTL_MS)),
    ("afterExpiryServedOnce", Json.bool false)]

/-- The function `newMeta`. -/
def newMeta : Prog C Json := do
  let t ← nowMs env
  pure (metaAt cfg t)

/-- The function `writeMeta`. -/
def writeMeta (m : Json) : Prog C Unit :=
  atomicWriteFile env cfg.metaPath (J.stringify m)

/-- The callback that `ensureImage` passes to `withLock`. -/
def ensureImageLocked : Prog C Result := do
  let hasImage ← fileExists cfg.imagePath
  let meta ← safeReadJson J cfg.metaPath
  if !hasImage || !meta.truthy || !Json.isNumber (meta.getProp "expiresAtMs") then
    downloadImageTo J cfg env cfg.imagePath
    let m ← newMeta cfg env
    writeMeta J cfg env m
    pure { action := "downloaded-initial", meta := m }
  else
    let t ← nowMs env
    if t ≤ Json.numberOf (meta.getProp "expiresAtMs") then
      pure { action := "kept-valid", meta := meta }
    else if !Json.isTrue (meta.getProp "afterExpiryServedOnce") then
      let updated := meta.spreadSet "afterExpiryServedOnce" (Json.bool true)
      writeMeta J cfg env updated
      pure { action := "expired-served-old-once", meta := updated }
    else
      downloadImageTo J cfg env cfg.imagePath
      let m ← newMeta cfg env
      writeMeta J cfg env m
      pure { action := "downloaded-after-expiry", meta := m }

/-- The function `ensureImage`. -/
def ensureImage (fuel : Nat) : World C → Option (Except JsError Result × World C) :=
  fun s =>
    match ensureDataDir cfg s with
    | (.ok _, s1) => withLock J cfg env fuel (ensureImageLocked J cfg env) s1
    | (.error e, s1) => some (.error e, s1)

end Owner

/-! ## The consumer (`app-log-output/src/index.js`, versions 1.13 and 1.12)

The consumer reads the data directory that the image cache writes. Its functions
`safeReadJson` and `fileExists` have the text of those of the image cache and are not
repeated. While the consumer is suspended in `fetch` or in `sleep` the other processes may
change the files: what they do is an input of the run (`Peers`). -/

/-- The constants of the consumer read from the process environment. -/
structure ConsumerConfig where
  DATA_DIR : String
  IMAGE_CACHE_URL : String

/-- The constant `imagePath` of the consumer. -/
def ConsumerConfig.imagePath (ccfg : ConsumerConfig) : String :=
  pathJoin ccfg.DATA_DIR "image.jpg"

/-- The constant `metaPath` of the consumer. -/
def ConsumerConfig.metaPath (ccfg : ConsumerConfig) : String :=
  pathJoin ccfg.DATA_DIR "meta.json"

/-- What the other processes do to the files during one suspension of the consumer, as a
function of the effects the consumer has produced so far. -/
def Peers (C : Type) : Type :=
  List Event → (String → Option (File C)) → String → Option (File C)

/-- What `touchImageCache` returns: `{ ok: true }`, `{ ok: false, status }` or
`{ ok: false, error }`. -/
structure TouchResult where
  ok : Bool
  status : Option Nat
  error : Option String
deriving DecidableEq, Repr

/-- What `ensureImageReady` of version 1.12 returns. -/
structure Ready where
  ok : Bool
  touched : Bool
  touchResult : Option TouchResult
deriving DecidableEq, Repr

namespace Consumer

variable {C : Type} (J : JsonCodec C) (ccfg : ConsumerConfig) (env : Env) (peers : Peers C)

/-- A suspension of the consumer: the other processes act on the files. -/
def suspend (s : World C) : World C :=
  { s with fs := peers s.log s.fs }

/-- The function `sleep` of the consumer. -/
def sleep (ms : Nat) : Prog C Unit :=
  fun s => (.ok (), suspend peers { s with log := s.log ++ [Event.sleep ms] })

/-- The call `fetch(IMAGE_CACHE_URL, { signal })` with the signal of
`AbortSignal.timeout(8000)`: the request is sent, the other processes act, and the call
resolves to a response or rejects (on a network error or on the timeout). -/
def fetchWithTimeout (url : String) : Prog C Response :=
  fun s =>
    match ImageCache.fetch env url s with
    | (r, s1) => (r, suspend peers s1)

/-- The expression `e?.message || String(e)`: the message, or for an empty message the
conversion of the error to a string, which is its name (`TypeError` for a rejection of
`fetch` without a message). -/
def errorText (e : JsError) : String :=
  if e.message = "" then "TypeError" else e.message

/-- The function `shouldTouchImageCache` (version 1.13). -/
def shouldTouchImageCache : Prog C Bool := do
  let hasImage ← fileExists ccfg.imagePath
  if !hasImage then
    pure true
  else
    let meta ← safeReadJson J ccfg.metaPath
    if !meta.truthy || !Json.isNumber (meta.getProp "expiresAtMs") then
      pure true
    else
      let t ← nowMs env
      pure (decide (t > Json.numberOf (meta.getProp "expiresAtMs")))

/-- The function `touchImageCache`. -/
def touchImageCache : Prog C TouchResult :=
  try
    let res ← fetchWithTimeout env peers ccfg.IMAGE_CACHE_URL
    if !res.ok then
      pure { ok := false, status := some res.status, error := none }
    else
      pure { ok := true, status := none, error := none }
  catch e =>
    pure { ok := false, status := none, error := some (errorText e) }

/-- The `for` loop of `ensureImageReady` with `n` iterations left: `some true` is
`return true`, `none` is leaving the loop. -/
def pollLoop : Nat → Prog C (Option Bool)
  | 0 => pure none
  | n + 1 => do
    if (← fileExists ccfg.imagePath) then
      pure (some true)
    else
      sleep peers 100
      pollLoop n

/-- The function `ensureImageReady` (version 1.13), with `maxTries = 80` and
`waitMs = 100`. -/
def ensureImageReady : Prog C Bool := do
  let needTouch ← shouldTouchImageCache J ccfg env
  if needTouch then
    let _ ← touchImageCache ccfg env peers
    pure ()
  match (← pollLoop ccfg peers 80) with
  | some b => pure b
  | none => fileExists ccfg.imagePath

end Consumer

namespace Consumer12

variable {C : Type} (J : JsonCodec C) (ccfg : ConsumerConfig) (env : Env) (peers : Peers C)

/-- The function `shouldTouchImageCache` (version 1.12). -/
def shouldTouchImageCache : Prog C Bool := do
  let hasImage ← fileExists ccfg.imagePath
  if !hasImage then
    pure true
  else
    let meta ← safeReadJson J ccfg.metaPath
    if !meta.truthy || !Json.isNumber (meta.getProp "expiresAtMs") then
      pure true
    else
      let t ← nowMs env
      if t > Json.numberOf (meta.getProp "expiresAtMs") then
        pure true
      else
        pure false

/-- The `for` loop of `ensureImageReady` (version 1.12) with `n` iterations left. -/
def pollLoop (needTouch : Bool) (touchResult : Option TouchResult) :
    Nat → Prog C (Option Ready)
  | 0 => pure none
  | n + 1 => do
    if (← fileExists ccfg.imagePath) then
      pure (some { ok := true, touched := needTouch, touchResult := touchResult })
    else
      Consumer.sleep peers 100
      pollLoop needTouch touchResult n

/-- The function `ensureImageReady` (version 1.12); `touchImageCache` has the text of
version 1.13. -/
def ensureImageReady : Prog C Ready := do
  let needTouch ← shouldTouchImageCache J ccfg env
  let touchResult ←
    if needTouch then do
      let r ← Consumer.touchImageCache ccfg env peers
      pure (some r)
    else
      pure none
  match (← pollLoop ccfg peers needTouch touchResult 80) with
  | some r => pure r
  | none =>
    if (← fileExists ccfg.imagePath) then
      pure { ok := true, touched := needTouch, touchResult := touchResult }
    else
      pure { ok := false, touched := needTouch, touchResult := touchResult }

end Consumer12

/-! ## Vocabulary of the properties -/

/-- A response passes validation: a success status, a content type that starts with
`image/` once lower-cased (an absent header counts as the empty string), and a body of
at least 1024 bytes. -/
def Response.passes (r : Response) : Bool :=
  r.ok && startsWith (toLowerCase (r.contentType.getD "")) "image/" &&
    match r.body with
    | .ok buf => !decide (buf.length < 1024)
    | .error _ => false

/-- The error of a failed download: a rejected `fetch`, a non-success status, a content
type that is no image, a body that cannot be read, a body under the size threshold;
`none` for an outcome that passes. -/
def downloadFailure : FetchResult → Option JsError
  | FetchResult.rejected msg => some (JsError.new msg)
  | FetchResult.response r =>
    if !r.ok then
      some (JsError.new
        ("Failed to fetch image: " ++ toString r.status ++ " " ++ r.statusText))
    else if !startsWith (toLowerCase (r.contentType.getD "")) "image/" then
      some (JsError.new ("Unexpected content-type: " ++ toLowerCase (r.contentType.getD "")))
    else
      match r.body with
      | .error msg => some (JsError.new msg)
      | .ok buf =>
        if buf.length < 1024 then
          some (JsError.new
            ("Image too small (" ++ toString buf.length ++ " bytes), refusing to write"))
        else
          none

/-- Successive calls of `ensureImage`, `n` of them, each with the given fuel: the
outcomes in call order and the final world. -/
def ensureImageTimes {C : Type} (J : JsonCodec C) (cfg : Config) (env : Env) (fuel : Nat) :
    Nat → World C → Option (List (Except JsError Result) × World C)
  | 0, s => some ([], s)
  | n + 1, s =>
    match ensureImage J cfg env fuel s with
    | none => none
    | some (r, s1) =>
      match ensureImageTimes J cfg env fuel n s1 with
      | none => none
      | some (rs, s2) => some (r :: rs, s2)

/-- The state Missing/Invalid: no artifact, or no metadata file, or a metadata file that
does not parse, or parsed metadata without a numeric `expiresAtMs`. -/
def MissingOrInvalid {C : Type} (J : JsonCodec C) (cfg : Config) (s : World C) : Prop :=
  s.fs cfg.imagePath = none ∨ s.fs cfg.metaPath = none ∨
    (∃ f, s.fs cfg.metaPath = some f ∧ J.parse f.data = none) ∨
    (∃ f v, s.fs cfg.metaPath = some f ∧ J.parse f.data = some v ∧
      Json.isNumber (v.getProp "expiresAtMs") = false)

/-- The state Expired-ForceRefresh at time `t`: the artifact exists, the metadata has a
numeric `expiresAtMs` before `t`, and `afterExpiryServedOnce` is `true`. -/
def ExpiredServed {C : Type} (J : JsonCodec C) (cfg : Config) (s : World C) (t : Int) : Prop :=
  ∃ f g meta e, s.fs cfg.imagePath = some f ∧ s.fs cfg.metaPath = some g ∧
    J.parse g.data = some meta ∧ meta.getProp "expiresAtMs" = some (Json.num e) ∧ e < t ∧
    meta.getProp "afterExpiryServedOnce" = some (Json.bool true)

/-- A failed download: the fetch is rejected, or the response has a non-success status,
a content type that is no image, a body that cannot be read, or a body under 1024
bytes. -/
def FailedDownload (o : FetchResult) : Prop :=
  (∃ msg, o = FetchResult.rejected msg) ∨
    ∃ r, o = FetchResult.response r ∧
      (r.ok = false ∨ startsWith (toLowerCase (r.contentType.getD "")) "image/" = false ∨
        (∃ msg, r.body = .error msg) ∨ ∃ buf, r.body = .ok buf ∧ buf.length < 1024)

/-- The metadata invariant: `expiresAtMs` is `createdAtMs + TTL_MS`. -/
def MetaInvariant (cfg : Config) (m : Json) : Prop :=
  ∃ c : Int, m.getProp "createdAtMs" = some (Json.num c) ∧
    m.getProp "expiresAtMs" = some (Json.num (c + cfg.TTL_MS))

/-- The metadata file is absent or holds a record that keeps the metadata invariant. -/
def StoredInvariant {C : Type} (J : JsonCodec C) (cfg : Config) (s : World C) : Prop :=
  s.fs cfg.metaPath = none ∨
    ∃ g m, s.fs cfg.metaPath = some g ∧ J.parse g.data = some m ∧ MetaInvariant cfg m

/-- The call returned the action tag `a`. -/
def hasAction (a : String) : Except JsError Result → Prop
  | .ok res => res.action = a
  | .error _ => False

/-- The call returned after a successful download. -/
def isDownloaded (r : Except JsError Result) : Prop :=
  hasAction "downloaded-initial" r ∨ hasAction "downloaded-after-expiry" r

/-- The grace read of the stored generation is used: the artifact exists and the
metadata has the numeric `expiresAtMs` `e` and `afterExpiryServedOnce` `true`. -/
def Served {C : Type} (J : JsonCodec C) (cfg : Config) (e : Int) (s : World C) : Prop :=
  (s.fs cfg.imagePath).isSome = true ∧
    ∃ g m, s.fs cfg.metaPath = some g ∧ J.parse g.data = some m ∧
      m.getProp "expiresAtMs" = some (Json.num e) ∧
      m.getProp "afterExpiryServedOnce" = some (Json.bool true)

/-- The effects of `k` failed attempts on a marker that is not stale, the first of which
reads the clock at position `c`: per attempt the reading of the staleness test, the
failed exclusive open, the reading of the timeout test and the sleep. -/
def waitLog (cfg : Config) (env : Env) : Nat → Nat → List Event
  | _, 0 => []
  | c, k + 1 =>
    Event.now (env.clock c) :: Event.openWx cfg.lockPath :: Event.now (env.clock (c + 1)) ::
      Event.sleep 150 :: waitLog cfg env (c + 2) k

/-- The directory part of a path: its characters up to and including the last `/`. -/
def dirOf (p : String) : List Char :=
  (p.data.reverse.dropWhile (fun c => c != '/')).reverse

/-- The branches of the refresh policy. -/
inductive Branch where
  | downloadInitial
  | keptValid
  | expiredServedOldOnce
  | downloadAfterExpiry
deriving DecidableEq, Repr

/-- The action tag returned by a branch. -/
def Branch.tag : Branch → String
  | .downloadInitial => "downloaded-initial"
  | .keptValid => "kept-valid"
  | .expiredServedOldOnce => "expired-served-old-once"
  | .downloadAfterExpiry => "downloaded-after-expiry"

/-- The refresh policy as a partition of the triples (artifact exists?, parsed metadata,
now), in the words of the state machine: without an artifact or without a numeric
`expiresAtMs` the state is Missing/Invalid; otherwise it is Fresh while `now` is not after
`expiresAtMs`, and once expired it is Expired-ForceRefresh when `afterExpiryServedOnce` is
the boolean `true` and Expired-FirstGrace for every other value of the flag. -/
def selectBranch (hasImage : Bool) (meta : Json) (now : Int) : Branch :=
  match hasImage, meta.getProp "expiresAtMs" with
  | true, some (Json.num e) =>
    if now ≤ e then Branch.keptValid
    else
      match meta.getProp "afterExpiryServedOnce" with
      | some (Json.bool true) => Branch.downloadAfterExpiry
      | _ => Branch.expiredServedOldOnce
  | _, _ => Branch.downloadInitial

/-- The world after `k` sleeps of 100 ms of the consumer, each a suspension during which
the other processes act. -/
def Consumer.waited {C : Type} (peers : Peers C) : Nat → World C → World C
  | 0, s => s
  | k + 1, s => Consumer.waited peers k (Consumer.sleep peers 100 s).2

/-- The world in which the polling of `ensureImageReady` starts: the prediction has been
computed and, when it asked for one, the trigger has been sent and has resolved or
rejected. -/
def Consumer.triggered {C : Type} (J : JsonCodec C) (ccfg : ConsumerConfig) (env : Env)
    (peers : Peers C) (s : World C) : World C :=
  match Consumer.shouldTouchImageCache J ccfg env s with
  | (.ok true, s1) =>
    Consumer.suspend peers
      { s1 with fetches := s1.fetches + 1, log := s1.log ++ [Event.fetch ccfg.IMAGE_CACHE_URL] }
  | (_, s1) => s1

/-- The record `touchImageCache` returns for an outcome of its request: `{ ok: true }` for
a success status, `{ ok: false, status }` for another status, `{ ok: false, error }` for
a rejection. -/
def Consumer.touchOutcome : FetchResult → TouchResult
  | FetchResult.rejected msg =>
    { ok := false, status := none, error := some (Consumer.errorText (JsError.new msg)) }
  | FetchResult.response r =>
    if r.ok then { ok := true, status := none, error := none }
    else { ok := false, status := some r.status, error := none }

/-! ## Concrete inputs -/

/-- The default configuration: data directory `/data`, TTL 600000 ms. -/
def cfg0 : Config :=
  { DATA_DIR := "/data", IMAGE_URL := "https://picsum.photos/1200", TTL_MS := 600000 }

/-- The body of a downloaded image: 2048 bytes. -/
def jpegBytes : List Nat :=
  List.replicate 2048 7

/-- The bytes of an artifact stored earlier: 2048 bytes. -/
def oldBytes : List Nat :=
  List.replicate 2048 1

/-- The body of an error page: 400 bytes. -/
def pageBytes : List Nat :=
  List.replicate 400 60

/-- A response that passes validation: status 200, a JPEG of 2048 bytes. -/
def goodResponse : Response :=
  { ok := true, status := 200, statusText := "OK", contentType := some "image/jpeg",
    body := .ok jpegBytes }

/-- An environment whose clock starts at 1000 and advances 10 ms per reading, whose
downloads all succeed and whose writes never fail. -/
def env0 : Env :=
  { pid := 42, clock := fun k => 1000 + 10 * k, random := fun k => "5f3a9c0e1b2d4a6" ++ toString k,
    fetch := fun _ => FetchResult.response goodResponse, mtime := fun k => 1000 + k,
    writeFault := fun _ => none }

/-- A world on the given files in which nothing has been asked of the environment yet. -/
def worldOf (fs : String → Option (File Doc)) : World Doc :=
  { fs := fs, clockReads := 0, randoms := 0, fetches := 0, fileOps := 0, log := [] }

/-- The empty data directory. -/
def emptyWorld : World Doc :=
  worldOf (fun _ => none)

/-- The environment `env0` with a clock that reads `t` at every reading. -/
def envAt (t : Int) : Env :=
  { env0 with clock := fun _ => t }

/-- A data directory holding an artifact of 2048 bytes and the metadata document `m`. -/
def storedWorld (m : Json) : World Doc :=
  worldOf (fun p =>
    if p = cfg0.imagePath then some { data := Doc.raw oldBytes, mtimeMs := 500 }
    else if p = cfg0.metaPath then some { data := Doc.json m, mtimeMs := 500 }
    else none)

/-- The metadata of a generation created at 400 whose grace read has been used. -/
def servedMeta : Json :=
  (metaAt cfg0 400).spreadSet "afterExpiryServedOnce" (Json.bool true)

/-- An error page: status 200, `text/html`, 400 bytes. -/
def errorPage : Response :=
  { ok := true, status := 200, statusText := "OK", contentType := some "text/html",
    body := .ok pageBytes }

/-- The environment `envAt t` in which every download returns the error page. -/
def envErrorPage (t : Int) : Env :=
  { envAt t with fetch := fun _ => FetchResult.response errorPage }

/-- A data directory holding only a lock marker last modified at `mtime`. -/
def lockedWorld (mtime : Int) : World Doc :=
  worldOf (fun p =>
    if p = cfg0.lockPath then some { data := Doc.raw [], mtimeMs := mtime } else none)

/-- The environment `env0` with a clock that starts at 700000 and advances 400000 ms per
reading. -/
def envStep : Env :=
  { env0 with clock := fun k => 700000 + 400000 * k }


/-- The environment `env0` with a clock that starts at 1000 and advances 75 ms per
reading, that is 150 ms per iteration of the lock loop. -/
def envTick : Env :=
  { env0 with clock := fun k => 1000 + 75 * k }

/-- The environment `env0` with a clock that starts at 1000 and advances 4000 ms per
reading. -/
def envStride : Env :=
  { env0 with clock := fun k => 1000 + 4000 * k }

/-- The error of a write on a full disk. -/
def diskFull : JsError :=
  { code := some "ENOSPC", message := "no space left on device" }

/-- The environment `envAt t` in which the file-creating operation number `k` (counting
from 0 the exclusive opens and the writes) fails with a full disk. -/
def envFault (t : Int) (k : Nat) : Env :=
  { envAt t with writeFault := fun i => if i = k then some diskFull else none }

/-- The default configuration of the consumer, on the data directory of `cfg0`. -/
def ccfg0 : ConsumerConfig :=
  { DATA_DIR := "/data", IMAGE_CACHE_URL := "http://127.0.0.1:3001/touch" }

/-- No other process touches the files. -/
def alone : Peers Doc :=
  fun _ fs => fs

/-- Another process publishes the artifact once the consumer has produced three effects
(on the empty directory: the trigger and two sleeps). -/
def lateOwner : Peers Doc :=
  fun log fs =>
    if 3 ≤ log.length then
      Function.update fs cfg0.imagePath (some { data := Doc.raw jpegBytes, mtimeMs := 2000 })
    else fs

/-- An error with the code `EEXIST`, as `rename` onto a non-empty directory may throw. -/
def eexistError : JsError :=
  { code := some "EEXIST", message := "file already exists" }

/-- An action that fetches and throws an error with code `EEXIST` unless the response has
a success status, in which case it returns the status. -/
def clashingAction (env : Env) : Prog Doc Nat := do
  let res ← fetch env "http://upstream.test/"
  if !res.ok then throw eexistError else pure res.status

/-- A response with status 503 and an empty body. -/
def unavailable : Response :=
  { ok := false, status := 503, statusText := "Service Unavailable", contentType := none,
    body := .ok [] }

/-- The environment `envStride` whose first fetch is answered with status 503 and whose
later fetches succeed. -/
def envRetry : Env :=
  { envStride with
    fetch := fun k =>
      if k = 0 then FetchResult.response unavailable else FetchResult.response goodResponse }

/-- The metadata of a generation created at 400 that expires at 600400, with the given
value of `afterExpiryServedOnce` (`none`: the property is absent). -/
def metaWithFlag (x : Option Json) : Json :=
  Json.obj ([("createdAtMs", Json.num 400), ("expiresAtMs", Json.num 600400)] ++
    match x with
    | none => []
    | some v => [("afterExpiryServedOnce", v)])

/-! ## Lemmas -/

section Lemmas
variable {C : Type} {α β : Type}

@[simp] theorem Prog.pure_run (a : α) (s : World C) : (pure a : Prog C α) s = (.ok a, s) := rfl

@[simp] theorem Prog.bind_run (x : Prog C α) (f : α → Prog C β) (s : World C) :
    (x >>= f) s = match x s with
      | (.ok a, s1) => f a s1
      | (.error e, s1) => (.error e, s1) := rfl

@[simp] theorem Prog.throw_run (e : JsError) (s : World C) :
    (throw e : Prog C α) s = (.error e, s) := rfl

@[simp] theorem Prog.tryCatch_run (x : Prog C α) (h : JsError → Prog C α) (s : World C) :
    (tryCatch x h) s = match x s with
      | (.ok a, s1) => (.ok a, s1)
      | (.error e, s1) => h e s1 := rfl

theorem fileExists_run (p : String) (s : World C) :
    fileExists p s = (.ok (s.fs p).isSome, s) := by
  unfold fileExists fsp.access
  simp
  cases h : s.fs p <;> simp

theorem safeReadJson_run (J : JsonCodec C) (p : String) (s : World C) :
    safeReadJson J p s = (.ok (readJson J s.fs p), s) := by
  unfold safeReadJson fsp.readFile readJson
  simp
  cases h : s.fs p <;> simp
  cases h2 : J.parse _ <;> simp

theorem statOrNull_run (p : String) (s : World C) :
    statOrNull p s = (.ok ((s.fs p).map File.mtimeMs), s) := by
  unfold statOrNull fsp.stat
  simp
  cases h : s.fs p <;> simp

theorem unlinkQuiet_run (p : String) (s : World C) :
    unlinkQuiet p s = (.ok (), { s with
      log := s.log ++ [Event.unlink p],
      fs := Function.update s.fs p none }) := by
  unfold unlinkQuiet fsp.unlink
  simp
  cases h : s.fs p <;> simp [h]

theorem downloadImageTo_ok (J : JsonCodec C) (cfg : Config) (env : Env) (p : String)
    (r : Response) (buf : List Nat) (hok : r.ok = true)
    (hct : startsWith (toLowerCase (r.contentType.getD "")) "image/" = true)
    (hbody : r.body = .ok buf) (hlen : 1024 ≤ buf.length) (s : World C)
    (hfetch : env.fetch s.fetches = FetchResult.response r)
    (hw : env.writeFault s.fileOps = none) :
    downloadImageTo J cfg env p s = (.ok (),
      { s with
        fetches := s.fetches + 1,
        randoms := s.randoms + 1,
        fileOps := s.fileOps + 1,
        log := s.log ++ [Event.fetch cfg.IMAGE_URL,
          Event.writeFile (tmpName p env.pid (env.random s.randoms)),
          Event.rename (tmpName p env.pid (env.random s.randoms)) p],
        fs := Function.update (Function.update s.fs (tmpName p env.pid (env.random s.randoms)) none)
          p (some { data := J.buffer buf, mtimeMs := env.mtime s.fileOps }) }) := by
  unfold downloadImageTo fetch arrayBuffer randomHex fsp.writeFile fsp.rename
  simp [hfetch, hok, hct, hbody, hw, Nat.not_lt.mpr hlen]

/-! ### Paths -/

theorem pathJoin_ne (d a b : String) (h : a.data ≠ b.data) : pathJoin d a ≠ pathJoin d b := by
  intro heq
  apply h
  have h1 := congrArg String.data heq
  simpa [pathJoin, String.data_append] using h1

theorem tmpName_ne (d a b : String) (pid : Nat) (hex : String)
    (h : ∀ r : List Char, a.data ++ ('.' :: 't' :: 'm' :: 'p' :: '-' :: r) ≠ b.data) :
    tmpName (pathJoin d a) pid hex ≠ pathJoin d b := by
  intro heq
  have h1 := congrArg String.data heq
  simp only [tmpName, pathJoin, String.data_append, List.append_assoc] at h1
  have h2 := List.append_cancel_left h1
  have h3 := List.append_cancel_left h2
  exact h _ h3

@[simp] theorem image_ne_meta (cfg : Config) : (cfg.imagePath = cfg.metaPath) = False :=
  eq_false (pathJoin_ne _ _ _ (by decide))

@[simp] theorem meta_ne_image (cfg : Config) : (cfg.metaPath = cfg.imagePath) = False :=
  eq_false (pathJoin_ne _ _ _ (by decide))

@[simp] theorem image_ne_lock (cfg : Config) : (cfg.imagePath = cfg.lockPath) = False :=
  eq_false (pathJoin_ne _ _ _ (by decide))

@[simp] theorem lock_ne_image (cfg : Config) : (cfg.lockPath = cfg.imagePath) = False :=
  eq_false (pathJoin_ne _ _ _ (by decide))

@[simp] theorem meta_ne_lock (cfg : Config) : (cfg.metaPath = cfg.lockPath) = False :=
  eq_false (pathJoin_ne _ _ _ (by decide))

@[simp] theorem lock_ne_meta (cfg : Config) : (cfg.lockPath = cfg.metaPath) = False :=
  eq_false (pathJoin_ne _ _ _ (by decide))

@[simp] theorem tmpImage_ne_image (cfg : Config) (pid : Nat) (hex : String) :
    (tmpName cfg.imagePath pid hex = cfg.imagePath) = False :=
  eq_false (tmpName_ne _ _ _ _ _ (by intro r; simp))

@[simp] theorem tmpImage_ne_meta (cfg : Config) (pid : Nat) (hex : String) :
    (tmpName cfg.imagePath pid hex = cfg.metaPath) = False :=
  eq_false (tmpName_ne _ _ _ _ _ (by intro r; simp))

@[simp] theorem tmpImage_ne_lock (cfg : Config) (pid : Nat) (hex : String) :
    (tmpName cfg.imagePath pid hex = cfg.lockPath) = False :=
  eq_false (tmpName_ne _ _ _ _ _ (by intro r; simp))

@[simp] theorem tmpMeta_ne_image (cfg : Config) (pid : Nat) (hex : String) :
    (tmpName cfg.metaPath pid hex = cfg.imagePath) = False :=
  eq_false (tmpName_ne _ _ _ _ _ (by intro r; simp))

@[simp] theorem tmpMeta_ne_meta (cfg : Config) (pid : Nat) (hex : String) :
    (tmpName cfg.metaPath pid hex = cfg.metaPath) = False :=
  eq_false (tmpName_ne _ _ _ _ _ (by intro r; simp))

@[simp] theorem tmpMeta_ne_lock (cfg : Config) (pid : Nat) (hex : String) :
    (tmpName cfg.metaPath pid hex = cfg.lockPath) = False :=
  eq_false (tmpName_ne _ _ _ _ _ (by intro r; simp))

@[simp] theorem image_ne_tmpImage (cfg : Config) (pid : Nat) (hex : String) :
    (cfg.imagePath = tmpName cfg.imagePath pid hex) = False :=
  eq_false (fun h => (tmpName_ne _ _ _ _ _ (by intro r; simp)) h.symm)

@[simp] theorem image_ne_tmpMeta (cfg : Config) (pid : Nat) (hex : String) :
    (cfg.imagePath = tmpName cfg.metaPath pid hex) = False :=
  eq_false (fun h => (tmpName_ne _ _ _ _ _ (by intro r; simp)) h.symm)

@[simp] theorem meta_ne_tmpImage (cfg : Config) (pid : Nat) (hex : String) :
    (cfg.metaPath = tmpName cfg.imagePath pid hex) = False :=
  eq_false (fun h => (tmpName_ne _ _ _ _ _ (by intro r; simp)) h.symm)

@[simp] theorem meta_ne_tmpMeta (cfg : Config) (pid : Nat) (hex : String) :
    (cfg.metaPath = tmpName cfg.metaPath pid hex) = False :=
  eq_false (fun h => (tmpName_ne _ _ _ _ _ (by intro r; simp)) h.symm)

@[simp] theorem lock_ne_tmpImage (cfg : Config) (pid : Nat) (hex : String) :
    (cfg.lockPath = tmpName cfg.imagePath pid hex) = False :=
  eq_false (fun h => (tmpName_ne _ _ _ _ _ (by intro r; simp)) h.symm)

@[simp] theorem lock_ne_tmpMeta (cfg : Config) (pid : Nat) (hex : String) :
    (cfg.lockPath = tmpName cfg.metaPath pid hex) = False :=
  eq_false (fun h => (tmpName_ne _ _ _ _ _ (by intro r; simp)) h.symm)

/-! ### The lock, when the marker is free -/

theorem acquired_eq (J : JsonCodec C) (cfg : Config) (env : Env) (s : World C)
    (hlock : s.fs cfg.lockPath = none) :
    acquired J cfg env s = { s with
      clockReads := s.clockReads + 1,
      fileOps := s.fileOps + 1,
      log := s.log ++ [Event.now (env.clock s.clockReads), Event.openWx cfg.lockPath],
      fs := Function.update s.fs cfg.lockPath
        (some { data := J.buffer [], mtimeMs := env.mtime s.fileOps }) } := by
  simp [acquired, nowMs, fsp.openWx, hlock]

theorem released_eq (cfg : Config) (s : World C) :
    released cfg s = { s with
      log := s.log ++ [Event.unlink cfg.lockPath],
      fs := Function.update s.fs cfg.lockPath none } := by
  simp [released, unlinkQuiet_run]

theorem withLock_free (J : JsonCodec C) (cfg : Config) (env : Env) (fn : Prog C α)
    (fuel : Nat) (s : World C) (hlock : s.fs cfg.lockPath = none)
    (hfn : ∀ e, (fn (acquired J cfg env s)).1 = .error e → e.code ≠ some "EEXIST") :
    withLock J cfg env (fuel + 1) fn s =
      some ((fn (acquired J cfg env s)).1, released cfg (fn (acquired J cfg env s)).2) := by
  have hacq : fsp.openWx J env cfg.lockPath (nowMs env s).2 =
      (.ok (), acquired J cfg env s) := by
    simp [acquired, nowMs, fsp.openWx, hlock]
  have hbreak : breakStaleLockIfNeeded cfg env (nowMs env s).2 = (.ok (), (nowMs env s).2) := by
    simp [breakStaleLockIfNeeded, statOrNull_run, nowMs, hlock]
  simp only [nowMs] at hacq hbreak
  unfold withLock
  simp only [nowMs, withLockLoop, withLockIter, Prog.bind_run, Prog.tryCatch_run, lockedRun,
    Prog.finallyDo, hbreak, hacq]
  cases hr : fn (acquired J cfg env s) with
  | mk r s2 =>
    cases r with
    | ok v => simp [released]
    | error e =>
      have := hfn e (by rw [hr])
      simp [released, this]

/-! ### Steps of the refresh policy -/

theorem writeMeta_ok (J : JsonCodec C) (cfg : Config) (env : Env) (m : Json) (s : World C)
    (hw : env.writeFault s.fileOps = none) :
    writeMeta J cfg env m s = (.ok (),
      { s with
        randoms := s.randoms + 1,
        fileOps := s.fileOps + 1,
        log := s.log ++ [Event.writeFile (tmpName cfg.metaPath env.pid (env.random s.randoms)),
          Event.rename (tmpName cfg.metaPath env.pid (env.random s.randoms)) cfg.metaPath],
        fs := Function.update
          (Function.update s.fs (tmpName cfg.metaPath env.pid (env.random s.randoms)) none)
          cfg.metaPath (some { data := J.stringify m, mtimeMs := env.mtime s.fileOps }) }) := by
  unfold writeMeta atomicWriteFile randomHex fsp.writeFile fsp.rename
  simp [hw]

theorem missing_cond (J : JsonCodec C) (cfg : Config) (s : World C)
    (hstate : MissingOrInvalid J cfg s) :
    (!(s.fs cfg.imagePath).isSome || !(readJson J s.fs cfg.metaPath).truthy ||
      !Json.isNumber ((readJson J s.fs cfg.metaPath).getProp "expiresAtMs")) = true := by
  rcases hstate with h | h | ⟨f, h, hp⟩ | ⟨f, v, h, hp, hn⟩
  · simp [h]
  · simp [readJson, h, Json.truthy]
  · simp [readJson, h, hp, Json.truthy]
  · simp [readJson, h, hp, hn]

theorem ensureImageLocked_initial (J : JsonCodec C) (cfg : Config) (env : Env) (s : World C)
    (r : Response) (buf : List Nat)
    (hcond : (!(s.fs cfg.imagePath).isSome || !(readJson J s.fs cfg.metaPath).truthy ||
      !Json.isNumber ((readJson J s.fs cfg.metaPath).getProp "expiresAtMs")) = true)
    (hfetch : env.fetch s.fetches = FetchResult.response r) (hok : r.ok = true)
    (hct : startsWith (toLowerCase (r.contentType.getD "")) "image/" = true)
    (hbody : r.body = .ok buf) (hlen : 1024 ≤ buf.length)
    (hw1 : env.writeFault s.fileOps = none) (hw2 : env.writeFault (s.fileOps + 1) = none) :
    ensureImageLocked J cfg env s =
      (.ok { action := "downloaded-initial", meta := metaAt cfg (env.clock s.clockReads) },
        { s with
          clockReads := s.clockReads + 1,
          fetches := s.fetches + 1,
          randoms := s.randoms + 2,
          fileOps := s.fileOps + 2,
          log := s.log ++ [Event.fetch cfg.IMAGE_URL,
            Event.writeFile (tmpName cfg.imagePath env.pid (env.random s.randoms)),
            Event.rename (tmpName cfg.imagePath env.pid (env.random s.randoms)) cfg.imagePath,
            Event.now (env.clock s.clockReads),
            Event.writeFile (tmpName cfg.metaPath env.pid (env.random (s.randoms + 1))),
            Event.rename (tmpName cfg.metaPath env.pid (env.random (s.randoms + 1)))
              cfg.metaPath],
          fs := Function.update (Function.update (Function.update (Function.update s.fs
            (tmpName cfg.imagePath env.pid (env.random s.randoms)) none)
            cfg.imagePath (some { data := J.buffer buf, mtimeMs := env.mtime s.fileOps }))
            (tmpName cfg.metaPath env.pid (env.random (s.randoms + 1))) none)
            cfg.metaPath (some ⟨J.stringify (metaAt cfg (env.clock s.clockReads)),
              env.mtime (s.fileOps + 1)⟩) }) := by
  unfold ensureImageLocked
  simp only [Prog.bind_run, fileExists_run, safeReadJson_run, hcond, if_true]
  simp [downloadImageTo_ok J cfg env cfg.imagePath r buf hok hct hbody hlen, writeMeta_ok,
    newMeta, nowMs, hfetch, hw1, hw2, Nat.add_assoc]

theorem downloadFailure_code (o : FetchResult) (e : JsError)
    (h : downloadFailure o = some e) : e.code = none := by
  unfold downloadFailure at h
  split at h
  · cases h; rfl
  · split at h
    · cases h; rfl
    · split at h
      · cases h; rfl
      · split at h
        · cases h; rfl
        · split at h
          · cases h; rfl
          · cases h

theorem downloadImageTo_fail (J : JsonCodec C) (cfg : Config) (env : Env) (p : String)
    (e : JsError) (s : World C) (h : downloadFailure (env.fetch s.fetches) = some e) :
    downloadImageTo J cfg env p s = (.error e,
      { s with fetches := s.fetches + 1, log := s.log ++ [Event.fetch cfg.IMAGE_URL] }) := by
  unfold downloadFailure at h
  unfold downloadImageTo fetch arrayBuffer
  split at h
  · rename_i msg hf
    cases h
    simp [hf]
  · rename_i r hf
    simp only [Prog.bind_run, hf]
    split at h
    · rename_i hok
      cases h
      simp [hok]
    · rename_i hok
      split at h
      · rename_i hct
        cases h
        simp [hok, hct]
      · rename_i hct
        split at h
        · rename_i msg hb
          cases h
          simp [hok, hct, hb]
        · rename_i buf hb
          split at h
          · rename_i hlen
            cases h
            simp [hok, hct, hb, hlen]
          · cases h

theorem fresh_cond (J : JsonCodec C) (cfg : Config) (s : World C) (f g : File C)
    (meta : Json) (e : Int)
    (himg : s.fs cfg.imagePath = some f) (hmeta : s.fs cfg.metaPath = some g)
    (hparse : J.parse g.data = some meta)
    (hexp : meta.getProp "expiresAtMs" = some (Json.num e)) :
    readJson J s.fs cfg.metaPath = meta ∧
    (!(s.fs cfg.imagePath).isSome || !(readJson J s.fs cfg.metaPath).truthy ||
      !Json.isNumber ((readJson J s.fs cfg.metaPath).getProp "expiresAtMs")) = false := by
  have hr : readJson J s.fs cfg.metaPath = meta := by simp [readJson, hmeta, hparse]
  refine ⟨hr, ?_⟩
  rw [hr]
  cases meta <;> simp_all [Json.getProp, Json.truthy, Json.isNumber]

theorem ensureImageLocked_kept (J : JsonCodec C) (cfg : Config) (env : Env) (s : World C)
    (meta : Json) (e : Int)
    (hread : readJson J s.fs cfg.metaPath = meta)
    (hcond : (!(s.fs cfg.imagePath).isSome || !(readJson J s.fs cfg.metaPath).truthy ||
      !Json.isNumber ((readJson J s.fs cfg.metaPath).getProp "expiresAtMs")) = false)
    (hexp : meta.getProp "expiresAtMs" = some (Json.num e))
    (hnow : env.clock s.clockReads ≤ e) :
    ensureImageLocked J cfg env s =
      (.ok { action := "kept-valid", meta := meta },
        { s with
          clockReads := s.clockReads + 1,
          log := s.log ++ [Event.now (env.clock s.clockReads)] }) := by
  unfold ensureImageLocked
  simp only [Prog.bind_run, fileExists_run, safeReadJson_run, hcond]
  simp [nowMs, hread, hexp, Json.numberOf, hnow]

theorem ensureImageLocked_grace (J : JsonCodec C) (cfg : Config) (env : Env) (s : World C)
    (meta : Json) (e : Int)
    (hread : readJson J s.fs cfg.metaPath = meta)
    (hcond : (!(s.fs cfg.imagePath).isSome || !(readJson J s.fs cfg.metaPath).truthy ||
      !Json.isNumber ((readJson J s.fs cfg.metaPath).getProp "expiresAtMs")) = false)
    (hexp : meta.getProp "expiresAtMs" = some (Json.num e))
    (hnow : e < env.clock s.clockReads)
    (hflag : Json.isTrue (meta.getProp "afterExpiryServedOnce") = false)
    (hw : env.writeFault s.fileOps = none) :
    ensureImageLocked J cfg env s =
      (.ok { action := "expired-served-old-once",
             meta := meta.spreadSet "afterExpiryServedOnce" (Json.bool true) },
        { s with
          clockReads := s.clockReads + 1,
          randoms := s.randoms + 1,
          fileOps := s.fileOps + 1,
          log := s.log ++ [Event.now (env.clock s.clockReads),
            Event.writeFile (tmpName cfg.metaPath env.pid (env.random s.randoms)),
            Event.rename (tmpName cfg.metaPath env.pid (env.random s.randoms)) cfg.metaPath],
          fs := Function.update
            (Function.update s.fs (tmpName cfg.metaPath env.pid (env.random s.randoms)) none)
            cfg.metaPath
            (some ⟨J.stringify (meta.spreadSet "afterExpiryServedOnce" (Json.bool true)),
              env.mtime s.fileOps⟩) }) := by
  unfold ensureImageLocked
  simp only [Prog.bind_run, fileExists_run, safeReadJson_run, hcond]
  simp only [nowMs, Prog.bind_run, Prog.pure_run, hread, hexp, Json.numberOf, not_le.mpr hnow,
    hflag, Bool.false_eq_true, if_false, Bool.not_false, if_true]
  simp [writeMeta_ok, hw]

theorem ensureImageLocked_refresh (J : JsonCodec C) (cfg : Config) (env : Env) (s : World C)
    (meta : Json) (e : Int) (r : Response) (buf : List Nat)
    (hread : readJson J s.fs cfg.metaPath = meta)
    (hcond : (!(s.fs cfg.imagePath).isSome || !(readJson J s.fs cfg.metaPath).truthy ||
      !Json.isNumber ((readJson J s.fs cfg.metaPath).getProp "expiresAtMs")) = false)
    (hexp : meta.getProp "expiresAtMs" = some (Json.num e))
    (hnow : e < env.clock s.clockReads)
    (hflag : Json.isTrue (meta.getProp "afterExpiryServedOnce") = true)
    (hfetch : env.fetch s.fetches = FetchResult.response r) (hok : r.ok = true)
    (hct : startsWith (toLowerCase (r.contentType.getD "")) "image/" = true)
    (hbody : r.body = .ok buf) (hlen : 1024 ≤ buf.length)
    (hw1 : env.writeFault s.fileOps = none) (hw2 : env.writeFault (s.fileOps + 1) = none) :
    ensureImageLocked J cfg env s =
      (.ok { action := "downloaded-after-expiry",
             meta := metaAt cfg (env.clock (s.clockReads + 1)) },
        { s with
          clockReads := s.clockReads + 2,
          fetches := s.fetches + 1,
          randoms := s.randoms + 2,
          fileOps := s.fileOps + 2,
          log := s.log ++ [Event.now (env.clock s.clockReads), Event.fetch cfg.IMAGE_URL,
            Event.writeFile (tmpName cfg.imagePath env.pid (env.random s.randoms)),
            Event.rename (tmpName cfg.imagePath env.pid (env.random s.randoms)) cfg.imagePath,
            Event.now (env.clock (s.clockReads + 1)),
            Event.writeFile (tmpName cfg.metaPath env.pid (env.random (s.randoms + 1))),
            Event.rename (tmpName cfg.metaPath env.pid (env.random (s.randoms + 1)))
              cfg.metaPath],
          fs := Function.update (Function.update (Function.update (Function.update s.fs
            (tmpName cfg.imagePath env.pid (env.random s.randoms)) none)
            cfg.imagePath (some { data := J.buffer buf, mtimeMs := env.mtime s.fileOps }))
            (tmpName cfg.metaPath env.pid (env.random (s.randoms + 1))) none)
            cfg.metaPath (some ⟨J.stringify (metaAt cfg (env.clock (s.clockReads + 1))),
              env.mtime (s.fileOps + 1)⟩) }) := by
  unfold ensureImageLocked
  simp only [Prog.bind_run, fileExists_run, safeReadJson_run, hcond]
  simp only [nowMs, Prog.bind_run, Prog.pure_run, hread, hexp, Json.numberOf, not_le.mpr hnow,
    hflag, Bool.false_eq_true, if_false, Bool.not_true]
  simp [downloadImageTo_ok J cfg env cfg.imagePath r buf hok hct hbody hlen, writeMeta_ok,
    newMeta, nowMs, hfetch, hw1, hw2, Nat.add_assoc]

theorem ensureImageLocked_initial_fail (J : JsonCodec C) (cfg : Config) (env : Env)
    (s : World C) (e : JsError)
    (hcond : (!(s.fs cfg.imagePath).isSome || !(readJson J s.fs cfg.metaPath).truthy ||
      !Json.isNumber ((readJson J s.fs cfg.metaPath).getProp "expiresAtMs")) = true)
    (hfail : downloadFailure (env.fetch s.fetches) = some e) :
    ensureImageLocked J cfg env s =
      (.error e,
        { s with fetches := s.fetches + 1, log := s.log ++ [Event.fetch cfg.IMAGE_URL] }) := by
  unfold ensureImageLocked
  simp only [Prog.bind_run, fileExists_run, safeReadJson_run, hcond, if_true]
  rw [downloadImageTo_fail J cfg env cfg.imagePath e s hfail]

theorem ensureImageLocked_refresh_fail (J : JsonCodec C) (cfg : Config) (env : Env)
    (s : World C) (meta : Json) (e : Int) (err : JsError)
    (hread : readJson J s.fs cfg.metaPath = meta)
    (hcond : (!(s.fs cfg.imagePath).isSome || !(readJson J s.fs cfg.metaPath).truthy ||
      !Json.isNumber ((readJson J s.fs cfg.metaPath).getProp "expiresAtMs")) = false)
    (hexp : meta.getProp "expiresAtMs" = some (Json.num e))
    (hnow : e < env.clock s.clockReads)
    (hflag : Json.isTrue (meta.getProp "afterExpiryServedOnce") = true)
    (hfail : downloadFailure (env.fetch s.fetches) = some err) :
    ensureImageLocked J cfg env s =
      (.error err,
        { s with
          clockReads := s.clockReads + 1,
          fetches := s.fetches + 1,
          log := s.log ++ [Event.now (env.clock s.clockReads), Event.fetch cfg.IMAGE_URL] }) := by
  unfold ensureImageLocked
  simp only [Prog.bind_run, fileExists_run, safeReadJson_run, hcond]
  simp only [nowMs, Prog.bind_run, Prog.pure_run, hread, hexp, Json.numberOf, not_le.mpr hnow,
    hflag, Bool.false_eq_true, if_false, Bool.not_true]
  simp [downloadImageTo_fail J cfg env cfg.imagePath err, hfail]

/-! ### Object properties -/

theorem lookup_setEntry_same (k : String) (v : Json) (l : List (String × Json)) :
    (Json.setEntry k v l).lookup k = some v := by
  induction l with
  | nil => simp [Json.setEntry, List.lookup]
  | cons kv rest ih =>
    unfold Json.setEntry
    by_cases h : kv.1 = k
    · simp [h, List.lookup]
    · have h2 : (k == kv.1) = false := by simpa using fun h3 => h h3.symm
      simp [h, List.lookup, h2, ih]

theorem lookup_setEntry_other (k k2 : String) (v : Json) (l : List (String × Json))
    (hne : k2 ≠ k) : (Json.setEntry k v l).lookup k2 = l.lookup k2 := by
  induction l with
  | nil =>
    have h2 : (k2 == k) = false := by simpa using hne
    simp [Json.setEntry, List.lookup, h2]
  | cons kv rest ih =>
    obtain ⟨a, b⟩ := kv
    unfold Json.setEntry
    by_cases h : a = k
    · subst h
      have h2 : (k2 == a) = false := by simpa using hne
      simp [List.lookup, h2]
    · by_cases h3 : k2 = a
      · subst h3
        simp [h, List.lookup]
      · have h4 : (k2 == a) = false := by simpa using h3
        simp [h, List.lookup, h4, ih]

theorem getProp_spreadSet_same (m : Json) (k : String) (v : Json) :
    (m.spreadSet k v).getProp k = some v := by
  simp [Json.spreadSet, Json.getProp, lookup_setEntry_same]

theorem getProp_spreadSet_other (kvs : List (String × Json)) (k k2 : String) (v : Json)
    (hne : k2 ≠ k) : ((Json.obj kvs).spreadSet k v).getProp k2 = (Json.obj kvs).getProp k2 := by
  simp [Json.spreadSet, Json.getProp, Json.ownEntries, lookup_setEntry_other _ _ _ _ hne]

theorem isTrue_eq_false (x : Option Json) (h : x ≠ some (Json.bool true)) :
    Json.isTrue x = false := by
  unfold Json.isTrue
  split
  · exact absurd rfl h
  · rfl

theorem passes_iff (r : Response) :
    r.passes = true ↔ downloadFailure (FetchResult.response r) = none := by
  obtain ⟨ok, status, statusText, contentType, body⟩ := r
  simp only [Response.passes, downloadFailure]
  cases ok <;> simp
  cases hct : startsWith (toLowerCase (contentType.getD "")) "image/" <;> simp
  cases body <;> simp

theorem passes_body (r : Response) (h : r.passes = true) :
    r.ok = true ∧ startsWith (toLowerCase (r.contentType.getD "")) "image/" = true ∧
      ∃ buf, r.body = .ok buf ∧ 1024 ≤ buf.length := by
  unfold Response.passes at h
  cases hb : r.body with
  | error msg => simp [hb] at h
  | ok buf =>
    simp [hb] at h
    exact ⟨h.1.1, h.1.2, buf, rfl, h.2⟩

theorem downloadImageTo_fault (J : JsonCodec C) (cfg : Config) (env : Env) (p : String)
    (r : Response) (buf : List Nat) (err : JsError) (hok : r.ok = true)
    (hct : startsWith (toLowerCase (r.contentType.getD "")) "image/" = true)
    (hbody : r.body = .ok buf) (hlen : 1024 ≤ buf.length) (s : World C)
    (hfetch : env.fetch s.fetches = FetchResult.response r)
    (hw : env.writeFault s.fileOps = some err) :
    downloadImageTo J cfg env p s = (.error err,
      { s with
        fetches := s.fetches + 1,
        randoms := s.randoms + 1,
        fileOps := s.fileOps + 1,
        log := s.log ++ [Event.fetch cfg.IMAGE_URL,
          Event.writeFile (tmpName p env.pid (env.random s.randoms))] }) := by
  unfold downloadImageTo fetch arrayBuffer randomHex fsp.writeFile fsp.rename
  simp [hfetch, hok, hct, hbody, hw, Nat.not_lt.mpr hlen]

theorem downloadFailure_of_kind (o : FetchResult) (h : FailedDownload o) :
    ∃ err, downloadFailure o = some err := by
  rcases h with ⟨msg, rfl⟩ | ⟨r, rfl, h⟩
  · exact ⟨_, rfl⟩
  · cases hp : downloadFailure (FetchResult.response r) with
    | some err => exact ⟨err, rfl⟩
    | none =>
      exfalso
      obtain ⟨hok, hct, buf, hb, hlen⟩ := passes_body r ((passes_iff r).mpr hp)
      rcases h with h | h | ⟨msg, h⟩ | ⟨buf2, h, hlt⟩
      · simp [hok] at h
      · simp [hct] at h
      · simp [hb] at h
      · rw [hb] at h
        cases h
        omega

end Lemmas

/-! ### The refresh policy on an arbitrary world -/

section Cases
variable {C : Type}

theorem downloadFailure_none (o : FetchResult) (h : downloadFailure o = none) :
    ∃ r, o = FetchResult.response r ∧ r.passes = true := by
  cases o with
  | rejected msg => simp [downloadFailure] at h
  | response r => exact ⟨r, rfl, (passes_iff r).mpr h⟩

theorem downloadImageTo_cases (J : JsonCodec C) (cfg : Config) (env : Env) (s : World C) :
    (∃ e, (downloadImageTo J cfg env cfg.imagePath s).1 = .error e ∧
      (downloadImageTo J cfg env cfg.imagePath s).2.fs = s.fs) ∨
    ((downloadImageTo J cfg env cfg.imagePath s).1 = .ok () ∧
      (downloadImageTo J cfg env cfg.imagePath s).2.fs cfg.metaPath = s.fs cfg.metaPath ∧
      ((downloadImageTo J cfg env cfg.imagePath s).2.fs cfg.imagePath).isSome = true) := by
  cases hd : downloadFailure (env.fetch s.fetches) with
  | some e =>
    left
    rw [downloadImageTo_fail J cfg env cfg.imagePath e s hd]
    exact ⟨e, rfl, rfl⟩
  | none =>
    obtain ⟨r, hf, hp⟩ := downloadFailure_none _ hd
    obtain ⟨hok, hct, buf, hb, hlen⟩ := passes_body r hp
    cases hw : env.writeFault s.fileOps with
    | none =>
      right
      rw [downloadImageTo_ok J cfg env cfg.imagePath r buf hok hct hb hlen s hf hw]
      simp [Function.update_apply]
    | some e =>
      left
      rw [downloadImageTo_fault J cfg env cfg.imagePath r buf e hok hct hb hlen s hf hw]
      exact ⟨e, rfl, rfl⟩

theorem writeMeta_cases (J : JsonCodec C) (cfg : Config) (env : Env) (m : Json) (s : World C) :
    (∃ e, (writeMeta J cfg env m s).1 = .error e ∧ (writeMeta J cfg env m s).2.fs = s.fs) ∨
    ((writeMeta J cfg env m s).1 = .ok () ∧
      (writeMeta J cfg env m s).2.fs cfg.imagePath = s.fs cfg.imagePath ∧
      ((writeMeta J cfg env m s).2.fs cfg.metaPath).map File.data = some (J.stringify m)) := by
  cases hw : env.writeFault s.fileOps with
  | none =>
    right
    rw [writeMeta_ok J cfg env m s hw]
    simp [Function.update_apply]
  | some e =>
    left
    refine ⟨e, ?_, ?_⟩ <;>
      simp [writeMeta, atomicWriteFile, randomHex, fsp.writeFile, hw]

/-- The outcomes of the refresh policy, read off the files. -/
theorem ensureImageLocked_cases (J : JsonCodec C) (cfg : Config) (env : Env) (s : World C) :
    (((ensureImageLocked J cfg env s).1 =
        .ok { action := "kept-valid", meta := readJson J s.fs cfg.metaPath } ∧
      (ensureImageLocked J cfg env s).2.fs = s.fs ∧
      (s.fs cfg.imagePath).isSome = true ∧
      Json.isNumber ((readJson J s.fs cfg.metaPath).getProp "expiresAtMs") = true) ∨
    ((ensureImageLocked J cfg env s).1 =
        .ok { action := "expired-served-old-once",
              meta := (readJson J s.fs cfg.metaPath).spreadSet "afterExpiryServedOnce"
                (Json.bool true) } ∧
      (s.fs cfg.imagePath).isSome = true ∧
      Json.isNumber ((readJson J s.fs cfg.metaPath).getProp "expiresAtMs") = true ∧
      Json.isTrue ((readJson J s.fs cfg.metaPath).getProp "afterExpiryServedOnce") = false ∧
      (ensureImageLocked J cfg env s).2.fs cfg.imagePath = s.fs cfg.imagePath ∧
      ((ensureImageLocked J cfg env s).2.fs cfg.metaPath).map File.data =
        some (J.stringify ((readJson J s.fs cfg.metaPath).spreadSet "afterExpiryServedOnce"
          (Json.bool true)))) ∨
    (∃ t tag, (ensureImageLocked J cfg env s).1 = .ok { action := tag, meta := metaAt cfg t } ∧
      (tag = "downloaded-initial" ∨ tag = "downloaded-after-expiry") ∧
      ((ensureImageLocked J cfg env s).2.fs cfg.imagePath).isSome = true ∧
      ((ensureImageLocked J cfg env s).2.fs cfg.metaPath).map File.data =
        some (J.stringify (metaAt cfg t))) ∨
    (∃ e, (ensureImageLocked J cfg env s).1 = .error e ∧
      (ensureImageLocked J cfg env s).2.fs cfg.metaPath = s.fs cfg.metaPath ∧
      ((s.fs cfg.imagePath).isSome = true →
        ((ensureImageLocked J cfg env s).2.fs cfg.imagePath).isSome = true))) := by
  have tail : ∀ (tag : String) (s0 : World C), s0.fs = s.fs →
      (tag = "downloaded-initial" ∨ tag = "downloaded-after-expiry") →
      ∀ out : Except JsError Result × World C,
      out = (do
        downloadImageTo J cfg env cfg.imagePath
        let m ← newMeta cfg env
        writeMeta J cfg env m
        pure { action := tag, meta := m } : Prog C Result) s0 →
      ((∃ t tag, out.1 = .ok { action := tag, meta := metaAt cfg t } ∧
        (tag = "downloaded-initial" ∨ tag = "downloaded-after-expiry") ∧
        (out.2.fs cfg.imagePath).isSome = true ∧
        (out.2.fs cfg.metaPath).map File.data = some (J.stringify (metaAt cfg t))) ∨
      (∃ e, out.1 = .error e ∧ out.2.fs cfg.metaPath = s.fs cfg.metaPath ∧
        ((s.fs cfg.imagePath).isSome = true → (out.2.fs cfg.imagePath).isSome = true))) := by
    intro tag s0 hs0 htag out hout
    simp only [Prog.bind_run] at hout
    rcases downloadImageTo_cases J cfg env s0 with ⟨e, h1, h2⟩ | ⟨h1, h2, h3⟩
    · right
      cases hd : downloadImageTo J cfg env cfg.imagePath s0 with
      | mk r1 s1 =>
        rw [hd] at h1 h2 hout
        simp only at h1 h2
        subst h1
        subst hout
        exact ⟨e, rfl, by simp [h2, hs0], by intro h; simpa [h2, hs0] using h⟩
    · cases hd : downloadImageTo J cfg env cfg.imagePath s0 with
      | mk r1 s1 =>
        rw [hd] at h1 h2 h3 hout
        simp only at h1 h2 h3
        subst h1
        simp only [newMeta, nowMs, Prog.bind_run, Prog.pure_run] at hout
        rcases writeMeta_cases J cfg env (metaAt cfg (env.clock s1.clockReads))
          { s1 with clockReads := s1.clockReads + 1,
                    log := s1.log ++ [Event.now (env.clock s1.clockReads)] }
          with ⟨e, h4, h5⟩ | ⟨h4, h5, h6⟩
        · right
          cases hw : writeMeta J cfg env (metaAt cfg (env.clock s1.clockReads))
            { s1 with clockReads := s1.clockReads + 1,
                      log := s1.log ++ [Event.now (env.clock s1.clockReads)] } with
          | mk r3 s3 =>
            rw [hw] at h4 h5 hout
            simp only at h4 h5
            subst h4
            subst hout
            exact ⟨e, rfl, by simp [h5, h2, hs0], by intro _; simpa [h5] using h3⟩
        · left
          cases hw : writeMeta J cfg env (metaAt cfg (env.clock s1.clockReads))
            { s1 with clockReads := s1.clockReads + 1,
                      log := s1.log ++ [Event.now (env.clock s1.clockReads)] } with
          | mk r3 s3 =>
            rw [hw] at h4 h5 h6 hout
            simp only at h4 h5 h6
            subst h4
            subst hout
            exact ⟨_, tag, rfl, htag, by simpa [h5] using h3, h6⟩
  unfold ensureImageLocked
  simp only [Prog.bind_run, fileExists_run, safeReadJson_run]
  by_cases hcond : (!(s.fs cfg.imagePath).isSome || !(readJson J s.fs cfg.metaPath).truthy ||
      !Json.isNumber ((readJson J s.fs cfg.metaPath).getProp "expiresAtMs")) = true
  · simp only [hcond, if_true]
    rcases tail "downloaded-initial" s rfl (Or.inl rfl) _ rfl with h | h
    · exact Or.inr (Or.inr (Or.inl h))
    · exact Or.inr (Or.inr (Or.inr h))
  · simp only [hcond, if_false, Bool.false_eq_true]
    have hc : (s.fs cfg.imagePath).isSome = true ∧
        Json.isNumber ((readJson J s.fs cfg.metaPath).getProp "expiresAtMs") = true := by
      simp only [Bool.or_eq_true, Bool.not_eq_true', not_or, Bool.not_eq_false] at hcond
      exact ⟨hcond.1.1, hcond.2⟩
    simp only [nowMs, Prog.bind_run]
    by_cases hnow : env.clock s.clockReads ≤
        Json.numberOf ((readJson J s.fs cfg.metaPath).getProp "expiresAtMs")
    · left
      simp only [hnow, if_true, Prog.pure_run]
      exact ⟨trivial, trivial, hc.1, hc.2⟩
    · simp only [hnow, if_false]
      by_cases hflag : Json.isTrue
          ((readJson J s.fs cfg.metaPath).getProp "afterExpiryServedOnce") = true
      · simp only [hflag, Bool.not_true, Bool.false_eq_true, if_false]
        rcases tail "downloaded-after-expiry"
          { s with clockReads := s.clockReads + 1,
                   log := s.log ++ [Event.now (env.clock s.clockReads)] }
          rfl (Or.inr rfl) _ rfl with h | h
        · exact Or.inr (Or.inr (Or.inl h))
        · exact Or.inr (Or.inr (Or.inr h))
      · have hflag2 : Json.isTrue
            ((readJson J s.fs cfg.metaPath).getProp "afterExpiryServedOnce") = false := by
          simpa using hflag
        simp only [hflag2, Bool.not_false, if_true, Prog.bind_run, Prog.pure_run]
        rcases writeMeta_cases J cfg env
          ((readJson J s.fs cfg.metaPath).spreadSet "afterExpiryServedOnce" (Json.bool true))
          { s with clockReads := s.clockReads + 1,
                   log := s.log ++ [Event.now (env.clock s.clockReads)] }
          with ⟨e, h4, h5⟩ | ⟨h4, h5, h6⟩
        · right; right; right
          cases hw : writeMeta J cfg env
            ((readJson J s.fs cfg.metaPath).spreadSet "afterExpiryServedOnce" (Json.bool true))
            { s with clockReads := s.clockReads + 1,
                     log := s.log ++ [Event.now (env.clock s.clockReads)] } with
          | mk r3 s3 =>
            rw [hw] at h4 h5
            simp only at h4 h5
            subst h4
            exact ⟨e, rfl, by simp [h5], by intro h; simpa [h5] using h⟩
        · right; left
          cases hw : writeMeta J cfg env
            ((readJson J s.fs cfg.metaPath).spreadSet "afterExpiryServedOnce" (Json.bool true))
            { s with clockReads := s.clockReads + 1,
                     log := s.log ++ [Event.now (env.clock s.clockReads)] } with
          | mk r3 s3 =>
            rw [hw] at h4 h5 h6
            simp only at h4 h5 h6
            subst h4
            exact ⟨rfl, hc.1, hc.2, trivial, h5, h6⟩

end Cases

/-! ### The lock on an arbitrary world -/

section Lock
variable {C : Type} {α : Type}

theorem breakStale_run (cfg : Config) (env : Env) (s : World C) :
    breakStaleLockIfNeeded cfg env s =
      match s.fs cfg.lockPath with
      | none => (.ok (), s)
      | some f =>
        if env.clock s.clockReads - f.mtimeMs > 60000 then
          (.ok (), { s with
            clockReads := s.clockReads + 1,
            log := s.log ++ [Event.now (env.clock s.clockReads), Event.unlink cfg.lockPath],
            fs := Function.update s.fs cfg.lockPath none })
        else
          (.ok (), { s with
            clockReads := s.clockReads + 1,
            log := s.log ++ [Event.now (env.clock s.clockReads)] }) := by
  unfold breakStaleLockIfNeeded
  simp only [Prog.bind_run, statOrNull_run]
  cases h : s.fs cfg.lockPath with
  | none => simp
  | some f =>
    by_cases hst : env.clock s.clockReads - f.mtimeMs > 60000
    · simp [nowMs, hst, unlinkQuiet_run]
    · simp [nowMs, hst]

/-- One iteration of the lock loop when the marker can be created: the callback runs
on `sa`, the marker is removed afterwards, and an `EEXIST` thrown by the callback is
handled like a failed `open`. -/
theorem withLockIter_open (J : JsonCodec C) (cfg : Config) (env : Env) (fn : Prog C α)
    (start : Int) (s sb : World C)
    (hb : breakStaleLockIfNeeded cfg env s = (.ok (), sb)) (hfree : sb.fs cfg.lockPath = none) :
    (withLockIter J cfg env fn start s).2.fs cfg.lockPath = none ∧
    (∀ p, p ≠ cfg.lockPath → (withLockIter J cfg env fn start s).2.fs p =
      (fn (fsp.openWx J env cfg.lockPath sb).2).2.fs p) ∧
    (match (fn (fsp.openWx J env cfg.lockPath sb).2).1 with
      | .ok v => (withLockIter J cfg env fn start s).1 = .ok (some v)
      | .error e =>
        if e.code = some "EEXIST" then
          ((withLockIter J cfg env fn start s).1 = .ok none ∨
            (withLockIter J cfg env fn start s).1 = .error lockTimeout)
        else (withLockIter J cfg env fn start s).1 = .error e) := by
  have hopen : fsp.openWx J env cfg.lockPath sb =
      (.ok (), (fsp.openWx J env cfg.lockPath sb).2) := by
    simp [fsp.openWx, hfree]
  unfold withLockIter
  simp only [Prog.bind_run, Prog.tryCatch_run, hb, lockedRun, Prog.finallyDo]
  rw [hopen]
  simp only
  cases hfn : fn (fsp.openWx J env cfg.lockPath sb).2 with
  | mk r1 s1 =>
    cases r1 with
    | ok v =>
      simp [unlinkQuiet_run, Function.update_apply]
      intro p h1 h2
      exact absurd h2 h1
    | error e =>
      by_cases hc : e.code = some "EEXIST"
      · by_cases ht : env.clock s1.clockReads - start > 15000
        · simp [unlinkQuiet_run, Function.update_apply, hc, nowMs, ht]
          intro p h1 h2
          exact absurd h2 h1
        · simp [unlinkQuiet_run, Function.update_apply, hc, nowMs, ht, sleep]
          intro p h1 h2
          exact absurd h2 h1
      · simp [unlinkQuiet_run, Function.update_apply, hc]
        intro p h1 h2
        exact absurd h2 h1

/-- One iteration of the lock loop when the marker exists and is not stale: the
callback does not run and no file changes. -/
theorem withLockIter_busy (J : JsonCodec C) (cfg : Config) (env : Env) (fn : Prog C α)
    (start : Int) (s : World C) (f : File C) (hlock : s.fs cfg.lockPath = some f)
    (hfresh : ¬ env.clock s.clockReads - f.mtimeMs > 60000) :
    withLockIter J cfg env fn start s =
      if env.clock (s.clockReads + 1) - start > 15000 then
        (.error lockTimeout, { s with
          clockReads := s.clockReads + 2,
          fileOps := s.fileOps + 1,
          log := s.log ++ [Event.now (env.clock s.clockReads), Event.openWx cfg.lockPath,
            Event.now (env.clock (s.clockReads + 1))] })
      else
        (.ok none, { s with
          clockReads := s.clockReads + 2,
          fileOps := s.fileOps + 1,
          log := s.log ++ [Event.now (env.clock s.clockReads), Event.openWx cfg.lockPath,
            Event.now (env.clock (s.clockReads + 1)), Event.sleep 150] }) := by
  unfold withLockIter
  simp only [Prog.bind_run, Prog.tryCatch_run, breakStale_run, hlock, hfresh, if_false,
    lockedRun]
  by_cases ht : env.clock (s.clockReads + 1) - start > 15000
  · simp [fsp.openWx, hlock, nowMs, ht, Nat.add_assoc]
  · simp [fsp.openWx, hlock, nowMs, ht, sleep, Nat.add_assoc]

end Lock

section LockLoop
variable {C : Type} {α : Type}

theorem breakStale_frame (cfg : Config) (env : Env) (s : World C) :
    ∃ sb, breakStaleLockIfNeeded cfg env s = (.ok (), sb) ∧
      (∀ p, p ≠ cfg.lockPath → sb.fs p = s.fs p) ∧
      (sb.fs cfg.lockPath = none ∨
        ∃ f, s.fs cfg.lockPath = some f ∧ ¬ env.clock s.clockReads - f.mtimeMs > 60000) := by
  rw [breakStale_run]
  cases h : s.fs cfg.lockPath with
  | none => exact ⟨s, rfl, fun _ _ => rfl, Or.inl h⟩
  | some f =>
    by_cases hst : env.clock s.clockReads - f.mtimeMs > 60000
    · simp only [hst, if_true]
      exact ⟨_, rfl, fun p hp => by simp [Function.update_apply, hp], Or.inl (by simp)⟩
    · simp only [hst, if_false]
      exact ⟨_, rfl, fun _ _ => rfl, Or.inr ⟨f, rfl, hst⟩⟩

theorem openWx_frame (J : JsonCodec C) (cfg : Config) (env : Env) (s : World C) (p : String)
    (hp : p ≠ cfg.lockPath) : (fsp.openWx J env cfg.lockPath s).2.fs p = s.fs p := by
  unfold fsp.openWx
  cases h : s.fs cfg.lockPath <;> simp [Function.update_apply, hp]

/-- An invariant `P` of the files other than the marker that the callback keeps whenever
it throws, and a property `Q` of outcomes that the callback establishes, carry over to
every outcome of the lock loop. -/
theorem withLockLoop_post (J : JsonCodec C) (cfg : Config) (env : Env) (fn : Prog C α)
    (P : World C → Prop) (Q : Except JsError α → World C → Prop)
    (hP : ∀ s s', (∀ p, p ≠ cfg.lockPath → s'.fs p = s.fs p) → P s → P s')
    (hQ : ∀ r s s', (∀ p, p ≠ cfg.lockPath → s'.fs p = s.fs p) → Q r s → Q r s')
    (hfn : ∀ s, P s →
      (∀ v, (fn s).1 = .ok v → Q (.ok v) (fn s).2) ∧
      (∀ e, (fn s).1 = .error e → P (fn s).2 ∧ Q (.error e) (fn s).2))
    (htimeout : ∀ s, P s → Q (.error lockTimeout) s)
    (start : Int) (fuel : Nat) (s : World C) (r : Except JsError α) (s' : World C)
    (hs : P s) (hrun : withLockLoop J cfg env fn start fuel s = some (r, s')) : Q r s' := by
  induction fuel generalizing s with
  | zero => simp [withLockLoop] at hrun
  | succ fuel ih =>
    unfold withLockLoop at hrun
    obtain ⟨sb, hb, hbframe, hcase⟩ := breakStale_frame cfg env s
    rcases hcase with hfree | ⟨f, hlock, hfresh⟩
    · obtain ⟨_, hframe, hres⟩ := withLockIter_open J cfg env fn start s sb hb hfree
      have hPa : P (fsp.openWx J env cfg.lockPath sb).2 :=
        hP sb _ (fun p hp => openWx_frame J cfg env sb p hp) (hP s sb hbframe hs)
      obtain ⟨hokfn, herrfn⟩ := hfn _ hPa
      cases hit : withLockIter J cfg env fn start s with
      | mk ro so =>
        rw [hit] at hrun hframe hres
        simp only at hframe hres
        cases hr1 : (fn (fsp.openWx J env cfg.lockPath sb).2).1 with
        | ok v =>
          rw [hr1] at hres
          simp only at hres
          subst hres
          simp only [Option.some.injEq, Prod.mk.injEq] at hrun
          obtain ⟨rfl, rfl⟩ := hrun
          exact hQ _ _ _ hframe (hokfn v hr1)
        | error e =>
          rw [hr1] at hres
          simp only at hres
          obtain ⟨hP1, hQ1⟩ := herrfn e hr1
          have hPso : P so := hP _ _ hframe hP1
          by_cases hc : e.code = some "EEXIST"
          · simp only [hc, if_true] at hres
            rcases hres with rfl | rfl
            · simp only at hrun
              exact ih so hPso hrun
            · simp only [Option.some.injEq, Prod.mk.injEq] at hrun
              obtain ⟨rfl, rfl⟩ := hrun
              exact htimeout _ hPso
          · simp only [hc, if_false] at hres
            subst hres
            simp only [Option.some.injEq, Prod.mk.injEq] at hrun
            obtain ⟨rfl, rfl⟩ := hrun
            exact hQ _ _ _ hframe hQ1
    · rw [withLockIter_busy J cfg env fn start s f hlock hfresh] at hrun
      by_cases ht : env.clock (s.clockReads + 1) - start > 15000
      · simp only [ht, if_true, Option.some.injEq, Prod.mk.injEq] at hrun
        obtain ⟨rfl, rfl⟩ := hrun
        exact htimeout _ (hP s _ (fun _ _ => rfl) hs)
      · simp only [ht, if_false] at hrun
        refine ih _ ?_ hrun
        exact hP s _ (fun _ _ => rfl) hs

/-- The same for a whole call of `ensureImage`. -/
theorem ensureImage_post (J : JsonCodec C) (cfg : Config) (env : Env)
    (P : World C → Prop) (Q : Except JsError Result → World C → Prop)
    (hP : ∀ s s', (∀ p, p ≠ cfg.lockPath → s'.fs p = s.fs p) → P s → P s')
    (hQ : ∀ r s s', (∀ p, p ≠ cfg.lockPath → s'.fs p = s.fs p) → Q r s → Q r s')
    (hfn : ∀ s, P s →
      (∀ v, (ensureImageLocked J cfg env s).1 = .ok v → Q (.ok v) (ensureImageLocked J cfg env s).2) ∧
      (∀ e, (ensureImageLocked J cfg env s).1 = .error e →
        P (ensureImageLocked J cfg env s).2 ∧ Q (.error e) (ensureImageLocked J cfg env s).2))
    (htimeout : ∀ s, P s → Q (.error lockTimeout) s)
    (fuel : Nat) (s : World C) (r : Except JsError Result) (s' : World C)
    (hs : P s) (hrun : ensureImage J cfg env fuel s = some (r, s')) : Q r s' := by
  unfold ensureImage withLock at hrun
  simp only [ensureDataDir, fsp.mkdir, nowMs] at hrun
  refine withLockLoop_post J cfg env _ P Q hP hQ hfn htimeout _ fuel _ r s' ?_ hrun
  exact hP s _ (fun _ _ => rfl) hs

end LockLoop

section LockMarker
variable {C : Type} {α : Type}

/-- At every exit of the lock loop the marker is gone, unless the loop gave up on a
marker it never owned, in which case no file changed. -/
theorem withLockLoop_marker (J : JsonCodec C) (cfg : Config) (env : Env) (fn : Prog C α)
    (start : Int) (fuel : Nat) (s : World C) (r : Except JsError α) (s' : World C)
    (hrun : withLockLoop J cfg env fn start fuel s = some (r, s')) :
    s'.fs cfg.lockPath = none ∨ (r = .error lockTimeout ∧ s'.fs = s.fs) := by
  induction fuel generalizing s with
  | zero => simp [withLockLoop] at hrun
  | succ fuel ih =>
    unfold withLockLoop at hrun
    obtain ⟨sb, hb, _, hcase⟩ := breakStale_frame cfg env s
    rcases hcase with hfree | ⟨f, hlock, hfresh⟩
    · obtain ⟨hgone, _, hres⟩ := withLockIter_open J cfg env fn start s sb hb hfree
      left
      cases hit : withLockIter J cfg env fn start s with
      | mk ro so =>
        rw [hit] at hrun hgone
        simp only at hgone
        cases ro with
        | error e =>
          simp only [Option.some.injEq, Prod.mk.injEq] at hrun
          obtain ⟨rfl, rfl⟩ := hrun
          exact hgone
        | ok o =>
          cases o with
          | some v =>
            simp only [Option.some.injEq, Prod.mk.injEq] at hrun
            obtain ⟨rfl, rfl⟩ := hrun
            exact hgone
          | none =>
            simp only at hrun
            rcases ih so hrun with h | ⟨_, h⟩
            · exact h
            · rw [h]; exact hgone
    · rw [withLockIter_busy J cfg env fn start s f hlock hfresh] at hrun
      by_cases ht : env.clock (s.clockReads + 1) - start > 15000
      · simp only [ht, if_true, Option.some.injEq, Prod.mk.injEq] at hrun
        obtain ⟨rfl, rfl⟩ := hrun
        exact Or.inr ⟨rfl, rfl⟩
      · simp only [ht, if_false] at hrun
        rcases ih _ hrun with h | ⟨h1, h2⟩
        · exact Or.inl h
        · exact Or.inr ⟨h1, h2⟩

theorem withLock_marker (J : JsonCodec C) (cfg : Config) (env : Env) (fn : Prog C α)
    (fuel : Nat) (s : World C) (r : Except JsError α) (s' : World C)
    (hrun : withLock J cfg env fuel fn s = some (r, s')) :
    s'.fs cfg.lockPath = none ∨ (r = .error lockTimeout ∧ s'.fs = s.fs) := by
  unfold withLock at hrun
  simp only [nowMs] at hrun
  have h := withLockLoop_marker J cfg env fn _ fuel _ r s' hrun
  exact h

theorem ensureImage_marker (J : JsonCodec C) (cfg : Config) (env : Env)
    (fuel : Nat) (s : World C) (r : Except JsError Result) (s' : World C)
    (hlock : s.fs cfg.lockPath = none)
    (hrun : ensureImage J cfg env fuel s = some (r, s')) : s'.fs cfg.lockPath = none := by
  unfold ensureImage at hrun
  simp only [ensureDataDir, fsp.mkdir] at hrun
  rcases withLock_marker J cfg env _ fuel _ r s' hrun with h | ⟨_, h⟩
  · exact h
  · rw [h]; exact hlock

theorem withLock_stale (J : JsonCodec C) (cfg : Config) (env : Env) (fn : Prog C α)
    (fuel : Nat) (s : World C) (f : File C) (hlock : s.fs cfg.lockPath = some f)
    (hstale : env.clock (s.clockReads + 1) - f.mtimeMs > 60000)
    (hfn : ∀ e, (fn { s with
        clockReads := s.clockReads + 2,
        fileOps := s.fileOps + 1,
        log := s.log ++ [Event.now (env.clock s.clockReads),
          Event.now (env.clock (s.clockReads + 1)), Event.unlink cfg.lockPath,
          Event.openWx cfg.lockPath],
        fs := Function.update s.fs cfg.lockPath
          (some { data := J.buffer [], mtimeMs := env.mtime s.fileOps }) }).1 = .error e →
      e.code ≠ some "EEXIST") :
    withLock J cfg env (fuel + 1) fn s =
      some ((fn { s with
        clockReads := s.clockReads + 2,
        fileOps := s.fileOps + 1,
        log := s.log ++ [Event.now (env.clock s.clockReads),
          Event.now (env.clock (s.clockReads + 1)), Event.unlink cfg.lockPath,
          Event.openWx cfg.lockPath],
        fs := Function.update s.fs cfg.lockPath
          (some { data := J.buffer [], mtimeMs := env.mtime s.fileOps }) }).1,
        released cfg (fn { s with
        clockReads := s.clockReads + 2,
        fileOps := s.fileOps + 1,
        log := s.log ++ [Event.now (env.clock s.clockReads),
          Event.now (env.clock (s.clockReads + 1)), Event.unlink cfg.lockPath,
          Event.openWx cfg.lockPath],
        fs := Function.update s.fs cfg.lockPath
          (some { data := J.buffer [], mtimeMs := env.mtime s.fileOps }) }).2) := by
  unfold withLock
  simp only [nowMs, withLockLoop, withLockIter, Prog.bind_run, Prog.tryCatch_run, lockedRun,
    Prog.finallyDo, breakStale_run, hlock, hstale, if_true]
  simp only [fsp.openWx, Function.update_same, Function.update_idem, List.append_assoc,
    List.singleton_append, List.cons_append, List.nil_append, Nat.add_assoc]
  revert hfn
  generalize fn _ = out
  intro hfn
  obtain ⟨r1, s1⟩ := out
  cases r1 with
  | ok v => simp [released]
  | error e =>
    have := hfn e rfl
    simp [released, this]

end LockMarker

/-! ### Whole calls, when the marker is free -/

section Calls
variable {C : Type}

theorem ensureImage_free (J : JsonCodec C) (cfg : Config) (env : Env) (fuel : Nat) (s : World C)
    (hlock : s.fs cfg.lockPath = none)
    (hfn : ∀ e, (ensureImageLocked J cfg env
      (acquired J cfg env (ensureDataDir cfg s).2)).1 = .error e → e.code ≠ some "EEXIST") :
    ensureImage J cfg env (fuel + 1) s =
      some ((ensureImageLocked J cfg env (acquired J cfg env (ensureDataDir cfg s).2)).1,
        released cfg (ensureImageLocked J cfg env (acquired J cfg env (ensureDataDir cfg s).2)).2) := by
  unfold ensureImage
  have h : ensureDataDir cfg s = (.ok (), (ensureDataDir cfg s).2) := rfl
  rw [h]
  exact withLock_free J cfg env _ fuel _ (by simpa [ensureDataDir, fsp.mkdir] using hlock) hfn

theorem entered_eq (J : JsonCodec C) (cfg : Config) (env : Env) (s : World C)
    (hlock : s.fs cfg.lockPath = none) :
    acquired J cfg env (ensureDataDir cfg s).2 = { s with
      clockReads := s.clockReads + 1,
      fileOps := s.fileOps + 1,
      log := s.log ++ [Event.mkdir cfg.DATA_DIR, Event.now (env.clock s.clockReads),
        Event.openWx cfg.lockPath],
      fs := Function.update s.fs cfg.lockPath
        (some { data := J.buffer [], mtimeMs := env.mtime s.fileOps }) } := by
  rw [acquired_eq J cfg env _ (by simpa [ensureDataDir, fsp.mkdir] using hlock)]
  simp [ensureDataDir, fsp.mkdir]

theorem ensureImage_initial (J : JsonCodec C) (cfg : Config) (env : Env) (fuel : Nat)
    (r : Response) (buf : List Nat) (hok : r.ok = true)
    (hct : startsWith (toLowerCase (r.contentType.getD "")) "image/" = true)
    (hbody : r.body = .ok buf) (hlen : 1024 ≤ buf.length) (s : World C)
    (hlock : s.fs cfg.lockPath = none)
    (hcond : (!(s.fs cfg.imagePath).isSome || !(readJson J s.fs cfg.metaPath).truthy ||
      !Json.isNumber ((readJson J s.fs cfg.metaPath).getProp "expiresAtMs")) = true)
    (hfetch : env.fetch s.fetches = FetchResult.response r)
    (hw1 : env.writeFault (s.fileOps + 1) = none)
    (hw2 : env.writeFault (s.fileOps + 2) = none) :
    ensureImage J cfg env (fuel + 1) s =
      some (.ok { action := "downloaded-initial",
                  meta := metaAt cfg (env.clock (s.clockReads + 1)) },
        { s with
          clockReads := s.clockReads + 2,
          fetches := s.fetches + 1,
          randoms := s.randoms + 2,
          fileOps := s.fileOps + 3,
          log := s.log ++ [Event.mkdir cfg.DATA_DIR, Event.now (env.clock s.clockReads),
            Event.openWx cfg.lockPath, Event.fetch cfg.IMAGE_URL,
            Event.writeFile (tmpName cfg.imagePath env.pid (env.random s.randoms)),
            Event.rename (tmpName cfg.imagePath env.pid (env.random s.randoms)) cfg.imagePath,
            Event.now (env.clock (s.clockReads + 1)),
            Event.writeFile (tmpName cfg.metaPath env.pid (env.random (s.randoms + 1))),
            Event.rename (tmpName cfg.metaPath env.pid (env.random (s.randoms + 1)))
              cfg.metaPath,
            Event.unlink cfg.lockPath],
          fs := Function.update (Function.update (Function.update (Function.update
            (Function.update s.fs
            (tmpName cfg.imagePath env.pid (env.random s.randoms)) none)
            cfg.imagePath (some { data := J.buffer buf, mtimeMs := env.mtime (s.fileOps + 1) }))
            (tmpName cfg.metaPath env.pid (env.random (s.randoms + 1))) none)
            cfg.metaPath (some ⟨J.stringify (metaAt cfg (env.clock (s.clockReads + 1))),
              env.mtime (s.fileOps + 2)⟩))
            cfg.lockPath none }) := by
  have hb := ensureImageLocked_initial J cfg env (acquired J cfg env (ensureDataDir cfg s).2)
    r buf
    (by rw [entered_eq J cfg env s hlock]; simpa [readJson, Function.update_apply] using hcond)
    (by rw [entered_eq J cfg env s hlock]; exact hfetch) hok hct hbody hlen
    (by rw [entered_eq J cfg env s hlock]; exact hw1)
    (by rw [entered_eq J cfg env s hlock]; exact hw2)
  rw [ensureImage_free J cfg env fuel s hlock (by rw [hb]; intro e h; cases h)]
  rw [hb, entered_eq J cfg env s hlock, released_eq]
  simp only [Option.some.injEq, Prod.mk.injEq, true_and, World.mk.injEq, List.append_assoc,
    List.cons_append, List.nil_append, Nat.add_assoc, and_true]
  funext p
  simp only [Function.update_apply]
  by_cases h1 : p = cfg.lockPath
  · subst h1; simp
  · simp [h1]

theorem ensureImage_grace (J : JsonCodec C) (cfg : Config) (env : Env) (fuel : Nat)
    (f g : File C) (meta : Json) (e : Int) (hparse : J.parse g.data = some meta)
    (hexp : meta.getProp "expiresAtMs" = some (Json.num e))
    (hflag : meta.getProp "afterExpiryServedOnce" ≠ some (Json.bool true)) (s : World C)
    (hlock : s.fs cfg.lockPath = none)
    (himg : s.fs cfg.imagePath = some f) (hmeta : s.fs cfg.metaPath = some g)
    (hnow : e < env.clock (s.clockReads + 1))
    (hw : env.writeFault (s.fileOps + 1) = none) :
    ensureImage J cfg env (fuel + 1) s =
      some (.ok { action := "expired-served-old-once",
                  meta := meta.spreadSet "afterExpiryServedOnce" (Json.bool true) },
        { s with
          clockReads := s.clockReads + 2,
          randoms := s.randoms + 1,
          fileOps := s.fileOps + 2,
          log := s.log ++ [Event.mkdir cfg.DATA_DIR, Event.now (env.clock s.clockReads),
            Event.openWx cfg.lockPath, Event.now (env.clock (s.clockReads + 1)),
            Event.writeFile (tmpName cfg.metaPath env.pid (env.random s.randoms)),
            Event.rename (tmpName cfg.metaPath env.pid (env.random s.randoms)) cfg.metaPath,
            Event.unlink cfg.lockPath],
          fs := Function.update (Function.update (Function.update s.fs
            (tmpName cfg.metaPath env.pid (env.random s.randoms)) none)
            cfg.metaPath
            (some ⟨J.stringify (meta.spreadSet "afterExpiryServedOnce" (Json.bool true)),
              env.mtime (s.fileOps + 1)⟩))
            cfg.lockPath none }) := by
  obtain ⟨hread, hcond⟩ := fresh_cond J cfg s f g meta e himg hmeta hparse hexp
  have hb := ensureImageLocked_grace J cfg env (acquired J cfg env (ensureDataDir cfg s).2)
    meta e
    (by rw [entered_eq J cfg env s hlock]; simpa [readJson, Function.update_apply] using hread)
    (by rw [entered_eq J cfg env s hlock]; simpa [readJson, Function.update_apply] using hcond)
    hexp
    (by rw [entered_eq J cfg env s hlock]; exact hnow)
    (isTrue_eq_false _ hflag)
    (by rw [entered_eq J cfg env s hlock]; exact hw)
  rw [ensureImage_free J cfg env fuel s hlock (by rw [hb]; intro e h; cases h)]
  rw [hb, entered_eq J cfg env s hlock, released_eq]
  simp only [Option.some.injEq, Prod.mk.injEq, true_and, World.mk.injEq, List.append_assoc,
    List.cons_append, List.nil_append, Nat.add_assoc, and_true]
  funext p
  simp only [Function.update_apply]
  by_cases h1 : p = cfg.lockPath
  · subst h1; simp
  · simp [h1]

theorem ensureImage_refresh (J : JsonCodec C) (cfg : Config) (env : Env) (fuel : Nat)
    (f g : File C) (meta : Json) (e : Int) (r : Response) (buf : List Nat)
    (hparse : J.parse g.data = some meta)
    (hexp : meta.getProp "expiresAtMs" = some (Json.num e))
    (hflag : meta.getProp "afterExpiryServedOnce" = some (Json.bool true))
    (hok : r.ok = true)
    (hct : startsWith (toLowerCase (r.contentType.getD "")) "image/" = true)
    (hbody : r.body = .ok buf) (hlen : 1024 ≤ buf.length) (s : World C)
    (hlock : s.fs cfg.lockPath = none)
    (himg : s.fs cfg.imagePath = some f) (hmeta : s.fs cfg.metaPath = some g)
    (hnow : e < env.clock (s.clockReads + 1))
    (hfetch : env.fetch s.fetches = FetchResult.response r)
    (hw1 : env.writeFault (s.fileOps + 1) = none)
    (hw2 : env.writeFault (s.fileOps + 2) = none) :
    ensureImage J cfg env (fuel + 1) s =
      some (.ok { action := "downloaded-after-expiry",
                  meta := metaAt cfg (env.clock (s.clockReads + 2)) },
        { s with
          clockReads := s.clockReads + 3,
          fetches := s.fetches + 1,
          randoms := s.randoms + 2,
          fileOps := s.fileOps + 3,
          log := s.log ++ [Event.mkdir cfg.DATA_DIR, Event.now (env.clock s.clockReads),
            Event.openWx cfg.lockPath, Event.now (env.clock (s.clockReads + 1)),
            Event.fetch cfg.IMAGE_URL,
            Event.writeFile (tmpName cfg.imagePath env.pid (env.random s.randoms)),
            Event.rename (tmpName cfg.imagePath env.pid (env.random s.randoms)) cfg.imagePath,
            Event.now (env.clock (s.clockReads + 2)),
            Event.writeFile (tmpName cfg.metaPath env.pid (env.random (s.randoms + 1))),
            Event.rename (tmpName cfg.metaPath env.pid (env.random (s.randoms + 1)))
              cfg.metaPath,
            Event.unlink cfg.lockPath],
          fs := Function.update (Function.update (Function.update (Function.update
            (Function.update s.fs
            (tmpName cfg.imagePath env.pid (env.random s.randoms)) none)
            cfg.imagePath (some { data := J.buffer buf, mtimeMs := env.mtime (s.fileOps + 1) }))
            (tmpName cfg.metaPath env.pid (env.random (s.randoms + 1))) none)
            cfg.metaPath (some ⟨J.stringify (metaAt cfg (env.clock (s.clockReads + 2))),
              env.mtime (s.fileOps + 2)⟩))
            cfg.lockPath none }) := by
  obtain ⟨hread, hcond⟩ := fresh_cond J cfg s f g meta e himg hmeta hparse hexp
  have hb := ensureImageLocked_refresh J cfg env (acquired J cfg env (ensureDataDir cfg s).2)
    meta e r buf
    (by rw [entered_eq J cfg env s hlock]; simpa [readJson, Function.update_apply] using hread)
    (by rw [entered_eq J cfg env s hlock]; simpa [readJson, Function.update_apply] using hcond)
    hexp
    (by rw [entered_eq J cfg env s hlock]; exact hnow)
    (by rw [hflag]; rfl)
    (by rw [entered_eq J cfg env s hlock]; exact hfetch) hok hct hbody hlen
    (by rw [entered_eq J cfg env s hlock]; exact hw1)
    (by rw [entered_eq J cfg env s hlock]; exact hw2)
  rw [ensureImage_free J cfg env fuel s hlock (by rw [hb]; intro e h; cases h)]
  rw [hb, entered_eq J cfg env s hlock, released_eq]
  simp only [Option.some.injEq, Prod.mk.injEq, true_and, World.mk.injEq, List.append_assoc,
    List.cons_append, List.nil_append, Nat.add_assoc, and_true]
  funext p
  simp only [Function.update_apply]
  by_cases h1 : p = cfg.lockPath
  · subst h1; simp
  · simp [h1]

end Calls

section Policy
variable {C : Type}

/-- C1: in every Missing/Invalid state (artifact missing, or metadata file absent,
unparseable or without a numeric `expiresAtMs`) and for every download that passes
validation, the policy of `ensureImage` returns `downloaded-initial`, the artifact holds
the downloaded bytes and the metadata file holds
`{createdAtMs: t, expiresAtMs: t + TTL_MS, afterExpiryServedOnce: false}` for the clock
reading `t` taken after the download, the writes succeeding. This is proved of the
callback run under the lock on every world, and of the whole call of `ensureImage` when
it finds the lock marker free (the marker is gone afterwards). -/
theorem C1_missing_downloads_initial (J : JsonCodec C) (cfg : Config) (env : Env)
    (fuel : Nat) (s : World C) (r : Response) (buf : List Nat)
    (hstate : MissingOrInvalid J cfg s)
    (hfetch : env.fetch s.fetches = FetchResult.response r) (hok : r.ok = true)
    (hct : startsWith (toLowerCase (r.contentType.getD "")) "image/" = true)
    (hbody : r.body = .ok buf) (hlen : 1024 ≤ buf.length) :
    (env.writeFault s.fileOps = none → env.writeFault (s.fileOps + 1) = none →
      ∃ s', ensureImageLocked J cfg env s =
          (.ok { action := "downloaded-initial",
                 meta := metaAt cfg (env.clock s.clockReads) }, s') ∧
        (s'.fs cfg.imagePath).map File.data = some (J.buffer buf) ∧
        (s'.fs cfg.metaPath).map File.data =
          some (J.stringify (metaAt cfg (env.clock s.clockReads))) ∧
        readJson J s'.fs cfg.metaPath = metaAt cfg (env.clock s.clockReads) ∧
        s'.log = s.log ++ [Event.fetch cfg.IMAGE_URL,
          Event.writeFile (tmpName cfg.imagePath env.pid (env.random s.randoms)),
          Event.rename (tmpName cfg.imagePath env.pid (env.random s.randoms)) cfg.imagePath,
          Event.now (env.clock s.clockReads),
          Event.writeFile (tmpName cfg.metaPath env.pid (env.random (s.randoms + 1))),
          Event.rename (tmpName cfg.metaPath env.pid (env.random (s.randoms + 1)))
            cfg.metaPath]) ∧
    (s.fs cfg.lockPath = none → env.writeFault (s.fileOps + 1) = none →
      env.writeFault (s.fileOps + 2) = none →
      ∃ s', ensureImage J cfg env (fuel + 1) s =
          some (.ok { action := "downloaded-initial",
                      meta := metaAt cfg (env.clock (s.clockReads + 1)) }, s') ∧
        (s'.fs cfg.imagePath).map File.data = some (J.buffer buf) ∧
        (s'.fs cfg.metaPath).map File.data =
          some (J.stringify (metaAt cfg (env.clock (s.clockReads + 1)))) ∧
        readJson J s'.fs cfg.metaPath = metaAt cfg (env.clock (s.clockReads + 1)) ∧
        s'.fs cfg.lockPath = none ∧
        s'.log = s.log ++ [Event.mkdir cfg.DATA_DIR, Event.now (env.clock s.clockReads),
          Event.openWx cfg.lockPath, Event.fetch cfg.IMAGE_URL,
          Event.writeFile (tmpName cfg.imagePath env.pid (env.random s.randoms)),
          Event.rename (tmpName cfg.imagePath env.pid (env.random s.randoms)) cfg.imagePath,
          Event.now (env.clock (s.clockReads + 1)),
          Event.writeFile (tmpName cfg.metaPath env.pid (env.random (s.randoms + 1))),
          Event.rename (tmpName cfg.metaPath env.pid (env.random (s.randoms + 1)))
            cfg.metaPath,
          Event.unlink cfg.lockPath]) := by
  constructor
  · intro hw1 hw2
    rw [ensureImageLocked_initial J cfg env s r buf (missing_cond J cfg s hstate) hfetch hok
      hct hbody hlen hw1 hw2]
    refine ⟨_, rfl, ?_, ?_, ?_, rfl⟩
    · simp [Function.update_apply]
    · simp [Function.update_apply]
    · simp [readJson, Function.update_apply, J.parse_stringify]
  · intro hlock hw1 hw2
    rw [ensureImage_initial J cfg env fuel r buf hok hct hbody hlen s hlock
      (missing_cond J cfg s hstate) hfetch hw1 hw2]
    refine ⟨_, rfl, ?_, ?_, ?_, ?_, rfl⟩
    · simp [Function.update_apply]
    · simp [Function.update_apply]
    · simp [readJson, Function.update_apply, J.parse_stringify]
    · simp [Function.update_apply]

/-- Scenario A: on the empty data directory with TTL 600000 ms the first call returns
`downloaded-initial` and both files exist afterwards. -/
theorem C1_witness_empty_directory :
    ∃ s', ensureImage docCodec cfg0 env0 1 emptyWorld =
        some (.ok { action := "downloaded-initial", meta := metaAt cfg0 1010 }, s') ∧
      (s'.fs cfg0.imagePath).isSome = true ∧ (s'.fs cfg0.metaPath).isSome = true := by
  obtain ⟨s', h, hi, hm, _⟩ := (C1_missing_downloads_initial docCodec cfg0 env0 0 emptyWorld
    goodResponse jpegBytes (Or.inl rfl) rfl rfl (by decide) rfl
    (by rw [jpegBytes, List.length_replicate]; decide)).2 rfl rfl rfl
  refine ⟨s', h, ?_, ?_⟩
  · cases hf : s'.fs cfg0.imagePath with
    | none => rw [hf] at hi; cases hi
    | some f => rfl
  · cases hf : s'.fs cfg0.metaPath with
    | none => rw [hf] at hm; cases hm
    | some f => rfl

end Policy

section Fresh
variable {C : Type}

theorem ensureImage_kept (J : JsonCodec C) (cfg : Config) (env : Env) (fuel : Nat)
    (f g : File C) (meta : Json) (e : Int) (hparse : J.parse g.data = some meta)
    (hexp : meta.getProp "expiresAtMs" = some (Json.num e)) (s : World C)
    (hlock : s.fs cfg.lockPath = none)
    (himg : s.fs cfg.imagePath = some f) (hmeta : s.fs cfg.metaPath = some g)
    (hnow : env.clock (s.clockReads + 1) ≤ e) :
    ensureImage J cfg env (fuel + 1) s =
      some (.ok { action := "kept-valid", meta := meta },
        { s with
          clockReads := s.clockReads + 2,
          fileOps := s.fileOps + 1,
          log := s.log ++ [Event.mkdir cfg.DATA_DIR, Event.now (env.clock s.clockReads),
            Event.openWx cfg.lockPath, Event.now (env.clock (s.clockReads + 1)),
            Event.unlink cfg.lockPath] }) := by
  obtain ⟨hread, hcond⟩ := fresh_cond J cfg s f g meta e himg hmeta hparse hexp
  have hb := ensureImageLocked_kept J cfg env (acquired J cfg env (ensureDataDir cfg s).2)
    meta e
    (by rw [entered_eq J cfg env s hlock]; simpa [readJson, Function.update_apply] using hread)
    (by rw [entered_eq J cfg env s hlock]; simpa [readJson, Function.update_apply] using hcond)
    hexp
    (by rw [entered_eq J cfg env s hlock]; exact hnow)
  rw [ensureImage_free J cfg env fuel s hlock (by rw [hb]; intro e h; cases h)]
  rw [hb, entered_eq J cfg env s hlock, released_eq]
  simp [hlock, Nat.add_assoc]

/-- C2: in every Fresh state (the artifact exists, the metadata parses with a numeric
`expiresAtMs` and the time read is not after it, equality included) the policy of
`ensureImage` returns `kept-valid` with the metadata as read, fetches nothing, writes and
renames nothing and leaves every file as it was. This is proved of the callback run
under the lock on every world, and of the whole call of `ensureImage` when it finds the
lock marker free; any number of successive calls made while still fresh all return
`kept-valid` and leave the files unchanged. -/
theorem C2_fresh_is_noop (J : JsonCodec C) (cfg : Config) (env : Env) (fuel : Nat)
    (s : World C) (f g : File C) (meta : Json) (e : Int)
    (himg : s.fs cfg.imagePath = some f) (hmeta : s.fs cfg.metaPath = some g)
    (hparse : J.parse g.data = some meta)
    (hexp : meta.getProp "expiresAtMs" = some (Json.num e)) :
    (env.clock s.clockReads ≤ e →
      ∃ s', ensureImageLocked J cfg env s = (.ok { action := "kept-valid", meta := meta }, s') ∧
        s'.fs = s.fs ∧ s'.fetches = s.fetches ∧
        s'.log = s.log ++ [Event.now (env.clock s.clockReads)]) ∧
    (s.fs cfg.lockPath = none → env.clock (s.clockReads + 1) ≤ e →
      ∃ s', ensureImage J cfg env (fuel + 1) s =
          some (.ok { action := "kept-valid", meta := meta }, s') ∧
        s'.fs = s.fs ∧ s'.fetches = s.fetches ∧
        s'.log = s.log ++ [Event.mkdir cfg.DATA_DIR, Event.now (env.clock s.clockReads),
          Event.openWx cfg.lockPath, Event.now (env.clock (s.clockReads + 1)),
          Event.unlink cfg.lockPath]) ∧
    (s.fs cfg.lockPath = none → (∀ k, env.clock (s.clockReads + k) ≤ e) →
      ∀ n, ∃ s', ensureImageTimes J cfg env (fuel + 1) n s =
          some (List.replicate n (.ok { action := "kept-valid", meta := meta }), s') ∧
        s'.fs = s.fs ∧ s'.fetches = s.fetches) := by
  refine ⟨?_, ?_, ?_⟩
  · intro hnow
    obtain ⟨hread, hcond⟩ := fresh_cond J cfg s f g meta e himg hmeta hparse hexp
    exact ⟨_, ensureImageLocked_kept J cfg env s meta e hread hcond hexp hnow, rfl, rfl, rfl⟩
  · intro hlock hnow
    exact ⟨_, ensureImage_kept J cfg env fuel f g meta e hparse hexp s hlock himg hmeta hnow,
      rfl, rfl, rfl⟩
  · intro hlock hall n
    induction n generalizing s with
    | zero => exact ⟨s, rfl, rfl, rfl⟩
    | succ n ih =>
      obtain ⟨s1, h1, hfs1, hclk1, hfe1⟩ : ∃ s1, ensureImage J cfg env (fuel + 1) s =
          some (.ok { action := "kept-valid", meta := meta }, s1) ∧ s1.fs = s.fs ∧
          s1.clockReads = s.clockReads + 2 ∧ s1.fetches = s.fetches :=
        ⟨_, ensureImage_kept J cfg env fuel f g meta e hparse hexp s hlock himg hmeta (hall 1),
          rfl, rfl, rfl⟩
      obtain ⟨s', h2, hfs, hfe⟩ := ih s1 (by rw [hfs1]; exact himg) (by rw [hfs1]; exact hmeta)
        (by rw [hfs1]; exact hlock)
        (by intro k; rw [hclk1, Nat.add_assoc]; exact hall (2 + k))
      refine ⟨s', ?_, ?_, ?_⟩
      · simp only [ensureImageTimes, h1, h2, List.replicate_succ]
      · rw [hfs, hfs1]
      · rw [hfe, hfe1]

/-- Scenario B at the boundary: the clock reads exactly `expiresAtMs`; one call and five
successive calls all return `kept-valid`, and the files are those of before. -/
theorem C2_witness_boundary :
    (∃ s', ensureImage docCodec cfg0 (envAt 600400) 1 (storedWorld (metaAt cfg0 400)) =
        some (.ok { action := "kept-valid", meta := metaAt cfg0 400 }, s') ∧
      s'.fs = (storedWorld (metaAt cfg0 400)).fs) ∧
    (∃ s', ensureImageTimes docCodec cfg0 (envAt 600400) 1 5 (storedWorld (metaAt cfg0 400)) =
        some (List.replicate 5 (.ok { action := "kept-valid", meta := metaAt cfg0 400 }), s') ∧
      s'.fs = (storedWorld (metaAt cfg0 400)).fs) := by
  have h := C2_fresh_is_noop docCodec cfg0 (envAt 600400) 0 (storedWorld (metaAt cfg0 400))
    { data := Doc.raw oldBytes, mtimeMs := 500 }
    { data := Doc.json (metaAt cfg0 400), mtimeMs := 500 } (metaAt cfg0 400) 600400
    rfl rfl rfl rfl
  obtain ⟨s1, h1, h2, _⟩ := h.2.1 rfl (Int.le_refl 600400)
  obtain ⟨s2, h3, h4, _⟩ := h.2.2 rfl (fun _ => Int.le_refl 600400) 5
  exact ⟨⟨s1, h1, h2⟩, ⟨s2, h3, h4⟩⟩

end Fresh

section Expired
variable {C : Type}

/-- C3: in every Expired-FirstGrace state (the artifact exists, the metadata has a
numeric `expiresAtMs`, the time read is after it and `afterExpiryServedOnce` is not
`true`) the policy of `ensureImage`, its metadata write succeeding, returns
`expired-served-old-once`, fetches nothing, leaves the artifact file as it was, and
persists the old metadata with `afterExpiryServedOnce` set to `true` and every other
property unchanged; the returned metadata is the persisted one. This is proved of the
callback run under the lock on every world, and of the whole call of `ensureImage` when
it finds the lock marker free. -/
theorem C3_expired_first_grace (J : JsonCodec C) (cfg : Config) (env : Env) (fuel : Nat)
    (s : World C) (f g : File C) (meta : Json) (e : Int)
    (himg : s.fs cfg.imagePath = some f) (hmeta : s.fs cfg.metaPath = some g)
    (hparse : J.parse g.data = some meta)
    (hexp : meta.getProp "expiresAtMs" = some (Json.num e))
    (hflag : meta.getProp "afterExpiryServedOnce" ≠ some (Json.bool true)) :
    (e < env.clock s.clockReads → env.writeFault s.fileOps = none →
      ∃ s' updated, ensureImageLocked J cfg env s =
          (.ok { action := "expired-served-old-once", meta := updated }, s') ∧
        s'.fs cfg.imagePath = s.fs cfg.imagePath ∧
        (s'.fs cfg.metaPath).map File.data = some (J.stringify updated) ∧
        readJson J s'.fs cfg.metaPath = updated ∧
        updated.getProp "afterExpiryServedOnce" = some (Json.bool true) ∧
        (∀ k, k ≠ "afterExpiryServedOnce" → updated.getProp k = meta.getProp k) ∧
        s'.fetches = s.fetches ∧
        s'.log = s.log ++ [Event.now (env.clock s.clockReads),
          Event.writeFile (tmpName cfg.metaPath env.pid (env.random s.randoms)),
          Event.rename (tmpName cfg.metaPath env.pid (env.random s.randoms)) cfg.metaPath]) ∧
    (s.fs cfg.lockPath = none → e < env.clock (s.clockReads + 1) →
      env.writeFault (s.fileOps + 1) = none →
      ∃ s' updated, ensureImage J cfg env (fuel + 1) s =
          some (.ok { action := "expired-served-old-once", meta := updated }, s') ∧
        s'.fs cfg.imagePath = s.fs cfg.imagePath ∧
        (s'.fs cfg.metaPath).map File.data = some (J.stringify updated) ∧
        readJson J s'.fs cfg.metaPath = updated ∧
        updated.getProp "afterExpiryServedOnce" = some (Json.bool true) ∧
        (∀ k, k ≠ "afterExpiryServedOnce" → updated.getProp k = meta.getProp k) ∧
        s'.fetches = s.fetches ∧
        s'.log = s.log ++ [Event.mkdir cfg.DATA_DIR, Event.now (env.clock s.clockReads),
          Event.openWx cfg.lockPath, Event.now (env.clock (s.clockReads + 1)),
          Event.writeFile (tmpName cfg.metaPath env.pid (env.random s.randoms)),
          Event.rename (tmpName cfg.metaPath env.pid (env.random s.randoms)) cfg.metaPath,
          Event.unlink cfg.lockPath]) := by
  have hother : ∀ k, k ≠ "afterExpiryServedOnce" →
      (meta.spreadSet "afterExpiryServedOnce" (Json.bool true)).getProp k = meta.getProp k := by
    intro k hk
    cases meta with
    | obj kvs => exact getProp_spreadSet_other kvs _ k _ hk
    | _ => simp [Json.getProp] at hexp
  constructor
  · intro hnow hw
    obtain ⟨hread, hcond⟩ := fresh_cond J cfg s f g meta e himg hmeta hparse hexp
    rw [ensureImageLocked_grace J cfg env s meta e hread hcond hexp hnow
      (isTrue_eq_false _ hflag) hw]
    refine ⟨_, _, rfl, ?_, ?_, ?_, getProp_spreadSet_same _ _ _, hother, rfl, rfl⟩
    · simp [Function.update_apply]
    · simp [Function.update_apply]
    · simp [readJson, Function.update_apply, J.parse_stringify]
  · intro hlock hnow hw
    rw [ensureImage_grace J cfg env fuel f g meta e hparse hexp hflag s hlock himg hmeta hnow hw]
    refine ⟨_, _, rfl, ?_, ?_, ?_, getProp_spreadSet_same _ _ _, hother, rfl, rfl⟩
    · simp [Function.update_apply]
    · simp [Function.update_apply]
    · simp [readJson, Function.update_apply, J.parse_stringify]

/-- Scenario C: metadata expired at 600400, flag `false`, clock at 700000: the call returns
`expired-served-old-once`, the flag read back is `true`, the artifact file is unchanged. -/
theorem C3_witness_expired_unserved :
    ∃ s' updated, ensureImage docCodec cfg0 (envAt 700000) 1 (storedWorld (metaAt cfg0 400)) =
        some (.ok { action := "expired-served-old-once", meta := updated }, s') ∧
      s'.fs cfg0.imagePath = (storedWorld (metaAt cfg0 400)).fs cfg0.imagePath ∧
      (readJson docCodec s'.fs cfg0.metaPath).getProp "afterExpiryServedOnce" =
        some (Json.bool true) ∧
      (readJson docCodec s'.fs cfg0.metaPath).getProp "expiresAtMs" =
        some (Json.num 600400) := by
  obtain ⟨s', updated, h, hi, _, hr, hf, ho, _⟩ :=
    (C3_expired_first_grace docCodec cfg0 (envAt 700000) 0 (storedWorld (metaAt cfg0 400))
      { data := Doc.raw oldBytes, mtimeMs := 500 }
      { data := Doc.json (metaAt cfg0 400), mtimeMs := 500 } (metaAt cfg0 400) 600400
      rfl rfl rfl rfl (by simp [metaAt, Json.getProp, List.lookup])).2 rfl (by decide) rfl
  refine ⟨s', updated, h, hi, ?_, ?_⟩
  · rw [hr]; exact hf
  · rw [hr, ho "expiresAtMs" (by decide)]; rfl

/-- C4: in every Expired-ForceRefresh state (the artifact exists, the metadata has a
numeric `expiresAtMs`, the time read is after it and `afterExpiryServedOnce` is `true`)
the policy of `ensureImage`, the download passing validation and the writes succeeding,
returns `downloaded-after-expiry`; the artifact holds the new bytes and the metadata file
holds the fresh record `{createdAtMs: t, expiresAtMs: t + TTL_MS,
afterExpiryServedOnce: false}` for the clock reading `t` taken after the download,
whatever the old metadata was. This is proved of the callback run under the lock on every
world, and of the whole call of `ensureImage` when it finds the lock marker free. -/
theorem C4_expired_force_refresh (J : JsonCodec C) (cfg : Config) (env : Env) (fuel : Nat)
    (s : World C) (f g : File C) (meta : Json) (e : Int) (r : Response) (buf : List Nat)
    (himg : s.fs cfg.imagePath = some f) (hmeta : s.fs cfg.metaPath = some g)
    (hparse : J.parse g.data = some meta)
    (hexp : meta.getProp "expiresAtMs" = some (Json.num e))
    (hflag : meta.getProp "afterExpiryServedOnce" = some (Json.bool true))
    (hfetch : env.fetch s.fetches = FetchResult.response r) (hok : r.ok = true)
    (hct : startsWith (toLowerCase (r.contentType.getD "")) "image/" = true)
    (hbody : r.body = .ok buf) (hlen : 1024 ≤ buf.length) :
    (e < env.clock s.clockReads → env.writeFault s.fileOps = none →
      env.writeFault (s.fileOps + 1) = none →
      ∃ s', ensureImageLocked J cfg env s =
          (.ok { action := "downloaded-after-expiry",
                 meta := metaAt cfg (env.clock (s.clockReads + 1)) }, s') ∧
        (s'.fs cfg.imagePath).map File.data = some (J.buffer buf) ∧
        (s'.fs cfg.metaPath).map File.data =
          some (J.stringify (metaAt cfg (env.clock (s.clockReads + 1)))) ∧
        readJson J s'.fs cfg.metaPath = metaAt cfg (env.clock (s.clockReads + 1)) ∧
        (metaAt cfg (env.clock (s.clockReads + 1))).getProp "afterExpiryServedOnce" =
          some (Json.bool false) ∧
        s'.log = s.log ++ [Event.now (env.clock s.clockReads), Event.fetch cfg.IMAGE_URL,
          Event.writeFile (tmpName cfg.imagePath env.pid (env.random s.randoms)),
          Event.rename (tmpName cfg.imagePath env.pid (env.random s.randoms)) cfg.imagePath,
          Event.now (env.clock (s.clockReads + 1)),
          Event.writeFile (tmpName cfg.metaPath env.pid (env.random (s.randoms + 1))),
          Event.rename (tmpName cfg.metaPath env.pid (env.random (s.randoms + 1)))
            cfg.metaPath]) ∧
    (s.fs cfg.lockPath = none → e < env.clock (s.clockReads + 1) →
      env.writeFault (s.fileOps + 1) = none → env.writeFault (s.fileOps + 2) = none →
      ∃ s', ensureImage J cfg env (fuel + 1) s =
          some (.ok { action := "downloaded-after-expiry",
                      meta := metaAt cfg (env.clock (s.clockReads + 2)) }, s') ∧
        (s'.fs cfg.imagePath).map File.data = some (J.buffer buf) ∧
        (s'.fs cfg.metaPath).map File.data =
          some (J.stringify (metaAt cfg (env.clock (s.clockReads + 2)))) ∧
        readJson J s'.fs cfg.metaPath = metaAt cfg (env.clock (s.clockReads + 2)) ∧
        (metaAt cfg (env.clock (s.clockReads + 2))).getProp "afterExpiryServedOnce" =
          some (Json.bool false) ∧
        s'.fs cfg.lockPath = none ∧
        s'.log = s.log ++ [Event.mkdir cfg.DATA_DIR, Event.now (env.clock s.clockReads),
          Event.openWx cfg.lockPath, Event.now (env.clock (s.clockReads + 1)),
          Event.fetch cfg.IMAGE_URL,
          Event.writeFile (tmpName cfg.imagePath env.pid (env.random s.randoms)),
          Event.rename (tmpName cfg.imagePath env.pid (env.random s.randoms)) cfg.imagePath,
          Event.now (env.clock (s.clockReads + 2)),
          Event.writeFile (tmpName cfg.metaPath env.pid (env.random (s.randoms + 1))),
          Event.rename (tmpName cfg.metaPath env.pid (env.random (s.randoms + 1)))
            cfg.metaPath,
          Event.unlink cfg.lockPath]) := by
  constructor
  · intro hnow hw1 hw2
    obtain ⟨hread, hcond⟩ := fresh_cond J cfg s f g meta e himg hmeta hparse hexp
    rw [ensureImageLocked_refresh J cfg env s meta e r buf hread hcond hexp hnow
      (by rw [hflag]; rfl) hfetch hok hct hbody hlen hw1 hw2]
    refine ⟨_, rfl, ?_, ?_, ?_, ?_, rfl⟩
    · simp [Function.update_apply]
    · simp [Function.update_apply]
    · simp [readJson, Function.update_apply, J.parse_stringify]
    · simp [metaAt, Json.getProp, List.lookup]
  · intro hlock hnow hw1 hw2
    rw [ensureImage_refresh J cfg env fuel f g meta e r buf hparse hexp hflag hok hct hbody hlen
      s hlock himg hmeta hnow hfetch hw1 hw2]
    refine ⟨_, rfl, ?_, ?_, ?_, ?_, ?_, rfl⟩
    · simp [Function.update_apply]
    · simp [Function.update_apply]
    · simp [readJson, Function.update_apply, J.parse_stringify]
    · simp [metaAt, Json.getProp, List.lookup]
    · simp [Function.update_apply]

/-- Scenario D: metadata expired, flag `true`, clock at 700000: the call returns
`downloaded-after-expiry`, the artifact is the downloaded body, the flag is `false`. -/
theorem C4_witness_expired_served :
    ∃ s', ensureImage docCodec cfg0 (envAt 700000) 1 (storedWorld servedMeta) =
        some (.ok { action := "downloaded-after-expiry", meta := metaAt cfg0 700000 }, s') ∧
      (s'.fs cfg0.imagePath).map File.data = some (Doc.raw jpegBytes) ∧
      readJson docCodec s'.fs cfg0.metaPath = metaAt cfg0 700000 := by
  obtain ⟨s', h, hi, _, hr, _⟩ :=
    (C4_expired_force_refresh docCodec cfg0 (envAt 700000) 0 (storedWorld servedMeta)
      { data := Doc.raw oldBytes, mtimeMs := 500 }
      { data := Doc.json servedMeta, mtimeMs := 500 } servedMeta 600400 goodResponse
      jpegBytes
      rfl rfl rfl rfl rfl rfl rfl (by decide) rfl
      (by rw [jpegBytes, List.length_replicate]; decide)).2 rfl (by decide) rfl rfl
  exact ⟨s', h, hi, hr⟩

end Expired

section Download
variable {C : Type}

/-- C5: when the policy of `ensureImage` leads to a download (the state is
Missing/Invalid, or Expired-ForceRefresh) and the download fails (rejected fetch,
non-success status, content type that is no image, unreadable body, body under 1024
bytes), the error of that failure is thrown and no action is returned; the files are
exactly those of before (the metadata keeps a `true` flag) and neither a write nor a
rename is issued. This is proved of the callback run under the lock on every world, and
of the whole call of `ensureImage` when it finds the lock marker free. -/
theorem C5_download_failure_is_atomic (J : JsonCodec C) (cfg : Config) (env : Env)
    (fuel : Nat) (s : World C) (hfail : FailedDownload (env.fetch s.fetches)) :
    (MissingOrInvalid J cfg s ∨ ExpiredServed J cfg s (env.clock s.clockReads) →
      ∃ err s', downloadFailure (env.fetch s.fetches) = some err ∧
        ensureImageLocked J cfg env s = (.error err, s') ∧
        s'.fs = s.fs ∧
        (s'.log = s.log ++ [Event.fetch cfg.IMAGE_URL] ∨
          s'.log = s.log ++ [Event.now (env.clock s.clockReads),
            Event.fetch cfg.IMAGE_URL])) ∧
    (s.fs cfg.lockPath = none →
      MissingOrInvalid J cfg s ∨ ExpiredServed J cfg s (env.clock (s.clockReads + 1)) →
      ∃ err s', downloadFailure (env.fetch s.fetches) = some err ∧
        ensureImage J cfg env (fuel + 1) s = some (.error err, s') ∧
        s'.fs = s.fs ∧
        (s'.log = s.log ++ [Event.mkdir cfg.DATA_DIR, Event.now (env.clock s.clockReads),
            Event.openWx cfg.lockPath, Event.fetch cfg.IMAGE_URL,
            Event.unlink cfg.lockPath] ∨
          s'.log = s.log ++ [Event.mkdir cfg.DATA_DIR, Event.now (env.clock s.clockReads),
            Event.openWx cfg.lockPath, Event.now (env.clock (s.clockReads + 1)),
            Event.fetch cfg.IMAGE_URL, Event.unlink cfg.lockPath])) := by
  obtain ⟨err, herr⟩ := downloadFailure_of_kind _ hfail
  have hcode := downloadFailure_code _ _ herr
  constructor
  · rintro (hmiss | ⟨f, g, meta, e, himg, hmeta, hparse, hexp, hnow, hflag⟩)
    · exact ⟨err, _, herr,
        ensureImageLocked_initial_fail J cfg env s err (missing_cond J cfg s hmiss) herr, rfl,
        Or.inl rfl⟩
    · obtain ⟨hread, hcond⟩ := fresh_cond J cfg s f g meta e himg hmeta hparse hexp
      exact ⟨err, _, herr,
        ensureImageLocked_refresh_fail J cfg env s meta e err hread hcond hexp hnow
          (by rw [hflag]; rfl) herr, rfl, Or.inr rfl⟩
  · intro hlock hstate
    rcases hstate with hmiss | ⟨f, g, meta, e, himg, hmeta, hparse, hexp, hnow, hflag⟩
    · have hcond := missing_cond J cfg s hmiss
      have hb := ensureImageLocked_initial_fail J cfg env
        (acquired J cfg env (ensureDataDir cfg s).2) err
        (by rw [entered_eq J cfg env s hlock]; simpa [readJson, Function.update_apply] using hcond)
        (by rw [entered_eq J cfg env s hlock]; exact herr)
      rw [ensureImage_free J cfg env fuel s hlock
        (by rw [hb]; intro e h; cases h; simp [hcode])]
      rw [hb, entered_eq J cfg env s hlock, released_eq]
      refine ⟨err, _, herr, rfl, ?_, ?_⟩
      · simp [hlock]
      · left
        simp
    · obtain ⟨hread, hcond⟩ := fresh_cond J cfg s f g meta e himg hmeta hparse hexp
      have hb := ensureImageLocked_refresh_fail J cfg env
        (acquired J cfg env (ensureDataDir cfg s).2) meta e err
        (by rw [entered_eq J cfg env s hlock]; simpa [readJson, Function.update_apply] using hread)
        (by rw [entered_eq J cfg env s hlock]; simpa [readJson, Function.update_apply] using hcond)
        hexp
        (by rw [entered_eq J cfg env s hlock]; exact hnow)
        (by rw [hflag]; rfl)
        (by rw [entered_eq J cfg env s hlock]; exact herr)
      rw [ensureImage_free J cfg env fuel s hlock
        (by rw [hb]; intro e h; cases h; simp [hcode])]
      rw [hb, entered_eq J cfg env s hlock, released_eq]
      refine ⟨err, _, herr, rfl, ?_, ?_⟩
      · simp [hlock]
      · right
        simp

/-- Scenario E: a 400-byte `text/html` response while the metadata is expired with the
flag `true`: the call throws, and the artifact and the metadata (flag still `true`) are
those of before. -/
theorem C5_witness_error_page :
    ∃ s', ensureImage docCodec cfg0 (envErrorPage 700000) 1 (storedWorld servedMeta) =
        some (.error (JsError.new "Unexpected content-type: text/html"), s') ∧
      s'.fs = (storedWorld servedMeta).fs ∧
      (readJson docCodec s'.fs cfg0.metaPath).getProp "afterExpiryServedOnce" =
        some (Json.bool true) := by
  obtain ⟨err, s', he, h, hfs, _⟩ :=
    (C5_download_failure_is_atomic docCodec cfg0 (envErrorPage 700000) 0
      (storedWorld servedMeta)
      (Or.inr ⟨errorPage, rfl, Or.inr (Or.inl (by decide))⟩)).2 rfl
      (Or.inr ⟨{ data := Doc.raw oldBytes, mtimeMs := 500 },
        { data := Doc.json servedMeta, mtimeMs := 500 }, servedMeta, 600400,
        rfl, rfl, rfl, rfl, by decide, rfl⟩)
  have herr : err = JsError.new "Unexpected content-type: text/html" := by
    have h2 : downloadFailure ((envErrorPage 700000).fetch (storedWorld servedMeta).fetches) =
        some (JsError.new "Unexpected content-type: text/html") := by decide
    rw [h2] at he
    exact (Option.some.inj he).symm
  subst herr
  refine ⟨s', h, hfs, ?_⟩
  rw [hfs]
  rfl

/-- C6: for every response and every target path, `downloadImageTo` writes the temporary
file exactly when the response passes validation (success status, lower-cased content
type starting with `image/`, body of at least 1024 bytes); then, the write succeeding, it
renames the temporary file onto the target, which holds the body. In every other case it
throws having touched no file: no temporary name is drawn, nothing is written or renamed.
An absent content-type header is rejected. -/
theorem C6_validation_before_publish (J : JsonCodec C) (cfg : Config) (env : Env)
    (p : String) (s : World C) (r : Response)
    (hfetch : env.fetch s.fetches = FetchResult.response r) :
    ((∃ rest, (downloadImageTo J cfg env p s).2.log = s.log ++ Event.fetch cfg.IMAGE_URL ::
        Event.writeFile (tmpName p env.pid (env.random s.randoms)) :: rest) ↔
      r.passes = true) ∧
    (r.passes = true → env.writeFault s.fileOps = none →
      ∃ buf s', r.body = .ok buf ∧ downloadImageTo J cfg env p s = (.ok (), s') ∧
        (s'.fs p).map File.data = some (J.buffer buf) ∧
        s'.log = s.log ++ [Event.fetch cfg.IMAGE_URL,
          Event.writeFile (tmpName p env.pid (env.random s.randoms)),
          Event.rename (tmpName p env.pid (env.random s.randoms)) p]) ∧
    (r.passes = false →
      ∃ err s', downloadImageTo J cfg env p s = (.error err, s') ∧ s'.fs = s.fs ∧
        s'.randoms = s.randoms ∧ s'.fileOps = s.fileOps ∧
        s'.log = s.log ++ [Event.fetch cfg.IMAGE_URL]) ∧
    (r.contentType = none → r.passes = false) := by
  have hpass : r.passes = true →
      ∃ buf, r.body = .ok buf ∧
        ((env.writeFault s.fileOps = none ∧ downloadImageTo J cfg env p s = (.ok (),
          { s with
            fetches := s.fetches + 1,
            randoms := s.randoms + 1,
            fileOps := s.fileOps + 1,
            log := s.log ++ [Event.fetch cfg.IMAGE_URL,
              Event.writeFile (tmpName p env.pid (env.random s.randoms)),
              Event.rename (tmpName p env.pid (env.random s.randoms)) p],
            fs := Function.update
              (Function.update s.fs (tmpName p env.pid (env.random s.randoms)) none)
              p (some { data := J.buffer buf, mtimeMs := env.mtime s.fileOps }) })) ∨
        (∃ err, downloadImageTo J cfg env p s = (.error err,
          { s with
            fetches := s.fetches + 1,
            randoms := s.randoms + 1,
            fileOps := s.fileOps + 1,
            log := s.log ++ [Event.fetch cfg.IMAGE_URL,
              Event.writeFile (tmpName p env.pid (env.random s.randoms))] }))) := by
    intro hp
    obtain ⟨hok, hct, buf, hb, hlen⟩ := passes_body r hp
    refine ⟨buf, hb, ?_⟩
    cases hw : env.writeFault s.fileOps with
    | none => exact Or.inl ⟨rfl, downloadImageTo_ok J cfg env p r buf hok hct hb hlen s hfetch hw⟩
    | some err =>
      exact Or.inr ⟨err, downloadImageTo_fault J cfg env p r buf err hok hct hb hlen s hfetch hw⟩
  have hfailed : r.passes = false →
      ∃ err, downloadImageTo J cfg env p s = (.error err,
        { s with fetches := s.fetches + 1, log := s.log ++ [Event.fetch cfg.IMAGE_URL] }) := by
    intro hp
    cases hd : downloadFailure (FetchResult.response r) with
    | none => rw [(passes_iff r).mpr hd] at hp; cases hp
    | some err =>
      exact ⟨err, downloadImageTo_fail J cfg env p err s (by rw [hfetch]; exact hd)⟩
  refine ⟨⟨?_, ?_⟩, ?_, ?_, ?_⟩
  · rintro ⟨rest, hlog⟩
    cases hp : r.passes with
    | true => rfl
    | false =>
      obtain ⟨err, h⟩ := hfailed hp
      rw [h] at hlog
      simp at hlog
  · intro hp
    obtain ⟨buf, _, h | ⟨err, h⟩⟩ := hpass hp
    · exact ⟨[Event.rename (tmpName p env.pid (env.random s.randoms)) p], by rw [h.2]⟩
    · exact ⟨[], by rw [h]⟩
  · intro hp hw
    obtain ⟨buf, hb, h | ⟨err, h⟩⟩ := hpass hp
    · exact ⟨buf, _, hb, h.2, by simp, rfl⟩
    · have h2 := downloadImageTo_fault J cfg env p r buf
      obtain ⟨hok, hct, buf2, hb2, hlen⟩ := passes_body r hp
      rw [downloadImageTo_ok J cfg env p r buf2 hok hct hb2 hlen s hfetch hw] at h
      cases h
  · intro hp
    obtain ⟨err, h⟩ := hfailed hp
    exact ⟨err, _, h, rfl, rfl, rfl, rfl⟩
  · intro hct
    simp [Response.passes, hct, startsWith, toLowerCase]

/-- A 400-byte error page is refused before any file is touched, and a valid response is
published. -/
theorem C6_witness_error_page_and_image :
    (∃ err s', downloadImageTo docCodec cfg0 (envErrorPage 1000) cfg0.imagePath emptyWorld =
        (.error err, s') ∧ s'.fs = emptyWorld.fs ∧
        s'.log = [Event.fetch cfg0.IMAGE_URL]) ∧
    (∃ buf s', goodResponse.body = .ok buf ∧
      downloadImageTo docCodec cfg0 env0 cfg0.imagePath emptyWorld = (.ok (), s') ∧
      (s'.fs cfg0.imagePath).map File.data = some (Doc.raw buf)) := by
  have h1 := (C6_validation_before_publish docCodec cfg0 (envErrorPage 1000) cfg0.imagePath
    emptyWorld errorPage rfl).2.2.1 (by decide)
  have h2 := (C6_validation_before_publish docCodec cfg0 env0 cfg0.imagePath
    emptyWorld goodResponse rfl).2.1
    (by simp only [Response.passes, goodResponse, jpegBytes, List.length_replicate]; decide) rfl
  obtain ⟨err, s1, ha, hb, _, _, hc⟩ := h1
  obtain ⟨buf, s2, hd, he, hf, _⟩ := h2
  exact ⟨⟨err, s1, ha, hb, hc⟩, ⟨buf, s2, hd, he, hf⟩⟩

end Download

section Invariant
variable {C : Type}

theorem readJson_number (J : JsonCodec C) (fs : String → Option (File C)) (p k : String)
    (h : Json.isNumber ((readJson J fs p).getProp k) = true) :
    ∃ g kvs, fs p = some g ∧ J.parse g.data = some (Json.obj kvs) ∧
      readJson J fs p = Json.obj kvs := by
  unfold readJson at h ⊢
  cases hf : fs p with
  | none => simp [hf, Json.getProp, Json.isNumber] at h
  | some g =>
    cases hp : J.parse g.data with
    | none => simp [hf, hp, Json.getProp, Json.isNumber] at h
    | some m =>
      cases m with
      | obj kvs => exact ⟨g, kvs, rfl, hp, by simp [hp]⟩
      | _ => simp [hf, hp, Json.getProp, Json.isNumber] at h

theorem metaAt_invariant (cfg : Config) (t : Int) : MetaInvariant cfg (metaAt cfg t) :=
  ⟨t, by simp [metaAt, Json.getProp, List.lookup], by simp [metaAt, Json.getProp, List.lookup]⟩

theorem stored_of_data (J : JsonCodec C) (cfg : Config) (s : World C) (m : Json)
    (h : (s.fs cfg.metaPath).map File.data = some (J.stringify m)) :
    ∃ g, s.fs cfg.metaPath = some g ∧ J.parse g.data = some m := by
  cases hf : s.fs cfg.metaPath with
  | none => simp [hf] at h
  | some g =>
    simp only [hf, Option.map_some', Option.some.injEq] at h
    exact ⟨g, rfl, by rw [h, J.parse_stringify]⟩

theorem ensureImage_keeps_invariant (J : JsonCodec C) (cfg : Config) (env : Env) (fuel : Nat)
    (s : World C) (r : Except JsError Result) (s' : World C)
    (hs : StoredInvariant J cfg s) (hrun : ensureImage J cfg env fuel s = some (r, s')) :
    StoredInvariant J cfg s' ∧ ∀ res, r = .ok res → MetaInvariant cfg res.meta := by
  refine ensureImage_post J cfg env (StoredInvariant J cfg)
    (fun r s => StoredInvariant J cfg s ∧ ∀ res, r = .ok res → MetaInvariant cfg res.meta)
    ?_ ?_ ?_ ?_ fuel s r s' hs hrun
  · intro a b hab ha
    unfold StoredInvariant at ha ⊢
    rw [hab cfg.metaPath (by simp)]
    exact ha
  · intro r a b hab ha
    refine ⟨?_, ha.2⟩
    have := ha.1
    unfold StoredInvariant at this ⊢
    rw [hab cfg.metaPath (by simp)]
    exact this
  · intro a ha
    have hread : ∀ kvs, readJson J a.fs cfg.metaPath = Json.obj kvs →
        Json.isNumber ((readJson J a.fs cfg.metaPath).getProp "expiresAtMs") = true →
        MetaInvariant cfg (Json.obj kvs) := by
      intro kvs hk hn
      obtain ⟨g, kvs2, hg, hp, hr⟩ := readJson_number J a.fs cfg.metaPath _ hn
      rcases ha with h | ⟨g2, m, hg2, hp2, hm⟩
      · rw [h] at hg; cases hg
      · rw [hg] at hg2
        cases hg2
        rw [hp] at hp2
        cases hp2
        rw [hr] at hk
        cases hk
        exact hm
    rcases ensureImageLocked_cases J cfg env a with
      ⟨h1, h2, _, h4⟩ | ⟨h1, _, h3, _, _, h6⟩ | ⟨t, tag, h1, _, _, h4⟩ | ⟨e, h1, h2, _⟩
    · constructor
      · intro v hv
        rw [h1] at hv
        cases hv
        refine ⟨?_, ?_⟩
        · unfold StoredInvariant
          rw [h2]
          exact ha
        · intro res hres
          cases hres
          obtain ⟨g, kvs, _, _, hr⟩ := readJson_number J a.fs cfg.metaPath _ h4
          simp only
          rw [hr]
          exact hread kvs hr h4
      · intro e he
        rw [h1] at he
        cases he
    · constructor
      · intro v hv
        rw [h1] at hv
        cases hv
        obtain ⟨g, kvs, _, _, hr⟩ := readJson_number J a.fs cfg.metaPath _ h3
        have hinv : MetaInvariant cfg ((readJson J a.fs cfg.metaPath).spreadSet
            "afterExpiryServedOnce" (Json.bool true)) := by
          obtain ⟨c, hc1, hc2⟩ := hread kvs hr h3
          rw [hr]
          exact ⟨c, by rw [getProp_spreadSet_other kvs _ _ _ (by decide)]; exact hc1,
            by rw [getProp_spreadSet_other kvs _ _ _ (by decide)]; exact hc2⟩
        obtain ⟨g2, hg2, hp2⟩ := stored_of_data J cfg _ _ h6
        exact ⟨Or.inr ⟨g2, _, hg2, hp2, hinv⟩, fun res hres => by cases hres; exact hinv⟩
      · intro e he
        rw [h1] at he
        cases he
    · constructor
      · intro v hv
        rw [h1] at hv
        cases hv
        obtain ⟨g2, hg2, hp2⟩ := stored_of_data J cfg _ _ h4
        exact ⟨Or.inr ⟨g2, _, hg2, hp2, metaAt_invariant cfg t⟩,
          fun res hres => by cases hres; exact metaAt_invariant cfg t⟩
      · intro e he
        rw [h1] at he
        cases he
    · have hst : StoredInvariant J cfg (ensureImageLocked J cfg env a).2 := by
        unfold StoredInvariant
        rw [h2]
        exact ha
      constructor
      · intro v hv
        rw [h1] at hv
        cases hv
      · intro e2 _
        exact ⟨hst, hst, fun res hres => by cases hres⟩
  · intro a ha
    exact ⟨ha, fun res hres => by cases hres⟩

/-- C7: the record built by `newMeta` has `expiresAtMs = createdAtMs + TTL_MS` and
`afterExpiryServedOnce = false`; written by `writeMeta` and read back by `safeReadJson`
it is the same record; and every call of `ensureImage` keeps the invariant of the stored
metadata and returns metadata that satisfies it, so it holds after any number of calls
from an empty data directory, for every clock, every download outcome and every write
failure. -/
theorem C7_ttl_invariant (J : JsonCodec C) (cfg : Config) (env : Env) :
    (∀ s : World C, (newMeta cfg env s).1 = .ok (metaAt cfg (env.clock s.clockReads)) ∧
      MetaInvariant cfg (metaAt cfg (env.clock s.clockReads)) ∧
      (metaAt cfg (env.clock s.clockReads)).getProp "afterExpiryServedOnce" =
        some (Json.bool false)) ∧
    (∀ (s : World C) (m : Json), env.writeFault s.fileOps = none →
      (writeMeta J cfg env m s).1 = .ok () ∧
      (safeReadJson J cfg.metaPath (writeMeta J cfg env m s).2).1 = .ok m) ∧
    (∀ (s : World C) (fuel : Nat) r s', StoredInvariant J cfg s →
      ensureImage J cfg env fuel s = some (r, s') →
      StoredInvariant J cfg s' ∧ ∀ res, r = .ok res → MetaInvariant cfg res.meta) ∧
    (∀ (s : World C) (fuel n : Nat) rs s', (∀ p, s.fs p = none) →
      ensureImageTimes J cfg env fuel n s = some (rs, s') →
      StoredInvariant J cfg s' ∧ ∀ res, .ok res ∈ rs → MetaInvariant cfg res.meta) := by
  refine ⟨?_, ?_, ?_, ?_⟩
  · intro s
    exact ⟨rfl, metaAt_invariant cfg _, by simp [metaAt, Json.getProp, List.lookup]⟩
  · intro s m hw
    rw [writeMeta_ok J cfg env m s hw, safeReadJson_run]
    simp [readJson, J.parse_stringify]
  · intro s fuel r s' hs hrun
    exact ensureImage_keeps_invariant J cfg env fuel s r s' hs hrun
  · intro s fuel n rs s' hempty hrun
    have hs : StoredInvariant J cfg s := Or.inl (hempty _)
    clear hempty
    induction n generalizing s rs with
    | zero =>
      simp only [ensureImageTimes, Option.some.injEq, Prod.mk.injEq] at hrun
      obtain ⟨rfl, rfl⟩ := hrun
      exact ⟨hs, fun res hres => by cases hres⟩
    | succ n ih =>
      unfold ensureImageTimes at hrun
      cases h1 : ensureImage J cfg env fuel s with
      | none => rw [h1] at hrun; cases hrun
      | some out =>
        obtain ⟨r1, s1⟩ := out
        rw [h1] at hrun
        simp only at hrun
        cases h2 : ensureImageTimes J cfg env fuel n s1 with
        | none => rw [h2] at hrun; cases hrun
        | some out2 =>
          obtain ⟨rs2, s2⟩ := out2
          rw [h2] at hrun
          simp only [Option.some.injEq, Prod.mk.injEq] at hrun
          obtain ⟨rfl, rfl⟩ := hrun
          obtain ⟨hs1, hr1⟩ := ensureImage_keeps_invariant J cfg env fuel s r1 s1 hs h1
          obtain ⟨hs2, hr2⟩ := ih s1 rs2 h2 hs1
          refine ⟨hs2, ?_⟩
          intro res hres
          rcases List.mem_cons.mp hres with h | h
          · exact hr1 res h.symm
          · exact hr2 res h

/-- Two calls from the empty directory (a download, then a fresh hit): the stored
metadata keeps the invariant, and the record written by `writeMeta` reads back. -/
theorem C7_witness_two_calls :
    (∃ s', ensureImageTimes docCodec cfg0 env0 1 2 emptyWorld =
        some ([.ok { action := "downloaded-initial", meta := metaAt cfg0 1010 },
               .ok { action := "kept-valid", meta := metaAt cfg0 1010 }], s') ∧
      StoredInvariant docCodec cfg0 s') ∧
    (safeReadJson docCodec cfg0.metaPath
      (writeMeta docCodec cfg0 env0 (metaAt cfg0 1010) emptyWorld).2).1 =
        .ok (metaAt cfg0 1010) := by
  have h1 := ensureImage_initial docCodec cfg0 env0 0 goodResponse jpegBytes
    rfl (by decide) rfl (by rw [jpegBytes, List.length_replicate]; decide) emptyWorld rfl rfl rfl rfl rfl
  have hrun : ∃ s', ensureImageTimes docCodec cfg0 env0 1 2 emptyWorld =
      some ([.ok { action := "downloaded-initial", meta := metaAt cfg0 1010 },
             .ok { action := "kept-valid", meta := metaAt cfg0 1010 }], s') := by
    simp only [ensureImageTimes]
    rw [h1]
    simp only
    rw [ensureImage_kept docCodec cfg0 env0 0
      { data := Doc.raw jpegBytes, mtimeMs := 1001 }
      { data := Doc.json (metaAt cfg0 1010), mtimeMs := 1002 } (metaAt cfg0 1010) 601010
      rfl rfl _ (by simp [Function.update_apply])
      (by simp [Function.update_apply]; exact ⟨rfl, rfl⟩)
      (by simp [Function.update_apply]; exact ⟨rfl, rfl⟩) (by decide)]
    exact ⟨_, rfl⟩
  obtain ⟨s', hrun⟩ := hrun
  have h := C7_ttl_invariant docCodec cfg0 env0
  exact ⟨⟨s', hrun, (h.2.2.2 emptyWorld 1 2 _ s' (fun _ => rfl) hrun).1⟩,
    (h.2.1 emptyWorld (metaAt cfg0 1010) rfl).2⟩

end Invariant

section Grace
variable {C : Type}

theorem served_frame (J : JsonCodec C) (cfg : Config) (e : Int) (a b : World C)
    (hab : ∀ p, p ≠ cfg.lockPath → b.fs p = a.fs p) (ha : Served J cfg e a) :
    Served J cfg e b := by
  unfold Served at ha ⊢
  rw [hab cfg.imagePath (by simp), hab cfg.metaPath (by simp)]
  exact ha

theorem served_read (J : JsonCodec C) (cfg : Config) (e : Int) (s : World C)
    (hs : Served J cfg e s) :
    (readJson J s.fs cfg.metaPath).getProp "expiresAtMs" = some (Json.num e) ∧
    (readJson J s.fs cfg.metaPath).getProp "afterExpiryServedOnce" = some (Json.bool true) := by
  obtain ⟨_, g, m, hg, hp, he, hf⟩ := hs
  simp [readJson, hg, hp, he, hf]

/-- A call that returns the grace action leaves the grace read used. -/
theorem ensureImage_grace_served (J : JsonCodec C) (cfg : Config) (env : Env) (fuel : Nat)
    (s : World C) (r : Except JsError Result) (s' : World C)
    (hrun : ensureImage J cfg env fuel s = some (r, s'))
    (hr : hasAction "expired-served-old-once" r) : ∃ e, Served J cfg e s' := by
  refine ensureImage_post J cfg env (fun _ => True)
    (fun r s => hasAction "expired-served-old-once" r → ∃ e, Served J cfg e s)
    (fun _ _ _ _ => trivial) ?_ ?_ ?_ fuel s r s' trivial hrun hr
  · intro r a b hab ha hact
    obtain ⟨e, he⟩ := ha hact
    exact ⟨e, served_frame J cfg e a b hab he⟩
  · intro a _
    rcases ensureImageLocked_cases J cfg env a with
      ⟨h1, _, _, _⟩ | ⟨h1, h2, h3, _, h5, h6⟩ | ⟨t, tag, h1, h2, _, _⟩ | ⟨e, h1, _, _⟩
    · constructor
      · intro v hv hact
        rw [h1] at hv
        cases hv
        simp [hasAction] at hact
      · intro e he
        rw [h1] at he
        cases he
    · constructor
      · intro v hv _
        obtain ⟨g, kvs, _, _, hr⟩ := readJson_number J a.fs cfg.metaPath _ h3
        obtain ⟨g2, hg2, hp2⟩ := stored_of_data J cfg _ _ h6
        rw [hr] at h3 hp2
        cases hn : (Json.obj kvs).getProp "expiresAtMs" with
        | none => simp [hn, Json.isNumber] at h3
        | some x =>
          cases x with
          | num e =>
            refine ⟨e, ?_, g2, _, hg2, hp2, ?_, getProp_spreadSet_same _ _ _⟩
            · rw [h5]; exact h2
            · rw [getProp_spreadSet_other kvs _ _ _ (by decide)]; exact hn
          | _ => simp [hn, Json.isNumber] at h3
      · intro e he
        rw [h1] at he
        cases he
    · constructor
      · intro v hv hact
        rw [h1] at hv
        cases hv
        rcases h2 with rfl | rfl <;> simp [hasAction] at hact
      · intro e he
        rw [h1] at he
        cases he
    · constructor
      · intro v hv
        rw [h1] at hv
        cases hv
      · intro e2 _
        exact ⟨trivial, fun hact => by simp [hasAction] at hact⟩
  · intro a _ hact
    simp [hasAction] at hact

/-- While the grace read is used, a call never returns the grace action, and it leaves
the grace read used unless it returns after a successful download. -/
theorem ensureImage_served (J : JsonCodec C) (cfg : Config) (env : Env) (fuel : Nat) (e : Int)
    (s : World C) (r : Except JsError Result) (s' : World C)
    (hs : Served J cfg e s) (hrun : ensureImage J cfg env fuel s = some (r, s')) :
    ¬ hasAction "expired-served-old-once" r ∧ (isDownloaded r ∨ Served J cfg e s') := by
  refine ensureImage_post J cfg env (Served J cfg e)
    (fun r s => ¬ hasAction "expired-served-old-once" r ∧ (isDownloaded r ∨ Served J cfg e s))
    (served_frame J cfg e) ?_ ?_ ?_ fuel s r s' hs hrun
  · intro r a b hab ha
    refine ⟨ha.1, ?_⟩
    rcases ha.2 with h | h
    · exact Or.inl h
    · exact Or.inr (served_frame J cfg e a b hab h)
  · intro a ha
    obtain ⟨_, hflag⟩ := served_read J cfg e a ha
    rcases ensureImageLocked_cases J cfg env a with
      ⟨h1, h2, _, _⟩ | ⟨h1, _, _, h4, _, _⟩ | ⟨t, tag, h1, h2, _, _⟩ | ⟨e2, h1, h2, h3⟩
    · constructor
      · intro v hv
        rw [h1] at hv
        cases hv
        refine ⟨by simp [hasAction], Or.inr ?_⟩
        unfold Served at ha ⊢
        rw [h2]
        exact ha
      · intro e2 he
        rw [h1] at he
        cases he
    · rw [hflag] at h4
      simp [Json.isTrue] at h4
    · constructor
      · intro v hv
        rw [h1] at hv
        cases hv
        rcases h2 with rfl | rfl
        · exact ⟨by simp [hasAction], Or.inl (Or.inl rfl)⟩
        · exact ⟨by simp [hasAction], Or.inl (Or.inr rfl)⟩
      · intro e2 he
        rw [h1] at he
        cases he
    · have hst : Served J cfg e (ensureImageLocked J cfg env a).2 := by
        obtain ⟨himg, hm⟩ := ha
        exact ⟨h3 himg, by rw [h2]; exact hm⟩
      constructor
      · intro v hv
        rw [h1] at hv
        cases hv
      · intro e3 _
        exact ⟨hst, by simp [hasAction], Or.inr hst⟩
  · intro a ha
    exact ⟨by simp [hasAction], Or.inr ha⟩

theorem ensureImageTimes_succ (J : JsonCodec C) (cfg : Config) (env : Env) (fuel n : Nat)
    (s : World C) (rs : List (Except JsError Result)) (s' : World C)
    (hrun : ensureImageTimes J cfg env fuel (n + 1) s = some (rs, s')) :
    ∃ r1 s1 rs2, ensureImage J cfg env fuel s = some (r1, s1) ∧
      ensureImageTimes J cfg env fuel n s1 = some (rs2, s') ∧ rs = r1 :: rs2 := by
  unfold ensureImageTimes at hrun
  cases h1 : ensureImage J cfg env fuel s with
  | none => rw [h1] at hrun; cases hrun
  | some out =>
    obtain ⟨r1, s1⟩ := out
    rw [h1] at hrun
    simp only at hrun
    cases h2 : ensureImageTimes J cfg env fuel n s1 with
    | none => rw [h2] at hrun; cases hrun
    | some out2 =>
      obtain ⟨rs2, s2⟩ := out2
      rw [h2] at hrun
      simp only [Option.some.injEq, Prod.mk.injEq] at hrun
      obtain ⟨rfl, rfl⟩ := hrun
      exact ⟨r1, s1, rs2, rfl, h2, rfl⟩

theorem ensureImageTimes_marker (J : JsonCodec C) (cfg : Config) (env : Env) (fuel n : Nat)
    (s : World C) (rs : List (Except JsError Result)) (s' : World C)
    (hlock : s.fs cfg.lockPath = none)
    (hrun : ensureImageTimes J cfg env fuel n s = some (rs, s')) :
    s'.fs cfg.lockPath = none := by
  induction n generalizing s rs with
  | zero =>
    simp only [ensureImageTimes, Option.some.injEq, Prod.mk.injEq] at hrun
    obtain ⟨_, rfl⟩ := hrun
    exact hlock
  | succ n ih =>
    obtain ⟨r1, s1, rs2, h1, h2, _⟩ := ensureImageTimes_succ J cfg env fuel n s rs s' hrun
    exact ih s1 rs2 (ensureImage_marker J cfg env fuel s r1 s1 hlock h1) h2

/-- While the grace read is used, a later grace action is preceded by a download, and
without a download the grace read stays used. -/
theorem ensureImageTimes_served (J : JsonCodec C) (cfg : Config) (env : Env) (fuel n : Nat)
    (e : Int) (s : World C) (rs : List (Except JsError Result)) (s' : World C)
    (hs : Served J cfg e s) (hrun : ensureImageTimes J cfg env fuel n s = some (rs, s')) :
    (∀ (j : Nat) rj, rs[j]? = some rj → hasAction "expired-served-old-once" rj →
      ∃ (k : Nat) (rk : Except JsError Result), k < j ∧ rs[k]? = some rk ∧ isDownloaded rk) ∧
    ((∀ (k : Nat) rk, rs[k]? = some rk → ¬ isDownloaded rk) → Served J cfg e s') := by
  induction n generalizing s rs with
  | zero =>
    simp only [ensureImageTimes, Option.some.injEq, Prod.mk.injEq] at hrun
    obtain ⟨rfl, rfl⟩ := hrun
    exact ⟨by intro j rj hj; simp at hj, fun _ => hs⟩
  | succ n ih =>
    obtain ⟨r1, s1, rs2, h1, h2, rfl⟩ := ensureImageTimes_succ J cfg env fuel n s rs s' hrun
    obtain ⟨hng, hnext⟩ := ensureImage_served J cfg env fuel e s r1 s1 hs h1
    constructor
    · intro j rj hj hact
      cases j with
      | zero =>
        simp only [List.getElem?_cons_zero, Option.some.injEq] at hj
        subst hj
        exact absurd hact hng
      | succ j =>
        simp only [List.getElem?_cons_succ] at hj
        rcases hnext with hd | hsv
        · exact ⟨0, r1, Nat.succ_pos j, by simp, hd⟩
        · obtain ⟨k, rk, hk, hrk, hdk⟩ := (ih s1 rs2 hsv h2).1 j rj hj hact
          exact ⟨k + 1, rk, Nat.succ_lt_succ hk, by simpa using hrk, hdk⟩
    · intro hnd
      rcases hnext with hd | hsv
      · exact absurd hd (hnd 0 r1 (by simp))
      · exact (ih s1 rs2 hsv h2).2 (fun k rk hk => hnd (k + 1) rk (by simpa using hk))

theorem ensureImage_refresh_fail (J : JsonCodec C) (cfg : Config) (env : Env) (fuel : Nat)
    (e : Int) (err : JsError) (s : World C)
    (hlock : s.fs cfg.lockPath = none) (hs : Served J cfg e s)
    (hnow : e < env.clock (s.clockReads + 1))
    (hfail : downloadFailure (env.fetch s.fetches) = some err) :
    ensureImage J cfg env (fuel + 1) s = some (.error err,
      { s with
        clockReads := s.clockReads + 2,
        fetches := s.fetches + 1,
        fileOps := s.fileOps + 1,
        log := s.log ++ [Event.mkdir cfg.DATA_DIR, Event.now (env.clock s.clockReads),
          Event.openWx cfg.lockPath, Event.now (env.clock (s.clockReads + 1)),
          Event.fetch cfg.IMAGE_URL, Event.unlink cfg.lockPath] }) := by
  obtain ⟨himg, g, meta, hmeta, hparse, hexp, hflag⟩ := hs
  obtain ⟨f, himg⟩ := Option.isSome_iff_exists.mp himg
  obtain ⟨hread, hcond⟩ := fresh_cond J cfg s f g meta e himg hmeta hparse hexp
  have hcode := downloadFailure_code _ _ hfail
  have hb := ensureImageLocked_refresh_fail J cfg env
    (acquired J cfg env (ensureDataDir cfg s).2) meta e err
    (by rw [entered_eq J cfg env s hlock]; simpa [readJson, Function.update_apply] using hread)
    (by rw [entered_eq J cfg env s hlock]; simpa [readJson, Function.update_apply] using hcond)
    hexp
    (by rw [entered_eq J cfg env s hlock]; exact hnow)
    (by rw [hflag]; rfl)
    (by rw [entered_eq J cfg env s hlock]; exact hfail)
  rw [ensureImage_free J cfg env fuel s hlock
    (by rw [hb]; intro e h; cases h; simp [hcode])]
  rw [hb, entered_eq J cfg env s hlock, released_eq]
  simp [hlock, Nat.add_assoc]

/-- C8: in every sequence of successive calls of `ensureImage`, two calls that return
`expired-served-old-once` are separated by a call that returns after a successful
download. After a call returned `expired-served-old-once` and as long as no later call
returned a download, the grace read stays used; a call made in that state with the lock
marker free while the clock is past `expiresAtMs` fetches: when the download fails it
throws and leaves the state as it was (so the next call fetches again), when the
download and the writes succeed it returns `downloaded-after-expiry`. -/
theorem C8_at_most_one_grace (J : JsonCodec C) (cfg : Config) (env : Env) :
    (∀ (fuel n : Nat) (s : World C) rs s', ensureImageTimes J cfg env fuel n s = some (rs, s') →
      ∀ (i j : Nat) ri rj, i < j → rs[i]? = some ri → rs[j]? = some rj →
        hasAction "expired-served-old-once" ri → hasAction "expired-served-old-once" rj →
        ∃ (k : Nat) (rk : Except JsError Result), i < k ∧ k < j ∧ rs[k]? = some rk ∧ isDownloaded rk) ∧
    (∀ (fuel n : Nat) (s : World C) rs s' (i : Nat) ri, s.fs cfg.lockPath = none →
      ensureImageTimes J cfg env fuel n s = some (rs, s') → rs[i]? = some ri →
      hasAction "expired-served-old-once" ri →
      (∀ (k : Nat) rk, i < k → rs[k]? = some rk → ¬ isDownloaded rk) →
      s'.fs cfg.lockPath = none ∧ ∃ e, Served J cfg e s') ∧
    (∀ (fuel : Nat) (s : World C) (e : Int), s.fs cfg.lockPath = none → Served J cfg e s →
      e < env.clock (s.clockReads + 1) →
      (∀ err, downloadFailure (env.fetch s.fetches) = some err →
        ∃ s', ensureImage J cfg env (fuel + 1) s = some (.error err, s') ∧
          s'.fetches = s.fetches + 1 ∧ s'.fs = s.fs) ∧
      (∀ r buf, env.fetch s.fetches = FetchResult.response r → r.ok = true →
        startsWith (toLowerCase (r.contentType.getD "")) "image/" = true →
        r.body = .ok buf → 1024 ≤ buf.length →
        env.writeFault (s.fileOps + 1) = none → env.writeFault (s.fileOps + 2) = none →
        ∃ s', ensureImage J cfg env (fuel + 1) s =
            some (.ok { action := "downloaded-after-expiry",
                        meta := metaAt cfg (env.clock (s.clockReads + 2)) }, s') ∧
          s'.fetches = s.fetches + 1)) := by
  refine ⟨?_, ?_, ?_⟩
  · intro fuel n
    induction n with
    | zero =>
      intro s rs s' hrun i j ri rj _ hi
      simp only [ensureImageTimes, Option.some.injEq, Prod.mk.injEq] at hrun
      obtain ⟨rfl, rfl⟩ := hrun
      simp at hi
    | succ n ih =>
      intro s rs s' hrun i j ri rj hij hi hj hgi hgj
      obtain ⟨r1, s1, rs2, h1, h2, rfl⟩ := ensureImageTimes_succ J cfg env fuel n s rs s' hrun
      cases j with
      | zero => exact absurd hij (Nat.not_lt_zero i)
      | succ j =>
        simp only [List.getElem?_cons_succ] at hj
        cases i with
        | zero =>
          simp only [List.getElem?_cons_zero, Option.some.injEq] at hi
          subst hi
          obtain ⟨e, hsv⟩ := ensureImage_grace_served J cfg env fuel s r1 s1 h1 hgi
          obtain ⟨k, rk, hk, hrk, hdk⟩ :=
            (ensureImageTimes_served J cfg env fuel n e s1 rs2 s' hsv h2).1 j rj hj hgj
          exact ⟨k + 1, rk, Nat.succ_pos k, Nat.succ_lt_succ hk, by simpa using hrk, hdk⟩
        | succ i =>
          simp only [List.getElem?_cons_succ] at hi
          obtain ⟨k, rk, hik, hkj, hrk, hdk⟩ :=
            ih s1 rs2 s' h2 i j ri rj (Nat.lt_of_succ_lt_succ hij) hi hj hgi hgj
          exact ⟨k + 1, rk, Nat.succ_lt_succ hik, Nat.succ_lt_succ hkj, by simpa using hrk, hdk⟩
  · intro fuel n
    induction n with
    | zero =>
      intro s rs s' i ri _ hrun hi
      simp only [ensureImageTimes, Option.some.injEq, Prod.mk.injEq] at hrun
      obtain ⟨rfl, rfl⟩ := hrun
      simp at hi
    | succ n ih =>
      intro s rs s' i ri hlock hrun hi hgi hnd
      obtain ⟨r1, s1, rs2, h1, h2, rfl⟩ := ensureImageTimes_succ J cfg env fuel n s rs s' hrun
      have hlock1 := ensureImage_marker J cfg env fuel s r1 s1 hlock h1
      cases i with
      | zero =>
        simp only [List.getElem?_cons_zero, Option.some.injEq] at hi
        subst hi
        obtain ⟨e, hsv⟩ := ensureImage_grace_served J cfg env fuel s r1 s1 h1 hgi
        refine ⟨ensureImageTimes_marker J cfg env fuel n s1 rs2 s' hlock1 h2, e, ?_⟩
        exact (ensureImageTimes_served J cfg env fuel n e s1 rs2 s' hsv h2).2
          (fun k rk hk => hnd (k + 1) rk (Nat.succ_pos k) (by simpa using hk))
      | succ i =>
        simp only [List.getElem?_cons_succ] at hi
        exact ih s1 rs2 s' i ri hlock1 h2 hi hgi
          (fun k rk hik hk => hnd (k + 1) rk (Nat.succ_lt_succ hik) (by simpa using hk))
  · intro fuel s e hlock hs hnow
    constructor
    · intro err hfail
      exact ⟨_, ensureImage_refresh_fail J cfg env fuel e err s hlock hs hnow hfail, rfl, rfl⟩
    · intro r buf hfetch hok hct hbody hlen hw1 hw2
      obtain ⟨himg, g, meta, hmeta, hparse, hexp, hflag⟩ := hs
      obtain ⟨f, himg⟩ := Option.isSome_iff_exists.mp himg
      exact ⟨_, ensureImage_refresh J cfg env fuel f g meta e r buf hparse hexp hflag hok hct
        hbody hlen s hlock himg hmeta hnow hfetch hw1 hw2, rfl⟩

/-- Three calls on an expired generation with a clock that keeps running past every
expiry: grace, download, grace; the two grace reads are separated by the download. -/
theorem C8_witness_grace_download_grace :
    ∃ s', ensureImageTimes docCodec cfg0 envStep 1 3 (storedWorld (metaAt cfg0 400)) =
        some ([.ok { action := "expired-served-old-once", meta := servedMeta },
               .ok { action := "downloaded-after-expiry", meta := metaAt cfg0 2300000 },
               .ok { action := "expired-served-old-once",
                     meta := (metaAt cfg0 2300000).spreadSet "afterExpiryServedOnce"
                       (Json.bool true) }], s') ∧
      ∃ (k : Nat) (rk : Except JsError Result), 0 < k ∧ k < 2 ∧
        ([.ok { action := "expired-served-old-once", meta := servedMeta },
          .ok { action := "downloaded-after-expiry", meta := metaAt cfg0 2300000 },
          .ok { action := "expired-served-old-once",
                meta := (metaAt cfg0 2300000).spreadSet "afterExpiryServedOnce"
                  (Json.bool true) }] : List (Except JsError Result))[k]? = some rk ∧
        isDownloaded rk := by
  have hrun : ∃ s', ensureImageTimes docCodec cfg0 envStep 1 3 (storedWorld (metaAt cfg0 400)) =
      some ([.ok { action := "expired-served-old-once", meta := servedMeta },
             .ok { action := "downloaded-after-expiry", meta := metaAt cfg0 2300000 },
             .ok { action := "expired-served-old-once",
                   meta := (metaAt cfg0 2300000).spreadSet "afterExpiryServedOnce"
                     (Json.bool true) }], s') := by
    simp only [ensureImageTimes]
    rw [ensureImage_grace docCodec cfg0 envStep 0
      { data := Doc.raw oldBytes, mtimeMs := 500 }
      { data := Doc.json (metaAt cfg0 400), mtimeMs := 500 } (metaAt cfg0 400) 600400
      rfl rfl (by simp [metaAt, Json.getProp, List.lookup]) _ rfl rfl rfl (by decide) rfl]
    simp only
    rw [ensureImage_refresh docCodec cfg0 envStep 0
      { data := Doc.raw oldBytes, mtimeMs := 500 }
      { data := Doc.json servedMeta, mtimeMs := 1001 } servedMeta 600400 goodResponse jpegBytes
      rfl rfl rfl rfl (by decide) rfl (by rw [jpegBytes, List.length_replicate]; decide) _
      (by simp [Function.update_apply])
      (by simp [Function.update_apply]; rfl)
      (by simp [Function.update_apply]; exact ⟨rfl, rfl⟩)
      (by decide) rfl rfl rfl]
    simp only
    rw [ensureImage_grace docCodec cfg0 envStep 0
      { data := Doc.raw jpegBytes, mtimeMs := 1003 }
      { data := Doc.json (metaAt cfg0 2300000), mtimeMs := 1004 } (metaAt cfg0 2300000) 2900000
      rfl rfl (by simp [metaAt, Json.getProp, List.lookup]) _
      (by simp [Function.update_apply])
      (by simp [Function.update_apply]; exact ⟨rfl, rfl⟩)
      (by simp [Function.update_apply]; exact ⟨rfl, rfl⟩)
      (by decide) rfl]
    exact ⟨_, rfl⟩
  obtain ⟨s', hrun⟩ := hrun
  exact ⟨s', hrun, (C8_at_most_one_grace docCodec cfg0 envStep).1 1 3 _ _ s' hrun 0 2 _ _
    (by decide) rfl rfl rfl rfl⟩

end Grace

section LockRelease
variable {C : Type}

/-- C9: `withLock` removes the marker it created before it returns or throws. At every
exit the marker is absent, except when the call gives up on a marker that existed
before and that it never owned (then no file changed). In particular, when the marker
did not exist before the call it does not exist after it, whether the action returned or
threw; an action that returns `v` makes `withLock` return `v`, an action that throws `e`
(other than an `EEXIST`) makes it throw `e`, and in both cases the `unlink` of the marker
is the last effect. -/
theorem C9_lock_released (J : JsonCodec C) (cfg : Config) (env : Env) (α : Type)
    (fn : Prog C α) (s : World C) :
    (∀ fuel r s', withLock J cfg env fuel fn s = some (r, s') →
      s'.fs cfg.lockPath = none ∨ (r = .error lockTimeout ∧ s'.fs = s.fs)) ∧
    (s.fs cfg.lockPath = none →
      (∀ fuel r s', withLock J cfg env fuel fn s = some (r, s') → s'.fs cfg.lockPath = none) ∧
      (∀ fuel v s1, fn (acquired J cfg env s) = (.ok v, s1) →
        ∃ s', withLock J cfg env (fuel + 1) fn s = some (.ok v, s') ∧
          s'.fs cfg.lockPath = none ∧ s'.log = s1.log ++ [Event.unlink cfg.lockPath]) ∧
      (∀ fuel e s1, fn (acquired J cfg env s) = (.error e, s1) → e.code ≠ some "EEXIST" →
        ∃ s', withLock J cfg env (fuel + 1) fn s = some (.error e, s') ∧
          s'.fs cfg.lockPath = none ∧ s'.log = s1.log ++ [Event.unlink cfg.lockPath])) := by
  refine ⟨fun fuel r s' h => withLock_marker J cfg env fn fuel s r s' h, fun hlock => ⟨?_, ?_, ?_⟩⟩
  · intro fuel r s' h
    rcases withLock_marker J cfg env fn fuel s r s' h with h1 | ⟨_, h1⟩
    · exact h1
    · rw [h1]; exact hlock
  · intro fuel v s1 hfn
    refine ⟨released cfg s1, ?_, ?_, ?_⟩
    · rw [withLock_free J cfg env fn fuel s hlock (by rw [hfn]; intro e h; cases h), hfn]
    · simp [released_eq]
    · simp [released_eq]
  · intro fuel e s1 hfn hcode
    refine ⟨released cfg s1, ?_, ?_, ?_⟩
    · rw [withLock_free J cfg env fn fuel s hlock
        (by rw [hfn]; intro e2 h; cases h; exact hcode), hfn]
    · simp [released_eq]
    · simp [released_eq]

/-- On the empty directory an action returning 7 and an action throwing both leave no
marker behind, and their outcome is the outcome of `withLock`. -/
theorem C9_witness_return_and_throw :
    (∃ s', withLock docCodec cfg0 env0 1 (Prog.ret 7) emptyWorld = some (.ok 7, s') ∧
      s'.fs cfg0.lockPath = none) ∧
    (∃ s', withLock docCodec cfg0 env0 1 (Prog.raise (JsError.new "boom") : Prog Doc Nat)
        emptyWorld =
        some (.error (JsError.new "boom"), s') ∧ s'.fs cfg0.lockPath = none) := by
  have h1 := (C9_lock_released docCodec cfg0 env0 Nat (Prog.ret 7) emptyWorld).2 rfl
  have h2 := (C9_lock_released docCodec cfg0 env0 Nat (Prog.raise (JsError.new "boom"))
    emptyWorld).2 rfl
  obtain ⟨s1, ha, hb, _⟩ := h1.2.1 0 7 _ rfl
  obtain ⟨s2, hc, hd, _⟩ := h2.2.2 0 (JsError.new "boom") _ rfl (by decide)
  exact ⟨⟨s1, ha, hb⟩, ⟨s2, hc, hd⟩⟩

/-- C10: `breakStaleLockIfNeeded` does nothing when no marker exists, removes a marker
whose age (clock reading minus modification time) exceeds 60000 ms, and leaves a marker
of at most that age in place. In `withLock`, the iteration that cleared a stale marker
goes on to the create-exclusive open with no sleep in between and runs the action; an
iteration that meets a marker that is not stale issues no `unlink`, fails the open and
(before the wait ceiling) sleeps 150 ms. -/
theorem C10_stale_lock_detection (J : JsonCodec C) (cfg : Config) (env : Env) (s : World C) :
    (s.fs cfg.lockPath = none → breakStaleLockIfNeeded cfg env s = (.ok (), s)) ∧
    (∀ f, s.fs cfg.lockPath = some f → env.clock s.clockReads - f.mtimeMs > 60000 →
      ∃ s', breakStaleLockIfNeeded cfg env s = (.ok (), s') ∧ s'.fs cfg.lockPath = none ∧
        (∀ p, p ≠ cfg.lockPath → s'.fs p = s.fs p) ∧
        s'.log = s.log ++ [Event.now (env.clock s.clockReads), Event.unlink cfg.lockPath]) ∧
    (∀ f, s.fs cfg.lockPath = some f → env.clock s.clockReads - f.mtimeMs ≤ 60000 →
      ∃ s', breakStaleLockIfNeeded cfg env s = (.ok (), s') ∧ s'.fs = s.fs ∧
        s'.log = s.log ++ [Event.now (env.clock s.clockReads)]) ∧
    (∀ (α : Type) (fn : Prog C α) (fuel : Nat) (f : File C), s.fs cfg.lockPath = some f →
      env.clock (s.clockReads + 1) - f.mtimeMs > 60000 →
      ∃ sa, sa.log = s.log ++ [Event.now (env.clock s.clockReads),
          Event.now (env.clock (s.clockReads + 1)), Event.unlink cfg.lockPath,
          Event.openWx cfg.lockPath] ∧
        (∀ p, p ≠ cfg.lockPath → sa.fs p = s.fs p) ∧
        ((∀ e, (fn sa).1 = .error e → e.code ≠ some "EEXIST") →
          withLock J cfg env (fuel + 1) fn s = some ((fn sa).1, released cfg (fn sa).2))) ∧
    (∀ (α : Type) (fn : Prog C α) (start : Int) (f : File C), s.fs cfg.lockPath = some f →
      env.clock s.clockReads - f.mtimeMs ≤ 60000 →
      env.clock (s.clockReads + 1) - start ≤ 15000 →
      ∃ s', withLockIter J cfg env fn start s = (.ok none, s') ∧ s'.fs = s.fs ∧
        s'.log = s.log ++ [Event.now (env.clock s.clockReads), Event.openWx cfg.lockPath,
          Event.now (env.clock (s.clockReads + 1)), Event.sleep 150]) := by
  refine ⟨?_, ?_, ?_, ?_, ?_⟩
  · intro h
    rw [breakStale_run, h]
  · intro f h hst
    rw [breakStale_run, h]
    simp only [hst, if_true]
    exact ⟨_, rfl, by simp, fun p hp => by simp [Function.update_apply, hp], rfl⟩
  · intro f h hfr
    rw [breakStale_run, h]
    simp only [not_lt.mpr hfr, if_false]
    exact ⟨_, rfl, rfl, rfl⟩
  · intro α fn fuel f h hst
    refine ⟨_, ?_, ?_, fun hfn => withLock_stale J cfg env fn fuel s f h hst hfn⟩
    · rfl
    · intro p hp
      simp [Function.update_apply, hp]
  · intro α fn start f h hfr hwait
    rw [withLockIter_busy J cfg env fn start s f h (not_lt.mpr hfr)]
    simp only [not_lt.mpr hwait, if_false]
    exact ⟨_, rfl, rfl, rfl⟩

/-- A marker aged 100000 ms is removed, one aged 1000 ms is kept. -/
theorem C10_witness_old_and_young :
    (∃ s', breakStaleLockIfNeeded cfg0 (envAt 100000) (lockedWorld 0) = (.ok (), s') ∧
      s'.fs cfg0.lockPath = none) ∧
    (∃ s', breakStaleLockIfNeeded cfg0 (envAt 100000) (lockedWorld 99000) = (.ok (), s') ∧
      s'.fs = (lockedWorld 99000).fs) := by
  obtain ⟨s1, ha, hb, _⟩ := (C10_stale_lock_detection docCodec cfg0 (envAt 100000)
    (lockedWorld 0)).2.1 { data := Doc.raw [], mtimeMs := 0 } rfl (by decide)
  obtain ⟨s2, hc, hd, _⟩ := (C10_stale_lock_detection docCodec cfg0 (envAt 100000)
    (lockedWorld 99000)).2.2.1 { data := Doc.raw [], mtimeMs := 99000 } rfl (by decide)
  exact ⟨⟨s1, ha, hb⟩, ⟨s2, hc, hd⟩⟩

end LockRelease

section LockWait
variable {C : Type} {α : Type}

/-- The lock loop on a marker that stays present and is not stale: `n` failed attempts
within the ceiling, each followed by the sleep, then the failed attempt that finds the
ceiling exceeded. -/
theorem withLockLoop_busy (J : JsonCodec C) (cfg : Config) (env : Env) (fn : Prog C α)
    (start : Int) (f : File C) (n : Nat) :
    ∀ (fuel : Nat) (s : World C), s.fs cfg.lockPath = some f →
      (∀ k, k ≤ n → env.clock (s.clockReads + 2 * k) - f.mtimeMs ≤ 60000) →
      (∀ k, k < n → env.clock (s.clockReads + 2 * k + 1) - start ≤ 15000) →
      15000 < env.clock (s.clockReads + 2 * n + 1) - start → n < fuel →
      withLockLoop J cfg env fn start fuel s = some (.error lockTimeout, { s with
        clockReads := s.clockReads + 2 * n + 2,
        fileOps := s.fileOps + n + 1,
        log := s.log ++ (waitLog cfg env s.clockReads n ++
          [Event.now (env.clock (s.clockReads + 2 * n)), Event.openWx cfg.lockPath,
            Event.now (env.clock (s.clockReads + 2 * n + 1))]) }) := by
  induction n with
  | zero =>
    intro fuel s hlock hfresh _ hover hfuel
    obtain ⟨fuel, rfl⟩ : ∃ m, fuel = m + 1 := ⟨fuel - 1, by omega⟩
    have h0 := hfresh 0 (Nat.le_refl 0)
    simp only [Nat.mul_zero, Nat.add_zero] at h0 hover
    unfold withLockLoop
    rw [withLockIter_busy J cfg env fn start s f hlock (not_lt.mpr h0)]
    simp [hover, waitLog]
  | succ n ih =>
    intro fuel s hlock hfresh hwait hover hfuel
    obtain ⟨fuel, rfl⟩ : ∃ m, fuel = m + 1 := ⟨fuel - 1, by omega⟩
    have h0 := hfresh 0 (Nat.zero_le _)
    have hw0 := hwait 0 (Nat.succ_pos n)
    simp only [Nat.mul_zero, Nat.add_zero] at h0 hw0
    unfold withLockLoop
    rw [withLockIter_busy J cfg env fn start s f hlock (not_lt.mpr h0)]
    simp only [not_lt.mpr hw0, if_false]
    have key := ih fuel
      { s with
        clockReads := s.clockReads + 2,
        fileOps := s.fileOps + 1,
        log := s.log ++ [Event.now (env.clock s.clockReads), Event.openWx cfg.lockPath,
          Event.now (env.clock (s.clockReads + 1)), Event.sleep 150] }
      hlock
      (fun k hk => by
        have h := hfresh (k + 1) (Nat.succ_le_succ hk)
        have e : s.clockReads + 2 * (k + 1) = s.clockReads + 2 + 2 * k := by omega
        rw [e] at h
        exact h)
      (fun k hk => by
        have h := hwait (k + 1) (Nat.succ_lt_succ hk)
        have e : s.clockReads + 2 * (k + 1) + 1 = s.clockReads + 2 + 2 * k + 1 := by omega
        rw [e] at h
        exact h)
      (by
        have e : s.clockReads + 2 * (n + 1) + 1 = s.clockReads + 2 + 2 * n + 1 := by omega
        rw [e] at hover
        exact hover)
      (by omega)
    rw [key]
    have e1 : s.clockReads + 2 + 2 * n + 2 = s.clockReads + 2 * (n + 1) + 2 := by omega
    have e2 : s.fileOps + 1 + n + 1 = s.fileOps + (n + 1) + 1 := by omega
    have e3 : s.clockReads + 2 + 2 * n = s.clockReads + 2 * (n + 1) := by omega
    simp only [e1, e2, e3, waitLog, List.append_assoc, List.cons_append, List.nil_append]

/-- C11: while the lock marker exists and is not stale at every attempt, `withLock` never
runs the action. After each of the `n` failed attempts whose elapsed time since the start
of the call is at most 15000 ms it sleeps 150 ms and retries; at the first failed attempt
whose elapsed time exceeds 15000 ms it throws `Lock timeout: another download seems
stuck`, having fetched nothing and changed no file. When the clock does not run backwards
and every iteration advances it by at least 150 ms, that attempt comes after at most 101
sleeps, so 102 iterations always suffice: the loop terminates. -/
theorem C11_lock_wait_ceiling (J : JsonCodec C) (cfg : Config) (env : Env) (fn : Prog C α)
    (s : World C) (f : File C) (hlock : s.fs cfg.lockPath = some f) :
    (∀ n fuel, n < fuel →
      (∀ k, k ≤ n → env.clock (s.clockReads + 1 + 2 * k) - f.mtimeMs ≤ 60000) →
      (∀ k, k < n → env.clock (s.clockReads + 2 + 2 * k) - env.clock s.clockReads ≤ 15000) →
      15000 < env.clock (s.clockReads + 2 + 2 * n) - env.clock s.clockReads →
      withLock J cfg env fuel fn s = some (.error lockTimeout, { s with
        clockReads := s.clockReads + 2 * n + 3,
        fileOps := s.fileOps + n + 1,
        log := s.log ++ Event.now (env.clock s.clockReads) ::
          (waitLog cfg env (s.clockReads + 1) n ++
            [Event.now (env.clock (s.clockReads + 1 + 2 * n)), Event.openWx cfg.lockPath,
              Event.now (env.clock (s.clockReads + 2 + 2 * n))]) })) ∧
    lockTimeout = JsError.new "Lock timeout: another download seems stuck" ∧
    ((∀ k, k ≤ 101 → env.clock (s.clockReads + 1 + 2 * k) - f.mtimeMs ≤ 60000) →
      env.clock s.clockReads ≤ env.clock (s.clockReads + 2) →
      (∀ k, env.clock (s.clockReads + 2 + 2 * k) + 150 ≤
        env.clock (s.clockReads + 2 + 2 * (k + 1))) →
      ∃ n, n ≤ 101 ∧ ∀ fuel, 102 ≤ fuel →
        withLock J cfg env fuel fn s = some (.error lockTimeout, { s with
          clockReads := s.clockReads + 2 * n + 3,
          fileOps := s.fileOps + n + 1,
          log := s.log ++ Event.now (env.clock s.clockReads) ::
            (waitLog cfg env (s.clockReads + 1) n ++
              [Event.now (env.clock (s.clockReads + 1 + 2 * n)), Event.openWx cfg.lockPath,
                Event.now (env.clock (s.clockReads + 2 + 2 * n))]) })) := by
  have main : ∀ n fuel, n < fuel →
      (∀ k, k ≤ n → env.clock (s.clockReads + 1 + 2 * k) - f.mtimeMs ≤ 60000) →
      (∀ k, k < n → env.clock (s.clockReads + 2 + 2 * k) - env.clock s.clockReads ≤ 15000) →
      15000 < env.clock (s.clockReads + 2 + 2 * n) - env.clock s.clockReads →
      withLock J cfg env fuel fn s = some (.error lockTimeout, { s with
        clockReads := s.clockReads + 2 * n + 3,
        fileOps := s.fileOps + n + 1,
        log := s.log ++ Event.now (env.clock s.clockReads) ::
          (waitLog cfg env (s.clockReads + 1) n ++
            [Event.now (env.clock (s.clockReads + 1 + 2 * n)), Event.openWx cfg.lockPath,
              Event.now (env.clock (s.clockReads + 2 + 2 * n))]) }) := by
    intro n fuel hfuel hfresh hwait hover
    have key := withLockLoop_busy J cfg env fn (env.clock s.clockReads) f n fuel
      { s with
        clockReads := s.clockReads + 1,
        log := s.log ++ [Event.now (env.clock s.clockReads)] }
      hlock hfresh
      (fun k hk => by
        have h := hwait k hk
        have e : s.clockReads + 2 + 2 * k = s.clockReads + 1 + 2 * k + 1 := by omega
        rw [e] at h
        exact h)
      (by
        have e : s.clockReads + 2 + 2 * n = s.clockReads + 1 + 2 * n + 1 := by omega
        rw [e] at hover
        exact hover)
      hfuel
    unfold withLock
    simp only [nowMs]
    rw [key]
    have e1 : s.clockReads + 1 + 2 * n + 2 = s.clockReads + 2 * n + 3 := by omega
    have e2 : s.clockReads + 1 + 2 * n + 1 = s.clockReads + 2 + 2 * n := by omega
    simp only [e1, e2, List.append_assoc, List.cons_append, List.nil_append]
  refine ⟨main, rfl, ?_⟩
  intro hfresh hmono hadv
  have hgrow : ∀ k : Nat, env.clock s.clockReads + 150 * (k : Int) ≤
      env.clock (s.clockReads + 2 + 2 * k) := by
    intro k
    induction k with
    | zero => simpa using hmono
    | succ k ih =>
      have h := hadv k
      push_cast
      omega
  have h101 : 15000 < env.clock (s.clockReads + 2 + 2 * 101) - env.clock s.clockReads := by
    have h := hgrow 101
    have e : (150 : Int) * ((101 : Nat) : Int) = 15150 := by norm_num
    rw [e] at h
    omega
  have hex : ∃ n, 15000 < env.clock (s.clockReads + 2 + 2 * n) - env.clock s.clockReads :=
    ⟨101, h101⟩
  have hle : Nat.find hex ≤ 101 := Nat.find_min' hex h101
  refine ⟨Nat.find hex, hle, ?_⟩
  intro fuel hfuel
  exact main (Nat.find hex) fuel (by omega)
    (fun k hk => hfresh k (by omega))
    (fun k hk => not_lt.mp (Nat.find_min hex hk))
    (Nat.find_spec hex)

/-- A marker that is never stale under a clock of 4000 ms per reading: one sleep, then the
timeout at the second attempt; and under a clock of 150 ms per iteration the call ends
with the timeout within 102 iterations. -/
theorem C11_witness_two_attempts :
    withLock docCodec cfg0 envStride 2 (ensureImageLocked docCodec cfg0 envStride)
        (lockedWorld 1000) =
      some (.error lockTimeout, { lockedWorld 1000 with
        clockReads := 5,
        fileOps := 2,
        log := [Event.now 1000, Event.now 5000, Event.openWx cfg0.lockPath, Event.now 9000,
          Event.sleep 150, Event.now 13000, Event.openWx cfg0.lockPath, Event.now 17000] }) ∧
    (∃ s', withLock docCodec cfg0 envTick 102 (ensureImageLocked docCodec cfg0 envTick)
        (lockedWorld 1000) = some (.error lockTimeout, s')) := by
  have h := C11_lock_wait_ceiling docCodec cfg0 envStride
    (ensureImageLocked docCodec cfg0 envStride) (lockedWorld 1000)
    { data := Doc.raw [], mtimeMs := 1000 } rfl
  have h2 := C11_lock_wait_ceiling docCodec cfg0 envTick
    (ensureImageLocked docCodec cfg0 envTick) (lockedWorld 1000)
    { data := Doc.raw [], mtimeMs := 1000 } rfl
  refine ⟨?_, ?_⟩
  · have h1 := h.1 1 2 (by decide)
      (fun k hk => by
        simp only [envStride, lockedWorld, worldOf]
        push_cast
        omega)
      (fun k hk => by
        simp only [envStride, lockedWorld, worldOf]
        push_cast
        omega)
      (by decide)
    rw [h1]
    rfl
  · obtain ⟨n, _, hn⟩ := h2.2.2
      (fun k hk => by
        simp only [envTick, lockedWorld, worldOf]
        push_cast
        omega)
      (by decide)
      (fun k => by
        simp only [envTick, lockedWorld, worldOf]
        push_cast
        omega)
    exact ⟨_, hn 102 (Nat.le_refl 102)⟩

end LockWait

section AtomicPublish
variable {C : Type}

theorem digitChar_ne_slash (d : Nat) (h : d < 10) : Nat.digitChar d ≠ '/' := by
  interval_cases d <;> decide

theorem toDigitsCore_no_slash : ∀ (fuel n : Nat) (acc : List Char), (∀ c ∈ acc, c ≠ '/') →
    ∀ c ∈ Nat.toDigitsCore 10 fuel n acc, c ≠ '/' := by
  intro fuel
  induction fuel with
  | zero => intro n acc h; simpa [Nat.toDigitsCore] using h
  | succ fuel ih =>
    intro n acc h
    unfold Nat.toDigitsCore
    have hd : Nat.digitChar (n % 10) ≠ '/' := digitChar_ne_slash _ (Nat.mod_lt _ (by decide))
    have hacc : ∀ c ∈ Nat.digitChar (n % 10) :: acc, c ≠ '/' := by
      intro c hc
      rcases List.mem_cons.mp hc with rfl | hc
      · exact hd
      · exact h c hc
    simp only
    split
    · exact hacc
    · exact ih _ _ hacc

/-- The decimal digits of a process id contain no `/`. -/
theorem toString_no_slash (n : Nat) : ∀ c ∈ (toString n).data, c ≠ '/' := by
  show ∀ c ∈ (Nat.repr n).data, c ≠ '/'
  unfold Nat.repr Nat.toDigits
  simp only [List.asString]
  exact toDigitsCore_no_slash _ _ [] (by simp)

/-- Appending characters other than `/` to a path keeps its directory. -/
theorem dirOf_append (p suf : String) (h : ∀ c ∈ suf.data, c ≠ '/') :
    dirOf (p ++ suf) = dirOf p := by
  unfold dirOf
  rw [String.data_append, List.reverse_append, List.dropWhile_append_of_pos]
  intro c hc
  simpa using h c (List.mem_reverse.mp hc)

/-- The temporary name is in the directory of its target, for random digits without `/`. -/
theorem dirOf_tmpName (p : String) (pid : Nat) (hex : String)
    (h : ∀ c ∈ hex.data, c ≠ '/') : dirOf (tmpName p pid hex) = dirOf p := by
  have e : tmpName p pid hex = p ++ (".tmp-" ++ toString pid ++ "-" ++ hex) := by
    simp [tmpName, String.append_assoc]
  rw [e]
  apply dirOf_append
  intro c hc
  simp only [String.data_append, List.mem_append] at hc
  rcases hc with ((hc | hc) | hc) | hc
  · revert c; decide
  · exact toString_no_slash pid c hc
  · revert c; decide
  · exact h c hc

/-- The temporary name differs from its target. -/
theorem tmpName_ne_self (p : String) (pid : Nat) (hex : String) : tmpName p pid hex ≠ p := by
  intro h
  have h1 := congrArg String.length h
  simp only [tmpName, String.length_append] at h1
  have h2 : (".tmp-" : String).length = 5 := by decide
  omega

/-- C12: `atomicWriteFile` and the artifact write of `downloadImageTo` change the target
only by one rename from the temporary path, which is the target followed by
`.tmp-<pid>-<random hex>`: another name in the same directory. The rename runs only after
the write of the whole buffer to the temporary path succeeded; when that write fails the
error reaches the caller, no rename is issued and the files are those of before. Before
the call, after the temporary write and after the rename the target holds its previous
content or the new content. -/
theorem C12_atomic_publish (J : JsonCodec C) (cfg : Config) (env : Env) (p : String)
    (data : C) (s : World C) :
    (tmpName p env.pid (env.random s.randoms) =
        p ++ (".tmp-" ++ toString env.pid ++ "-" ++ env.random s.randoms) ∧
      tmpName p env.pid (env.random s.randoms) ≠ p ∧
      ((∀ c ∈ (env.random s.randoms).data, c ≠ '/') →
        dirOf (tmpName p env.pid (env.random s.randoms)) = dirOf p)) ∧
    (atomicWriteFile env p data s =
      match fsp.writeFile env (tmpName p env.pid (env.random s.randoms)) data
          (randomHex env s).2 with
      | (.ok _, s1) => fsp.rename (tmpName p env.pid (env.random s.randoms)) p s1
      | (.error e, s1) => (.error e, s1)) ∧
    (env.writeFault s.fileOps = none →
      ∃ s1 s2, fsp.writeFile env (tmpName p env.pid (env.random s.randoms)) data
          (randomHex env s).2 = (.ok (), s1) ∧
        s1.fs p = s.fs p ∧
        (s1.fs (tmpName p env.pid (env.random s.randoms))).map File.data = some data ∧
        atomicWriteFile env p data s = (.ok (), s2) ∧
        (s2.fs p).map File.data = some data ∧
        (∀ q, q ≠ p → q ≠ tmpName p env.pid (env.random s.randoms) → s2.fs q = s.fs q) ∧
        s2.log = s.log ++ [Event.writeFile (tmpName p env.pid (env.random s.randoms)),
          Event.rename (tmpName p env.pid (env.random s.randoms)) p]) ∧
    (∀ e, env.writeFault s.fileOps = some e →
      ∃ s2, atomicWriteFile env p data s = (.error e, s2) ∧ s2.fs = s.fs ∧
        s2.log = s.log ++ [Event.writeFile (tmpName p env.pid (env.random s.randoms))]) ∧
    (∀ x ∈ [s, (fsp.writeFile env (tmpName p env.pid (env.random s.randoms)) data
          (randomHex env s).2).2, (atomicWriteFile env p data s).2],
      x.fs p = s.fs p ∨ (x.fs p).map File.data = some data) ∧
    (∀ r buf, env.fetch s.fetches = FetchResult.response r → r.ok = true →
      startsWith (toLowerCase (r.contentType.getD "")) "image/" = true →
      r.body = .ok buf → 1024 ≤ buf.length →
      (env.writeFault s.fileOps = none →
        ∃ s2, downloadImageTo J cfg env p s = (.ok (), s2) ∧
          (s2.fs p).map File.data = some (J.buffer buf) ∧
          (∀ q, q ≠ p → q ≠ tmpName p env.pid (env.random s.randoms) → s2.fs q = s.fs q) ∧
          s2.log = s.log ++ [Event.fetch cfg.IMAGE_URL,
            Event.writeFile (tmpName p env.pid (env.random s.randoms)),
            Event.rename (tmpName p env.pid (env.random s.randoms)) p]) ∧
      (∀ e, env.writeFault s.fileOps = some e →
        ∃ s2, downloadImageTo J cfg env p s = (.error e, s2) ∧ s2.fs = s.fs ∧
          s2.log = s.log ++ [Event.fetch cfg.IMAGE_URL,
            Event.writeFile (tmpName p env.pid (env.random s.randoms))])) := by
  have hne := tmpName_ne_self p env.pid (env.random s.randoms)
  refine ⟨⟨?_, hne, dirOf_tmpName p env.pid _⟩, ?_, ?_, ?_, ?_, ?_⟩
  · simp [tmpName, String.append_assoc]
  · cases hw : env.writeFault s.fileOps <;>
      simp [atomicWriteFile, randomHex, fsp.writeFile, hw]
  · intro hw
    have e1 : fsp.writeFile env (tmpName p env.pid (env.random s.randoms)) data
        (randomHex env s).2 = (.ok (),
          { s with
            randoms := s.randoms + 1,
            fileOps := s.fileOps + 1,
            log := s.log ++ [Event.writeFile (tmpName p env.pid (env.random s.randoms))],
            fs := Function.update s.fs (tmpName p env.pid (env.random s.randoms))
              (some { data := data, mtimeMs := env.mtime s.fileOps }) }) := by
      simp only [fsp.writeFile, randomHex, hw]
    have e2 : atomicWriteFile env p data s = (.ok (),
          { s with
            randoms := s.randoms + 1,
            fileOps := s.fileOps + 1,
            log := s.log ++ [Event.writeFile (tmpName p env.pid (env.random s.randoms)),
              Event.rename (tmpName p env.pid (env.random s.randoms)) p],
            fs := Function.update
              (Function.update s.fs (tmpName p env.pid (env.random s.randoms)) none)
              p (some { data := data, mtimeMs := env.mtime s.fileOps }) }) := by
      unfold atomicWriteFile randomHex fsp.writeFile fsp.rename
      simp [hw]
    refine ⟨_, _, e1, ?_, ?_, e2, ?_, ?_, rfl⟩
    · simp [Function.update_apply, Ne.symm hne]
    · simp [Function.update_apply]
    · simp [Function.update_apply]
    · intro q hq1 hq2
      simp [Function.update_apply, hq1, hq2]
  · intro e hw
    have e2 : atomicWriteFile env p data s = (.error e,
          { s with
            randoms := s.randoms + 1,
            fileOps := s.fileOps + 1,
            log := s.log ++ [Event.writeFile (tmpName p env.pid (env.random s.randoms))] }) := by
      simp only [atomicWriteFile, randomHex, fsp.writeFile, Prog.bind_run, hw]
    exact ⟨_, e2, rfl, rfl⟩
  · intro x hx
    simp only [List.mem_cons, List.mem_singleton, List.not_mem_nil, or_false] at hx
    rcases hx with rfl | rfl | rfl
    · exact Or.inl rfl
    · left
      cases hw : env.writeFault s.fileOps <;>
        simp [fsp.writeFile, randomHex, hw, Function.update_apply, Ne.symm hne]
    · cases hw : env.writeFault s.fileOps with
      | none =>
        right
        simp [atomicWriteFile, randomHex, fsp.writeFile, fsp.rename, hw, Function.update_apply]
      | some e =>
        left
        simp [atomicWriteFile, randomHex, fsp.writeFile, hw]
  · intro r buf hfetch hok hct hbody hlen
    refine ⟨?_, ?_⟩
    · intro hw
      rw [downloadImageTo_ok J cfg env p r buf hok hct hbody hlen s hfetch hw]
      refine ⟨_, rfl, ?_, ?_, rfl⟩
      · simp [Function.update_apply]
      · intro q hq1 hq2
        simp [Function.update_apply, hq1, hq2]
    · intro e hw
      rw [downloadImageTo_fault J cfg env p r buf e hok hct hbody hlen s hfetch hw]
      exact ⟨_, rfl, rfl, rfl⟩

/-- Replacing the stored artifact: with a working disk the target goes from the old bytes
to the new ones by the rename; with a full disk the call throws and the old bytes stay. -/
theorem C12_witness_replace_and_full_disk :
    (∃ s2, atomicWriteFile env0 cfg0.imagePath (Doc.raw jpegBytes)
        (storedWorld (metaAt cfg0 400)) = (.ok (), s2) ∧
      (s2.fs cfg0.imagePath).map File.data = some (Doc.raw jpegBytes) ∧
      s2.log = [Event.writeFile "/data/image.jpg.tmp-42-5f3a9c0e1b2d4a60",
        Event.rename "/data/image.jpg.tmp-42-5f3a9c0e1b2d4a60" "/data/image.jpg"]) ∧
    (∃ s2, atomicWriteFile (envFault 1000 0) cfg0.imagePath (Doc.raw jpegBytes)
        (storedWorld (metaAt cfg0 400)) = (.error diskFull, s2) ∧
      s2.fs = (storedWorld (metaAt cfg0 400)).fs) ∧
    dirOf "/data/image.jpg.tmp-42-5f3a9c0e1b2d4a60" = dirOf "/data/image.jpg" := by
  have h1 := C12_atomic_publish docCodec cfg0 env0 cfg0.imagePath (Doc.raw jpegBytes)
    (storedWorld (metaAt cfg0 400))
  have h2 := C12_atomic_publish docCodec cfg0 (envFault 1000 0) cfg0.imagePath
    (Doc.raw jpegBytes) (storedWorld (metaAt cfg0 400))
  obtain ⟨_, s2, _, _, _, ha, hb, _, hc⟩ := h1.2.2.1 rfl
  obtain ⟨s3, hd, he, _⟩ := h2.2.2.2.1 diskFull rfl
  refine ⟨⟨s2, ha, hb, ?_⟩, ⟨s3, hd, he⟩, ?_⟩
  · rw [hc]
    decide
  · exact h1.1.2.2 (by decide)

end AtomicPublish

section Generations
variable {C : Type}

/-- The metadata write that fails after the artifact was published, in the branch of a
missing or invalid state: the new artifact stays, the metadata file is untouched. -/
theorem ensureImageLocked_initial_metafault (J : JsonCodec C) (cfg : Config) (env : Env)
    (s : World C) (r : Response) (buf : List Nat) (e : JsError)
    (hcond : (!(s.fs cfg.imagePath).isSome || !(readJson J s.fs cfg.metaPath).truthy ||
      !Json.isNumber ((readJson J s.fs cfg.metaPath).getProp "expiresAtMs")) = true)
    (hfetch : env.fetch s.fetches = FetchResult.response r) (hok : r.ok = true)
    (hct : startsWith (toLowerCase (r.contentType.getD "")) "image/" = true)
    (hbody : r.body = .ok buf) (hlen : 1024 ≤ buf.length)
    (hw1 : env.writeFault s.fileOps = none) (hw2 : env.writeFault (s.fileOps + 1) = some e) :
    ensureImageLocked J cfg env s =
      (.error e,
        { s with
          clockReads := s.clockReads + 1,
          fetches := s.fetches + 1,
          randoms := s.randoms + 2,
          fileOps := s.fileOps + 2,
          log := s.log ++ [Event.fetch cfg.IMAGE_URL,
            Event.writeFile (tmpName cfg.imagePath env.pid (env.random s.randoms)),
            Event.rename (tmpName cfg.imagePath env.pid (env.random s.randoms)) cfg.imagePath,
            Event.now (env.clock s.clockReads),
            Event.writeFile (tmpName cfg.metaPath env.pid (env.random (s.randoms + 1)))],
          fs := Function.update (Function.update s.fs
            (tmpName cfg.imagePath env.pid (env.random s.randoms)) none)
            cfg.imagePath (some { data := J.buffer buf, mtimeMs := env.mtime s.fileOps }) }) := by
  unfold ensureImageLocked
  simp only [Prog.bind_run, fileExists_run, safeReadJson_run, hcond, if_true]
  simp [downloadImageTo_ok J cfg env cfg.imagePath r buf hok hct hbody hlen, writeMeta,
    atomicWriteFile, randomHex, fsp.writeFile, newMeta, nowMs, hfetch, hw1, hw2, Nat.add_assoc]

/-- The same in the branch of the forced refresh. -/
theorem ensureImageLocked_refresh_metafault (J : JsonCodec C) (cfg : Config) (env : Env)
    (s : World C) (meta : Json) (e : Int) (r : Response) (buf : List Nat) (err : JsError)
    (hread : readJson J s.fs cfg.metaPath = meta)
    (hcond : (!(s.fs cfg.imagePath).isSome || !(readJson J s.fs cfg.metaPath).truthy ||
      !Json.isNumber ((readJson J s.fs cfg.metaPath).getProp "expiresAtMs")) = false)
    (hexp : meta.getProp "expiresAtMs" = some (Json.num e))
    (hnow : e < env.clock s.clockReads)
    (hflag : Json.isTrue (meta.getProp "afterExpiryServedOnce") = true)
    (hfetch : env.fetch s.fetches = FetchResult.response r) (hok : r.ok = true)
    (hct : startsWith (toLowerCase (r.contentType.getD "")) "image/" = true)
    (hbody : r.body = .ok buf) (hlen : 1024 ≤ buf.length)
    (hw1 : env.writeFault s.fileOps = none)
    (hw2 : env.writeFault (s.fileOps + 1) = some err) :
    ensureImageLocked J cfg env s =
      (.error err,
        { s with
          clockReads := s.clockReads + 2,
          fetches := s.fetches + 1,
          randoms := s.randoms + 2,
          fileOps := s.fileOps + 2,
          log := s.log ++ [Event.now (env.clock s.clockReads), Event.fetch cfg.IMAGE_URL,
            Event.writeFile (tmpName cfg.imagePath env.pid (env.random s.randoms)),
            Event.rename (tmpName cfg.imagePath env.pid (env.random s.randoms)) cfg.imagePath,
            Event.now (env.clock (s.clockReads + 1)),
            Event.writeFile (tmpName cfg.metaPath env.pid (env.random (s.randoms + 1)))],
          fs := Function.update (Function.update s.fs
            (tmpName cfg.imagePath env.pid (env.random s.randoms)) none)
            cfg.imagePath (some { data := J.buffer buf, mtimeMs := env.mtime s.fileOps }) }) := by
  unfold ensureImageLocked
  simp only [Prog.bind_run, fileExists_run, safeReadJson_run, hcond]
  simp only [nowMs, Prog.bind_run, Prog.pure_run, hread, hexp, Json.numberOf, not_le.mpr hnow,
    hflag, Bool.false_eq_true, if_false, Bool.not_true]
  simp [downloadImageTo_ok J cfg env cfg.imagePath r buf hok hct hbody hlen, writeMeta,
    atomicWriteFile, randomHex, fsp.writeFile, newMeta, nowMs, hfetch, hw1, hw2, Nat.add_assoc]

/-- The publishing sequence of both download branches (download, `newMeta`, `writeMeta`):
it throws and leaves the metadata file as it was, or it returns with the downloaded body
as artifact and the fresh record as metadata. -/
theorem publish_cases (J : JsonCodec C) (cfg : Config) (env : Env) (tag : String)
    (s0 : World C) (out : Except JsError Result × World C)
    (hout : out = (do
      downloadImageTo J cfg env cfg.imagePath
      let m ← newMeta cfg env
      writeMeta J cfg env m
      pure { action := tag, meta := m } : Prog C Result) s0) :
    (out.2.fs cfg.metaPath = s0.fs cfg.metaPath ∧ ∃ e, out.1 = .error e) ∨
    (∃ r buf, env.fetch s0.fetches = FetchResult.response r ∧ r.body = .ok buf ∧
      out.1 = .ok { action := tag, meta := metaAt cfg (env.clock s0.clockReads) } ∧
      (out.2.fs cfg.imagePath).map File.data = some (J.buffer buf) ∧
      (out.2.fs cfg.metaPath).map File.data =
        some (J.stringify (metaAt cfg (env.clock s0.clockReads)))) := by
  simp only [Prog.bind_run] at hout
  cases hd : downloadFailure (env.fetch s0.fetches) with
  | some e =>
    left
    rw [downloadImageTo_fail J cfg env cfg.imagePath e s0 hd] at hout
    subst hout
    exact ⟨rfl, e, rfl⟩
  | none =>
    obtain ⟨r, hf, hp⟩ := downloadFailure_none _ hd
    obtain ⟨hok, hct, buf, hb, hlen⟩ := passes_body r hp
    cases hw : env.writeFault s0.fileOps with
    | some e =>
      left
      rw [downloadImageTo_fault J cfg env cfg.imagePath r buf e hok hct hb hlen s0 hf hw] at hout
      subst hout
      exact ⟨rfl, e, rfl⟩
    | none =>
      rw [downloadImageTo_ok J cfg env cfg.imagePath r buf hok hct hb hlen s0 hf hw] at hout
      simp only [newMeta, nowMs, Prog.bind_run, Prog.pure_run] at hout
      cases hw2 : env.writeFault (s0.fileOps + 1) with
      | some e =>
        left
        simp only [writeMeta, atomicWriteFile, randomHex, fsp.writeFile, Prog.bind_run,
          hw2] at hout
        subst hout
        exact ⟨by simp [Function.update_apply], e, rfl⟩
      | none =>
        right
        rw [writeMeta_ok J cfg env _ _ hw2] at hout
        subst hout
        exact ⟨r, buf, hf, hb, rfl, by simp [Function.update_apply],
          by simp [Function.update_apply]⟩

/-- Whenever the refresh policy changes the metadata file, the files afterwards hold one
generation: the untouched artifact with its own record marked as served, or the body
downloaded by this call with the fresh record written after it. -/
theorem ensureImageLocked_meta_written (J : JsonCodec C) (cfg : Config) (env : Env)
    (s : World C)
    (hch : (ensureImageLocked J cfg env s).2.fs cfg.metaPath ≠ s.fs cfg.metaPath) :
    ((ensureImageLocked J cfg env s).1 =
        .ok { action := "expired-served-old-once",
              meta := (readJson J s.fs cfg.metaPath).spreadSet "afterExpiryServedOnce"
                (Json.bool true) } ∧
      (ensureImageLocked J cfg env s).2.fs cfg.imagePath = s.fs cfg.imagePath ∧
      ((ensureImageLocked J cfg env s).2.fs cfg.metaPath).map File.data =
        some (J.stringify ((readJson J s.fs cfg.metaPath).spreadSet "afterExpiryServedOnce"
          (Json.bool true)))) ∨
    (∃ r buf t tag, env.fetch s.fetches = FetchResult.response r ∧ r.body = .ok buf ∧
      (ensureImageLocked J cfg env s).1 = .ok { action := tag, meta := metaAt cfg t } ∧
      ((ensureImageLocked J cfg env s).2.fs cfg.imagePath).map File.data =
        some (J.buffer buf) ∧
      ((ensureImageLocked J cfg env s).2.fs cfg.metaPath).map File.data =
        some (J.stringify (metaAt cfg t))) := by
  unfold ensureImageLocked at hch ⊢
  simp only [Prog.bind_run, fileExists_run, safeReadJson_run] at hch ⊢
  by_cases hcond : (!(s.fs cfg.imagePath).isSome || !(readJson J s.fs cfg.metaPath).truthy ||
      !Json.isNumber ((readJson J s.fs cfg.metaPath).getProp "expiresAtMs")) = true
  · simp only [hcond, if_true] at hch ⊢
    rcases publish_cases J cfg env "downloaded-initial" s _ rfl with ⟨h1, _⟩ | h
    · exact absurd h1 hch
    · obtain ⟨r, buf, h1, h2, h3, h4, h5⟩ := h
      exact Or.inr ⟨r, buf, _, _, h1, h2, h3, h4, h5⟩
  · simp only [hcond, if_false, Bool.false_eq_true] at hch ⊢
    simp only [nowMs, Prog.bind_run] at hch ⊢
    by_cases hnow : env.clock s.clockReads ≤
        Json.numberOf ((readJson J s.fs cfg.metaPath).getProp "expiresAtMs")
    · simp only [hnow, if_true, Prog.pure_run] at hch
      exact absurd rfl hch
    · simp only [hnow, if_false] at hch ⊢
      by_cases hflag : Json.isTrue
          ((readJson J s.fs cfg.metaPath).getProp "afterExpiryServedOnce") = true
      · simp only [hflag, Bool.not_true, Bool.false_eq_true, if_false] at hch ⊢
        rcases publish_cases J cfg env "downloaded-after-expiry"
          { s with clockReads := s.clockReads + 1,
                   log := s.log ++ [Event.now (env.clock s.clockReads)] } _ rfl
          with ⟨h1, _⟩ | h
        · exact absurd h1 hch
        · obtain ⟨r, buf, h1, h2, h3, h4, h5⟩ := h
          exact Or.inr ⟨r, buf, _, _, h1, h2, h3, h4, h5⟩
      · have hflag2 : Json.isTrue
            ((readJson J s.fs cfg.metaPath).getProp "afterExpiryServedOnce") = false := by
          simpa using hflag
        simp only [hflag2, Bool.not_false, if_true, Prog.bind_run, Prog.pure_run] at hch ⊢
        left
        rcases writeMeta_cases J cfg env
          ((readJson J s.fs cfg.metaPath).spreadSet "afterExpiryServedOnce" (Json.bool true))
          { s with clockReads := s.clockReads + 1,
                   log := s.log ++ [Event.now (env.clock s.clockReads)] }
          with ⟨e, h4, h5⟩ | ⟨h4, h5, h6⟩
        · exfalso
          cases hw : writeMeta J cfg env
            ((readJson J s.fs cfg.metaPath).spreadSet "afterExpiryServedOnce" (Json.bool true))
            { s with clockReads := s.clockReads + 1,
                     log := s.log ++ [Event.now (env.clock s.clockReads)] } with
          | mk r3 s3 =>
            rw [hw] at h4 h5 hch
            simp only at h4 h5
            subst h4
            simp only at hch
            exact hch (by rw [h5])
        · cases hw : writeMeta J cfg env
            ((readJson J s.fs cfg.metaPath).spreadSet "afterExpiryServedOnce" (Json.bool true))
            { s with clockReads := s.clockReads + 1,
                     log := s.log ++ [Event.now (env.clock s.clockReads)] } with
          | mk r3 s3 =>
            rw [hw] at h4 h5 h6
            simp only at h4 h5 h6
            subst h4
            exact ⟨rfl, h5, h6⟩

/-- A whole call in the state Expired-ForceRefresh whose download passes and whose
metadata write fails: the call throws the error of the write, the new artifact stays and
the metadata file is the one of before. -/
theorem ensureImage_refresh_metafault (J : JsonCodec C) (cfg : Config) (env : Env)
    (fuel : Nat) (f g : File C) (meta : Json) (e : Int) (r : Response) (buf : List Nat)
    (err : JsError) (hparse : J.parse g.data = some meta)
    (hexp : meta.getProp "expiresAtMs" = some (Json.num e))
    (hflag : meta.getProp "afterExpiryServedOnce" = some (Json.bool true))
    (hok : r.ok = true)
    (hct : startsWith (toLowerCase (r.contentType.getD "")) "image/" = true)
    (hbody : r.body = .ok buf) (hlen : 1024 ≤ buf.length)
    (hcode : err.code ≠ some "EEXIST") (s : World C)
    (hlock : s.fs cfg.lockPath = none)
    (himg : s.fs cfg.imagePath = some f) (hmeta : s.fs cfg.metaPath = some g)
    (hnow : e < env.clock (s.clockReads + 1))
    (hfetch : env.fetch s.fetches = FetchResult.response r)
    (hw1 : env.writeFault (s.fileOps + 1) = none)
    (hw2 : env.writeFault (s.fileOps + 2) = some err) :
    ensureImage J cfg env (fuel + 1) s =
      some (.error err,
        { s with
          clockReads := s.clockReads + 3,
          fetches := s.fetches + 1,
          randoms := s.randoms + 2,
          fileOps := s.fileOps + 3,
          log := s.log ++ [Event.mkdir cfg.DATA_DIR, Event.now (env.clock s.clockReads),
            Event.openWx cfg.lockPath, Event.now (env.clock (s.clockReads + 1)),
            Event.fetch cfg.IMAGE_URL,
            Event.writeFile (tmpName cfg.imagePath env.pid (env.random s.randoms)),
            Event.rename (tmpName cfg.imagePath env.pid (env.random s.randoms)) cfg.imagePath,
            Event.now (env.clock (s.clockReads + 2)),
            Event.writeFile (tmpName cfg.metaPath env.pid (env.random (s.randoms + 1))),
            Event.unlink cfg.lockPath],
          fs := Function.update (Function.update (Function.update s.fs
            (tmpName cfg.imagePath env.pid (env.random s.randoms)) none)
            cfg.imagePath (some { data := J.buffer buf, mtimeMs := env.mtime (s.fileOps + 1) }))
            cfg.lockPath none }) := by
  obtain ⟨hread, hcond⟩ := fresh_cond J cfg s f g meta e himg hmeta hparse hexp
  have hb := ensureImageLocked_refresh_metafault J cfg env
    (acquired J cfg env (ensureDataDir cfg s).2) meta e r buf err
    (by rw [entered_eq J cfg env s hlock]; simpa [readJson, Function.update_apply] using hread)
    (by rw [entered_eq J cfg env s hlock]; simpa [readJson, Function.update_apply] using hcond)
    hexp
    (by rw [entered_eq J cfg env s hlock]; exact hnow)
    (by rw [hflag]; rfl)
    (by rw [entered_eq J cfg env s hlock]; exact hfetch) hok hct hbody hlen
    (by rw [entered_eq J cfg env s hlock]; exact hw1)
    (by rw [entered_eq J cfg env s hlock]; exact hw2)
  rw [ensureImage_free J cfg env fuel s hlock
    (by rw [hb]; intro e h; cases h; exact hcode)]
  rw [hb, entered_eq J cfg env s hlock, released_eq]
  simp only [Option.some.injEq, Prod.mk.injEq, true_and, World.mk.injEq, List.append_assoc,
    List.cons_append, List.nil_append, Nat.add_assoc, and_true]
  funext p
  simp only [Function.update_apply]
  by_cases h1 : p = cfg.lockPath
  · subst h1; simp
  · simp [h1]

/-- The downloaded body is not the stored artifact. -/
theorem jpegBytes_ne_oldBytes : jpegBytes ≠ oldBytes := by
  intro h
  have h1 : jpegBytes.headD 0 = oldBytes.headD 0 := by rw [h]
  revert h1
  decide

/-- C13, amended: the metadata of a new generation is written only after the artifact
rename has completed, so whenever the refresh policy changes the metadata file the files
afterwards hold one generation (the untouched artifact with its own record marked as
served, or the body downloaded by this call with the record written after it). The
artifact of a new download does stand next to the metadata of the previous generation, or
next to none, in the state after the artifact rename and before the metadata write, and
in the state left behind when the metadata write fails after the artifact was published. -/
theorem C13_metadata_follows_artifact (J : JsonCodec C) (cfg : Config) (env : Env)
    (s : World C) :
    ((ensureImageLocked J cfg env s).2.fs cfg.metaPath ≠ s.fs cfg.metaPath →
      ((ensureImageLocked J cfg env s).1 =
          .ok { action := "expired-served-old-once",
                meta := (readJson J s.fs cfg.metaPath).spreadSet "afterExpiryServedOnce"
                  (Json.bool true) } ∧
        (ensureImageLocked J cfg env s).2.fs cfg.imagePath = s.fs cfg.imagePath ∧
        ((ensureImageLocked J cfg env s).2.fs cfg.metaPath).map File.data =
          some (J.stringify ((readJson J s.fs cfg.metaPath).spreadSet "afterExpiryServedOnce"
            (Json.bool true)))) ∨
      (∃ r buf t tag, env.fetch s.fetches = FetchResult.response r ∧ r.body = .ok buf ∧
        (ensureImageLocked J cfg env s).1 = .ok { action := tag, meta := metaAt cfg t } ∧
        ((ensureImageLocked J cfg env s).2.fs cfg.imagePath).map File.data =
          some (J.buffer buf) ∧
        ((ensureImageLocked J cfg env s).2.fs cfg.metaPath).map File.data =
          some (J.stringify (metaAt cfg t)))) ∧
    (∀ r buf, env.fetch s.fetches = FetchResult.response r → r.ok = true →
      startsWith (toLowerCase (r.contentType.getD "")) "image/" = true →
      r.body = .ok buf → 1024 ≤ buf.length → env.writeFault s.fileOps = none →
      ∀ s1, (MissingOrInvalid J cfg s ∧ s1 = s) ∨
          (ExpiredServed J cfg s (env.clock s.clockReads) ∧ s1 = (nowMs env s).2) →
        ((downloadImageTo J cfg env cfg.imagePath s1).2.fs cfg.imagePath).map File.data =
          some (J.buffer buf) ∧
        (downloadImageTo J cfg env cfg.imagePath s1).2.fs cfg.metaPath = s.fs cfg.metaPath ∧
        (∀ e, env.writeFault (s.fileOps + 1) = some e →
          ∃ s2, ensureImageLocked J cfg env s = (.error e, s2) ∧
            (s2.fs cfg.imagePath).map File.data = some (J.buffer buf) ∧
            s2.fs cfg.metaPath = s.fs cfg.metaPath ∧
            s2.log = s1.log ++ [Event.fetch cfg.IMAGE_URL,
              Event.writeFile (tmpName cfg.imagePath env.pid (env.random s.randoms)),
              Event.rename (tmpName cfg.imagePath env.pid (env.random s.randoms))
                cfg.imagePath,
              Event.now (env.clock s1.clockReads),
              Event.writeFile (tmpName cfg.metaPath env.pid (env.random (s.randoms + 1)))]) ∧
        (env.writeFault (s.fileOps + 1) = none →
          ∃ s2 tag, ensureImageLocked J cfg env s =
              (.ok { action := tag, meta := metaAt cfg (env.clock s1.clockReads) }, s2) ∧
            (s2.fs cfg.imagePath).map File.data = some (J.buffer buf) ∧
            (s2.fs cfg.metaPath).map File.data =
              some (J.stringify (metaAt cfg (env.clock s1.clockReads))) ∧
            s2.log = s1.log ++ [Event.fetch cfg.IMAGE_URL,
              Event.writeFile (tmpName cfg.imagePath env.pid (env.random s.randoms)),
              Event.rename (tmpName cfg.imagePath env.pid (env.random s.randoms))
                cfg.imagePath,
              Event.now (env.clock s1.clockReads),
              Event.writeFile (tmpName cfg.metaPath env.pid (env.random (s.randoms + 1))),
              Event.rename (tmpName cfg.metaPath env.pid (env.random (s.randoms + 1)))
                cfg.metaPath])) := by
  refine ⟨ensureImageLocked_meta_written J cfg env s, ?_⟩
  intro r buf hfetch hok hct hbody hlen hw1 s1 hs1
  rcases hs1 with ⟨hmiss, rfl⟩ | ⟨⟨f, g, meta, e, himg, hmeta, hparse, hexp, hnow, hflag⟩, rfl⟩
  · have hcond := missing_cond J cfg s1 hmiss
    refine ⟨?_, ?_, ?_, ?_⟩
    · rw [downloadImageTo_ok J cfg env cfg.imagePath r buf hok hct hbody hlen s1 hfetch hw1]
      simp [Function.update_apply]
    · rw [downloadImageTo_ok J cfg env cfg.imagePath r buf hok hct hbody hlen s1 hfetch hw1]
      simp [Function.update_apply]
    · intro e hw2
      rw [ensureImageLocked_initial_metafault J cfg env s1 r buf e hcond hfetch hok hct hbody
        hlen hw1 hw2]
      exact ⟨_, rfl, by simp [Function.update_apply], by simp [Function.update_apply], rfl⟩
    · intro hw2
      rw [ensureImageLocked_initial J cfg env s1 r buf hcond hfetch hok hct hbody hlen hw1 hw2]
      exact ⟨_, _, rfl, by simp [Function.update_apply], by simp [Function.update_apply], rfl⟩
  · obtain ⟨hread, hcond⟩ := fresh_cond J cfg s f g meta e himg hmeta hparse hexp
    have hflag2 : Json.isTrue (meta.getProp "afterExpiryServedOnce") = true := by
      rw [hflag]; rfl
    refine ⟨?_, ?_, ?_, ?_⟩
    · rw [downloadImageTo_ok J cfg env cfg.imagePath r buf hok hct hbody hlen _
        (by simpa [nowMs] using hfetch) (by simpa [nowMs] using hw1)]
      simp [Function.update_apply, nowMs]
    · rw [downloadImageTo_ok J cfg env cfg.imagePath r buf hok hct hbody hlen _
        (by simpa [nowMs] using hfetch) (by simpa [nowMs] using hw1)]
      simp [Function.update_apply, nowMs]
    · intro err hw2
      rw [ensureImageLocked_refresh_metafault J cfg env s meta e r buf err hread hcond hexp hnow
        hflag2 hfetch hok hct hbody hlen hw1 hw2]
      exact ⟨_, rfl, by simp [Function.update_apply], by simp [Function.update_apply],
        by simp [nowMs]⟩
    · intro hw2
      rw [ensureImageLocked_refresh J cfg env s meta e r buf hread hcond hexp hnow
        hflag2 hfetch hok hct hbody hlen hw1 hw2]
      refine ⟨_, "downloaded-after-expiry", rfl, ?_, ?_, ?_⟩
      · simp [Function.update_apply]
      · simp [Function.update_apply, nowMs]
      · simp [nowMs]

/-- The forced refresh whose metadata write meets a full disk, at the level of the
callback: the downloaded body is the artifact, the metadata file is the previous one. -/
theorem C13_witness_full_disk_after_publish :
    ∃ s2, ensureImageLocked docCodec cfg0 (envFault 700000 1) (storedWorld servedMeta) =
        (.error diskFull, s2) ∧
      (s2.fs cfg0.imagePath).map File.data = some (Doc.raw jpegBytes) ∧
      s2.fs cfg0.metaPath = (storedWorld servedMeta).fs cfg0.metaPath := by
  obtain ⟨s2, h1, h2, h3, _⟩ :=
    ((C13_metadata_follows_artifact docCodec cfg0 (envFault 700000 1)
      (storedWorld servedMeta)).2 goodResponse jpegBytes rfl rfl (by decide) rfl
      (by rw [jpegBytes, List.length_replicate]; decide) rfl _
      (Or.inr ⟨⟨{ data := Doc.raw oldBytes, mtimeMs := 500 },
        { data := Doc.json servedMeta, mtimeMs := 500 }, servedMeta, 600400,
        rfl, rfl, rfl, rfl, by decide, rfl⟩, rfl⟩)).2.2.1 diskFull rfl
  exact ⟨s2, h1, h2, h3⟩

/-- C13 as stated fails in the state left behind when the metadata write fails after the
artifact was published: a call at 700000 on a generation created at 400 whose grace read
is used downloads a new body and publishes it, the write of the new metadata meets a full
disk, and the call ends with the downloaded artifact next to the metadata created at 400. -/
theorem C13_counterexample_metadata_write_fails :
    ∃ s', ensureImage docCodec cfg0 (envFault 700000 2) 1 (storedWorld servedMeta) =
        some (.error diskFull, s') ∧
      ((storedWorld servedMeta).fs cfg0.imagePath).map File.data = some (Doc.raw oldBytes) ∧
      (s'.fs cfg0.imagePath).map File.data = some (Doc.raw jpegBytes) ∧
      jpegBytes ≠ oldBytes ∧
      s'.fs cfg0.metaPath = (storedWorld servedMeta).fs cfg0.metaPath ∧
      (readJson docCodec s'.fs cfg0.metaPath).getProp "createdAtMs" = some (Json.num 400) := by
  rw [ensureImage_refresh_metafault docCodec cfg0 (envFault 700000 2) 0
    { data := Doc.raw oldBytes, mtimeMs := 500 }
    { data := Doc.json servedMeta, mtimeMs := 500 } servedMeta 600400 goodResponse jpegBytes
    diskFull rfl rfl rfl rfl (by decide) rfl
    (by rw [jpegBytes, List.length_replicate]; decide) (by decide)
    (storedWorld servedMeta) rfl rfl rfl (by decide) rfl rfl rfl]
  refine ⟨_, rfl, rfl, ?_, jpegBytes_ne_oldBytes, ?_, ?_⟩
  · simp [Function.update_apply]
    rfl
  · simp [Function.update_apply]
  · simp [Function.update_apply, readJson]
    rfl

end Generations

section ConsumerPrediction
variable {C : Type}

/-- A value with a numeric property is an object, hence truthy. -/
theorem truthy_of_isNumber (m : Json) (k : String)
    (h : Json.isNumber (m.getProp k) = true) : m.truthy = true := by
  cases m <;> simp_all [Json.getProp, Json.isNumber, Json.truthy]

/-- The prediction of version 1.13, read off the files and the clock. -/
theorem shouldTouchImageCache_run (J : JsonCodec C) (ccfg : ConsumerConfig) (env : Env)
    (s : World C) :
    Consumer.shouldTouchImageCache J ccfg env s =
      if (s.fs ccfg.imagePath).isSome = true ∧
          Json.isNumber ((readJson J s.fs ccfg.metaPath).getProp "expiresAtMs") = true then
        (.ok (decide (env.clock s.clockReads >
            Json.numberOf ((readJson J s.fs ccfg.metaPath).getProp "expiresAtMs"))),
          { s with
            clockReads := s.clockReads + 1,
            log := s.log ++ [Event.now (env.clock s.clockReads)] })
      else (.ok true, s) := by
  unfold Consumer.shouldTouchImageCache
  simp only [Prog.bind_run, fileExists_run, safeReadJson_run]
  cases himg : (s.fs ccfg.imagePath).isSome with
  | false => simp
  | true =>
    cases hnum : Json.isNumber ((readJson J s.fs ccfg.metaPath).getProp "expiresAtMs") with
    | false => simp [safeReadJson_run, hnum]
    | true =>
      have ht := truthy_of_isNumber _ _ hnum
      simp [safeReadJson_run, hnum, ht, nowMs]

/-- The prediction of version 1.12 is that of version 1.13. -/
theorem shouldTouchImageCache_versions (J : JsonCodec C) (ccfg : ConsumerConfig) (env : Env) :
    Consumer12.shouldTouchImageCache J ccfg env = Consumer.shouldTouchImageCache J ccfg env := by
  funext s
  unfold Consumer12.shouldTouchImageCache Consumer.shouldTouchImageCache
  simp only [Prog.bind_run, fileExists_run, safeReadJson_run]
  cases himg : (s.fs ccfg.imagePath).isSome with
  | false => simp
  | true =>
    cases hnum : Json.isNumber ((readJson J s.fs ccfg.metaPath).getProp "expiresAtMs") with
    | false => simp [safeReadJson_run, hnum]
    | true =>
      have ht := truthy_of_isNumber _ _ hnum
      by_cases hgt : env.clock s.clockReads >
          Json.numberOf ((readJson J s.fs ccfg.metaPath).getProp "expiresAtMs")
      · simp [safeReadJson_run, hnum, ht, nowMs, hgt]
      · simp [safeReadJson_run, hnum, ht, nowMs, hgt]

/-- A numeric `expiresAtMs` read from the files comes from a metadata file that parses. -/
theorem readJson_isNumber (J : JsonCodec C) (fs : String → Option (File C)) (p k : String)
    (h : Json.isNumber ((readJson J fs p).getProp k) = true) :
    ∃ g v e, fs p = some g ∧ J.parse g.data = some v ∧ v.getProp k = some (Json.num e) := by
  unfold readJson at h
  cases hf : fs p with
  | none => simp [hf, Json.getProp, Json.isNumber] at h
  | some g =>
    cases hp : J.parse g.data with
    | none => simp [hf, hp, Json.getProp, Json.isNumber] at h
    | some v =>
      simp only [hf, hp, Option.getD_some] at h
      cases hk : v.getProp k with
      | none => simp [hk, Json.isNumber] at h
      | some x =>
        cases x with
        | num e => exact ⟨g, v, e, rfl, hp, hk⟩
        | _ => simp [hk, Json.isNumber] at h

/-- The files decide between the valid states and the missing or invalid ones. -/
theorem valid_or_missing (J : JsonCodec C) (fs : String → Option (File C)) (img mt : String) :
    (∃ f g v e, fs img = some f ∧ fs mt = some g ∧ J.parse g.data = some v ∧
      v.getProp "expiresAtMs" = some (Json.num e) ∧ readJson J fs mt = v ∧
      (fs img).isSome = true ∧
      Json.isNumber ((readJson J fs mt).getProp "expiresAtMs") = true) ∨
    (((fs img).isSome = false ∨
        Json.isNumber ((readJson J fs mt).getProp "expiresAtMs") = false) ∧
      (fs img = none ∨ fs mt = none ∨ (∃ g, fs mt = some g ∧ J.parse g.data = none) ∨
        ∃ g v, fs mt = some g ∧ J.parse g.data = some v ∧
          Json.isNumber (v.getProp "expiresAtMs") = false)) := by
  cases hi : fs img with
  | none => exact Or.inr ⟨Or.inl rfl, Or.inl rfl⟩
  | some f =>
    cases hm : fs mt with
    | none =>
      exact Or.inr ⟨Or.inr (by simp [readJson, hm, Json.getProp, Json.isNumber]),
        Or.inr (Or.inl rfl)⟩
    | some g =>
      cases hp : J.parse g.data with
      | none =>
        exact Or.inr ⟨Or.inr (by simp [readJson, hm, hp, Json.getProp, Json.isNumber]),
          Or.inr (Or.inr (Or.inl ⟨g, rfl, hp⟩))⟩
      | some v =>
        have hr : readJson J fs mt = v := by simp [readJson, hm, hp]
        cases hn : Json.isNumber (v.getProp "expiresAtMs") with
        | false =>
          exact Or.inr ⟨Or.inr (by rw [hr]; exact hn),
            Or.inr (Or.inr (Or.inr ⟨g, v, rfl, hp, hn⟩))⟩
        | true =>
          left
          cases hk : v.getProp "expiresAtMs" with
          | none => simp [hk, Json.isNumber] at hn
          | some x =>
            cases x with
            | num e => exact ⟨f, g, v, e, rfl, rfl, hp, hk, hr, rfl, by rw [hr, hk]; rfl⟩
            | _ => simp [hk, Json.isNumber] at hn

/-- C14: on every world `shouldTouchImageCache` returns a boolean `b` and never throws;
`b` is `true` exactly when the artifact is absent, or the metadata file is absent, does
not parse or has no numeric `expiresAtMs`, or the time read is after `expiresAtMs`, and
`false` exactly when the artifact exists and the time read is not after the numeric
`expiresAtMs`. No file changes and nothing but the clock reading is logged. The answer
depends on the metadata only through `expiresAtMs`, so not on `afterExpiryServedOnce`.
Version 1.12 of the function returns the same answer and leaves the same world. -/
theorem C14_consumer_staleness_prediction (J : JsonCodec C) (ccfg : ConsumerConfig)
    (env : Env) (s : World C) :
    ∃ b s', Consumer.shouldTouchImageCache J ccfg env s = (.ok b, s') ∧
      (b = true ↔
        s.fs ccfg.imagePath = none ∨ s.fs ccfg.metaPath = none ∨
        (∃ g, s.fs ccfg.metaPath = some g ∧ J.parse g.data = none) ∨
        (∃ g v, s.fs ccfg.metaPath = some g ∧ J.parse g.data = some v ∧
          Json.isNumber (v.getProp "expiresAtMs") = false) ∨
        (∃ g v e, s.fs ccfg.metaPath = some g ∧ J.parse g.data = some v ∧
          v.getProp "expiresAtMs" = some (Json.num e) ∧ e < env.clock s.clockReads)) ∧
      (b = false ↔
        ∃ f g v e, s.fs ccfg.imagePath = some f ∧ s.fs ccfg.metaPath = some g ∧
          J.parse g.data = some v ∧ v.getProp "expiresAtMs" = some (Json.num e) ∧
          env.clock s.clockReads ≤ e) ∧
      s'.fs = s.fs ∧
      (s'.log = s.log ∨ s'.log = s.log ++ [Event.now (env.clock s.clockReads)]) ∧
      (∀ s2 : World C, s2.clockReads = s.clockReads →
        (s2.fs ccfg.imagePath).isSome = (s.fs ccfg.imagePath).isSome →
        (readJson J s2.fs ccfg.metaPath).getProp "expiresAtMs" =
          (readJson J s.fs ccfg.metaPath).getProp "expiresAtMs" →
        (Consumer.shouldTouchImageCache J ccfg env s2).1 = .ok b) ∧
      (∀ (s2 : World C) (kvs : List (String × Json)) (x : Json),
        s2.clockReads = s.clockReads →
        (s2.fs ccfg.imagePath).isSome = (s.fs ccfg.imagePath).isSome →
        readJson J s.fs ccfg.metaPath = Json.obj kvs →
        readJson J s2.fs ccfg.metaPath =
          (Json.obj kvs).spreadSet "afterExpiryServedOnce" x →
        (Consumer.shouldTouchImageCache J ccfg env s2).1 = .ok b) ∧
      Consumer12.shouldTouchImageCache J ccfg env s = (.ok b, s') := by
  have hdep : ∀ s2 : World C, s2.clockReads = s.clockReads →
      (s2.fs ccfg.imagePath).isSome = (s.fs ccfg.imagePath).isSome →
      (readJson J s2.fs ccfg.metaPath).getProp "expiresAtMs" =
        (readJson J s.fs ccfg.metaPath).getProp "expiresAtMs" →
      (Consumer.shouldTouchImageCache J ccfg env s2).1 =
        (Consumer.shouldTouchImageCache J ccfg env s).1 := by
    intro s2 h1 h2 h3
    rw [shouldTouchImageCache_run, shouldTouchImageCache_run, h1, h2, h3]
    split <;> rfl
  have hflag : ∀ (s2 : World C) (kvs : List (String × Json)) (x : Json),
      s2.clockReads = s.clockReads →
      (s2.fs ccfg.imagePath).isSome = (s.fs ccfg.imagePath).isSome →
      readJson J s.fs ccfg.metaPath = Json.obj kvs →
      readJson J s2.fs ccfg.metaPath = (Json.obj kvs).spreadSet "afterExpiryServedOnce" x →
      (Consumer.shouldTouchImageCache J ccfg env s2).1 =
        (Consumer.shouldTouchImageCache J ccfg env s).1 := by
    intro s2 kvs x h1 h2 h3 h4
    refine hdep s2 h1 h2 ?_
    rw [h3, h4]
    exact getProp_spreadSet_other kvs "afterExpiryServedOnce" "expiresAtMs" x (by decide)
  rw [shouldTouchImageCache_versions]
  rcases valid_or_missing J s.fs ccfg.imagePath ccfg.metaPath with
    ⟨f, g, v, e, hi, hm, hp, hk, hr, h1, h2⟩ | ⟨hno, hmiss⟩
  · have hrun : Consumer.shouldTouchImageCache J ccfg env s =
        (.ok (decide (env.clock s.clockReads > e)),
          { s with
            clockReads := s.clockReads + 1,
            log := s.log ++ [Event.now (env.clock s.clockReads)] }) := by
      rw [shouldTouchImageCache_run, if_pos ⟨h1, h2⟩, hr, hk]
      rfl
    refine ⟨_, _, hrun, ?_, ?_, rfl, Or.inr rfl, ?_, ?_, hrun⟩
    · constructor
      · intro hb
        exact Or.inr (Or.inr (Or.inr (Or.inr ⟨g, v, e, hm, hp, hk, by simpa using hb⟩)))
      · rintro (h | h | ⟨g2, h, h3⟩ | ⟨g2, v2, h, h3, h4⟩ | ⟨g2, v2, e2, h, h3, h4, h5⟩)
        · rw [hi] at h; cases h
        · rw [hm] at h; cases h
        · rw [hm] at h; cases h; rw [hp] at h3; cases h3
        · rw [hm] at h; cases h; rw [hp] at h3; cases h3
          rw [hk] at h4; simp [Json.isNumber] at h4
        · rw [hm] at h; cases h; rw [hp] at h3; cases h3
          rw [hk] at h4; cases h4
          simpa using h5
    · constructor
      · intro hb
        exact ⟨f, g, v, e, hi, hm, hp, hk, by simpa using hb⟩
      · rintro ⟨f2, g2, v2, e2, _, h, h3, h4, h5⟩
        rw [hm] at h; cases h; rw [hp] at h3; cases h3
        rw [hk] at h4; cases h4
        simpa using h5
    · intro s2 h3 h4 h5
      rw [hdep s2 h3 h4 h5, hrun]
    · intro s2 kvs x h3 h4 h5 h6
      rw [hflag s2 kvs x h3 h4 h5 h6, hrun]
  · have hrun : Consumer.shouldTouchImageCache J ccfg env s = (.ok true, s) := by
      rw [shouldTouchImageCache_run]
      rcases hno with h | h <;> simp [h]
    refine ⟨_, _, hrun, ?_, ?_, rfl, Or.inl rfl, ?_, ?_, hrun⟩
    · constructor
      · intro _
        rcases hmiss with h | h | h | h
        · exact Or.inl h
        · exact Or.inr (Or.inl h)
        · exact Or.inr (Or.inr (Or.inl h))
        · exact Or.inr (Or.inr (Or.inr (Or.inl h)))
      · intro _; rfl
    · constructor
      · intro hb; cases hb
      · rintro ⟨f, g, v, e, hi, hm, hp, hk, _⟩
        exfalso
        rcases hno with h | h
        · simp [hi] at h
        · simp [readJson, hm, hp, hk, Json.isNumber] at h
    · intro s2 h3 h4 h5
      rw [hdep s2 h3 h4 h5, hrun]
    · intro s2 kvs x h3 h4 h5 h6
      rw [hflag s2 kvs x h3 h4 h5 h6, hrun]

/-- On the stored generation that expires at 600400: no trigger at 600400, a trigger at
600401, whatever the flag; and a trigger on the empty directory. -/
theorem C14_witness_boundary_and_empty :
    (Consumer.shouldTouchImageCache docCodec ccfg0 (envAt 600400)
      (storedWorld (metaAt cfg0 400))).1 = .ok false ∧
    (Consumer.shouldTouchImageCache docCodec ccfg0 (envAt 600401)
      (storedWorld (metaAt cfg0 400))).1 = .ok true ∧
    (Consumer.shouldTouchImageCache docCodec ccfg0 (envAt 600400)
      (storedWorld servedMeta)).1 = .ok false ∧
    (Consumer.shouldTouchImageCache docCodec ccfg0 (envAt 600400) emptyWorld).1 = .ok true := by
  obtain ⟨b1, s1, h1, _, hb1, _⟩ := C14_consumer_staleness_prediction docCodec ccfg0
    (envAt 600400) (storedWorld (metaAt cfg0 400))
  obtain ⟨b2, s2, h2, hb2, _⟩ := C14_consumer_staleness_prediction docCodec ccfg0
    (envAt 600401) (storedWorld (metaAt cfg0 400))
  obtain ⟨b3, s3, h3, _, hb3, _⟩ := C14_consumer_staleness_prediction docCodec ccfg0
    (envAt 600400) (storedWorld servedMeta)
  obtain ⟨b4, s4, h4, hb4, _⟩ := C14_consumer_staleness_prediction docCodec ccfg0
    (envAt 600400) emptyWorld
  have e1 : b1 = false := hb1.mpr ⟨{ data := Doc.raw oldBytes, mtimeMs := 500 },
    { data := Doc.json (metaAt cfg0 400), mtimeMs := 500 }, metaAt cfg0 400, 600400,
    rfl, rfl, rfl, rfl, by decide⟩
  have e2 : b2 = true := hb2.mpr (Or.inr (Or.inr (Or.inr (Or.inr
    ⟨{ data := Doc.json (metaAt cfg0 400), mtimeMs := 500 }, metaAt cfg0 400, 600400,
      rfl, rfl, rfl, by decide⟩))))
  have e3 : b3 = false := hb3.mpr ⟨{ data := Doc.raw oldBytes, mtimeMs := 500 },
    { data := Doc.json servedMeta, mtimeMs := 500 }, servedMeta, 600400,
    rfl, rfl, rfl, rfl, by decide⟩
  have e4 : b4 = true := hb4.mpr (Or.inl rfl)
  subst e1 e2 e3 e4
  rw [h1, h2, h3, h4]
  exact ⟨rfl, rfl, rfl, rfl⟩

end ConsumerPrediction

section ConsumerPolling
variable {C : Type}

/-- The trigger never throws: every outcome of the request becomes a returned record. -/
theorem touchImageCache_run (ccfg : ConsumerConfig) (env : Env) (peers : Peers C)
    (s : World C) :
    Consumer.touchImageCache ccfg env peers s =
      (.ok (Consumer.touchOutcome (env.fetch s.fetches)),
        Consumer.suspend peers
          { s with
            fetches := s.fetches + 1,
            log := s.log ++ [Event.fetch ccfg.IMAGE_CACHE_URL] }) := by
  unfold Consumer.touchImageCache Consumer.fetchWithTimeout fetch
  simp only [Prog.tryCatch_run, Prog.bind_run]
  cases hf : env.fetch s.fetches with
  | rejected msg => simp [Consumer.touchOutcome]
  | response r => cases hok : r.ok <;> simp [hok, Consumer.touchOutcome]

theorem waited_log (peers : Peers C) (k : Nat) :
    ∀ s : World C, (Consumer.waited peers k s).log =
      s.log ++ List.replicate k (Event.sleep 100) := by
  induction k with
  | zero => intro s; simp [Consumer.waited]
  | succ k ih =>
    intro s
    rw [Consumer.waited, ih]
    simp [Consumer.sleep, Consumer.suspend, List.replicate_succ]

/-- The polling loop leaves at the first check that finds the artifact. -/
theorem pollLoop_found (ccfg : ConsumerConfig) (peers : Peers C) (n : Nat) :
    ∀ (k : Nat) (s : World C), k < n →
      (∀ j, j < k → (Consumer.waited peers j s).fs ccfg.imagePath = none) →
      ((Consumer.waited peers k s).fs ccfg.imagePath).isSome = true →
      Consumer.pollLoop ccfg peers n s = (.ok (some true), Consumer.waited peers k s) := by
  induction n with
  | zero => intro k s hk; omega
  | succ n ih =>
    intro k s hk habs hpres
    cases k with
    | zero =>
      simp only [Consumer.waited] at hpres
      simp [Consumer.pollLoop, fileExists_run, hpres, Consumer.waited]
    | succ k =>
      have h0 := habs 0 (Nat.succ_pos k)
      simp only [Consumer.waited] at h0
      have key := ih k (Consumer.sleep peers 100 s).2 (by omega)
        (fun j hj => habs (j + 1) (by omega)) hpres
      simp only [Consumer.pollLoop, Prog.bind_run, fileExists_run, h0, Option.isSome_none,
        Bool.false_eq_true, if_false]
      exact key

/-- The polling loop falls through after as many sleeps as it has iterations when no
check finds the artifact. -/
theorem pollLoop_exhausted (ccfg : ConsumerConfig) (peers : Peers C) (n : Nat) :
    ∀ s : World C,
      (∀ j, j < n → (Consumer.waited peers j s).fs ccfg.imagePath = none) →
      Consumer.pollLoop ccfg peers n s = (.ok none, Consumer.waited peers n s) := by
  induction n with
  | zero => intro s _; rfl
  | succ n ih =>
    intro s habs
    have h0 := habs 0 (Nat.succ_pos n)
    simp only [Consumer.waited] at h0
    have key := ih (Consumer.sleep peers 100 s).2 (fun j hj => habs (j + 1) (by omega))
    simp only [Consumer.pollLoop, Prog.bind_run, fileExists_run, h0, Option.isSome_none,
      Bool.false_eq_true, if_false]
    exact key

theorem pollLoop12_found (ccfg : ConsumerConfig) (peers : Peers C) (nt : Bool)
    (tr : Option TouchResult) (n : Nat) :
    ∀ (k : Nat) (s : World C), k < n →
      (∀ j, j < k → (Consumer.waited peers j s).fs ccfg.imagePath = none) →
      ((Consumer.waited peers k s).fs ccfg.imagePath).isSome = true →
      Consumer12.pollLoop ccfg peers nt tr n s =
        (.ok (some { ok := true, touched := nt, touchResult := tr }),
          Consumer.waited peers k s) := by
  induction n with
  | zero => intro k s hk; omega
  | succ n ih =>
    intro k s hk habs hpres
    cases k with
    | zero =>
      simp only [Consumer.waited] at hpres
      simp [Consumer12.pollLoop, fileExists_run, hpres, Consumer.waited]
    | succ k =>
      have h0 := habs 0 (Nat.succ_pos k)
      simp only [Consumer.waited] at h0
      have key := ih k (Consumer.sleep peers 100 s).2 (by omega)
        (fun j hj => habs (j + 1) (by omega)) hpres
      simp only [Consumer12.pollLoop, Prog.bind_run, fileExists_run, h0, Option.isSome_none,
        Bool.false_eq_true, if_false]
      exact key

theorem pollLoop12_exhausted (ccfg : ConsumerConfig) (peers : Peers C) (nt : Bool)
    (tr : Option TouchResult) (n : Nat) :
    ∀ s : World C,
      (∀ j, j < n → (Consumer.waited peers j s).fs ccfg.imagePath = none) →
      Consumer12.pollLoop ccfg peers nt tr n s = (.ok none, Consumer.waited peers n s) := by
  induction n with
  | zero => intro s _; rfl
  | succ n ih =>
    intro s habs
    have h0 := habs 0 (Nat.succ_pos n)
    simp only [Consumer.waited] at h0
    have key := ih (Consumer.sleep peers 100 s).2 (fun j hj => habs (j + 1) (by omega))
    simp only [Consumer12.pollLoop, Prog.bind_run, fileExists_run, h0, Option.isSome_none,
      Bool.false_eq_true, if_false]
    exact key

/-- The function `ensureImageReady` is the polling started in the triggered world. -/
theorem ensureImageReady_eq (J : JsonCodec C) (ccfg : ConsumerConfig) (env : Env)
    (peers : Peers C) (s : World C) :
    Consumer.ensureImageReady J ccfg env peers s =
      match Consumer.pollLoop ccfg peers 80 (Consumer.triggered J ccfg env peers s) with
      | (.ok (some b), s2) => (.ok b, s2)
      | (.ok none, s2) => (.ok (s2.fs ccfg.imagePath).isSome, s2)
      | (.error e, s2) => (.error e, s2) := by
  unfold Consumer.ensureImageReady Consumer.triggered
  simp only [Prog.bind_run]
  rw [shouldTouchImageCache_run]
  by_cases hP : (s.fs ccfg.imagePath).isSome = true ∧
      Json.isNumber ((readJson J s.fs ccfg.metaPath).getProp "expiresAtMs") = true
  · rw [if_pos hP]
    cases hb : decide (env.clock s.clockReads >
        Json.numberOf ((readJson J s.fs ccfg.metaPath).getProp "expiresAtMs"))
    · simp only [Bool.false_eq_true, if_false, Prog.pure_run, Prog.bind_run]
      generalize Consumer.pollLoop ccfg peers 80
        { s with
          clockReads := s.clockReads + 1,
          log := s.log ++ [Event.now (env.clock s.clockReads)] } = out
      rcases out with ⟨(e | (_ | b)), s2⟩ <;> simp [fileExists_run]
    · simp only [if_true, Prog.bind_run, touchImageCache_run, Prog.pure_run]
      generalize Consumer.pollLoop ccfg peers 80
        (Consumer.suspend peers
          { s with
            clockReads := s.clockReads + 1,
            fetches := s.fetches + 1,
            log := s.log ++ [Event.now (env.clock s.clockReads)] ++
              [Event.fetch ccfg.IMAGE_CACHE_URL] }) = out
      rcases out with ⟨(e | (_ | b)), s2⟩ <;> simp [fileExists_run]
  · rw [if_neg hP]
    simp only [if_true, Prog.bind_run, touchImageCache_run, Prog.pure_run]
    generalize Consumer.pollLoop ccfg peers 80
      (Consumer.suspend peers
        { s with
          fetches := s.fetches + 1,
          log := s.log ++ [Event.fetch ccfg.IMAGE_CACHE_URL] }) = out
    rcases out with ⟨(e | (_ | b)), s2⟩ <;> simp [fileExists_run]

/-- Version 1.12 polls from the same world and reports in a record. -/
theorem ensureImageReady12_eq (J : JsonCodec C) (ccfg : ConsumerConfig) (env : Env)
    (peers : Peers C) (s : World C) :
    ∃ nt tr, Consumer12.ensureImageReady J ccfg env peers s =
      match Consumer12.pollLoop ccfg peers nt tr 80
          (Consumer.triggered J ccfg env peers s) with
      | (.ok (some r), s2) => (.ok r, s2)
      | (.ok none, s2) =>
        (.ok { ok := (s2.fs ccfg.imagePath).isSome, touched := nt, touchResult := tr }, s2)
      | (.error e, s2) => (.error e, s2) := by
  unfold Consumer12.ensureImageReady Consumer.triggered
  simp only [Prog.bind_run]
  rw [shouldTouchImageCache_versions, shouldTouchImageCache_run]
  by_cases hP : (s.fs ccfg.imagePath).isSome = true ∧
      Json.isNumber ((readJson J s.fs ccfg.metaPath).getProp "expiresAtMs") = true
  · rw [if_pos hP]
    cases hb : decide (env.clock s.clockReads >
        Json.numberOf ((readJson J s.fs ccfg.metaPath).getProp "expiresAtMs"))
    · refine ⟨false, none, ?_⟩
      simp only [Bool.false_eq_true, if_false, Prog.pure_run, Prog.bind_run]
      generalize Consumer12.pollLoop ccfg peers false none 80
        { s with
          clockReads := s.clockReads + 1,
          log := s.log ++ [Event.now (env.clock s.clockReads)] } = out
      rcases out with ⟨(e | (_ | b)), s2⟩
      · simp
      · cases h : (s2.fs ccfg.imagePath).isSome <;> simp [fileExists_run, h]
      · simp
    · refine ⟨true, some (Consumer.touchOutcome (env.fetch s.fetches)), ?_⟩
      simp only [if_true, Prog.bind_run, touchImageCache_run, Prog.pure_run]
      generalize Consumer12.pollLoop ccfg peers true _ 80
        (Consumer.suspend peers
          { s with
            clockReads := s.clockReads + 1,
            fetches := s.fetches + 1,
            log := s.log ++ [Event.now (env.clock s.clockReads)] ++
              [Event.fetch ccfg.IMAGE_CACHE_URL] }) = out
      rcases out with ⟨(e | (_ | b)), s2⟩
      · simp
      · cases h : (s2.fs ccfg.imagePath).isSome <;> simp [fileExists_run, h]
      · simp
  · rw [if_neg hP]
    refine ⟨true, some (Consumer.touchOutcome (env.fetch s.fetches)), ?_⟩
    simp only [if_true, Prog.bind_run, touchImageCache_run, Prog.pure_run]
    generalize Consumer12.pollLoop ccfg peers true _ 80
      (Consumer.suspend peers
        { s with
          fetches := s.fetches + 1,
          log := s.log ++ [Event.fetch ccfg.IMAGE_CACHE_URL] }) = out
    rcases out with ⟨(e | (_ | b)), s2⟩
    · simp
    · cases h : (s2.fs ccfg.imagePath).isSome <;> simp [fileExists_run, h]
    · simp

/-- The world in which the polling starts does not depend on how the trigger ends. -/
theorem triggered_any_outcome (J : JsonCodec C) (ccfg : ConsumerConfig) (env : Env)
    (peers : Peers C) (s : World C) (outcomes : Nat → FetchResult) :
    Consumer.triggered J ccfg { env with fetch := outcomes } peers s =
      Consumer.triggered J ccfg env peers s := by
  unfold Consumer.triggered
  rw [shouldTouchImageCache_run, shouldTouchImageCache_run]

/-- An absent file, said with `isSome`. -/
theorem isSome_ne_true {α : Type} (o : Option α) (h : ¬ o.isSome = true) : o = none := by
  cases o with
  | none => rfl
  | some a => simp at h

/-- The reading of version 1.13 for a first successful check `k`. -/
theorem ensureImageReady_found (J : JsonCodec C) (ccfg : ConsumerConfig) (env : Env)
    (peers : Peers C) (s : World C) (k : Nat) (hk : k ≤ 80)
    (habs : ∀ j, j < k → (Consumer.waited peers j
      (Consumer.triggered J ccfg env peers s)).fs ccfg.imagePath = none)
    (hpres : ((Consumer.waited peers k
      (Consumer.triggered J ccfg env peers s)).fs ccfg.imagePath).isSome = true) :
    Consumer.ensureImageReady J ccfg env peers s =
      (.ok true, Consumer.waited peers k (Consumer.triggered J ccfg env peers s)) := by
  rw [ensureImageReady_eq]
  rcases Nat.lt_or_ge k 80 with hlt | hge
  · rw [pollLoop_found ccfg peers 80 k _ hlt habs hpres]
  · have hk80 : k = 80 := by omega
    subst hk80
    rw [pollLoop_exhausted ccfg peers 80 _ habs]
    simp only [hpres]

theorem ensureImageReady_exhausted (J : JsonCodec C) (ccfg : ConsumerConfig) (env : Env)
    (peers : Peers C) (s : World C)
    (habs : ∀ k, k ≤ 80 → (Consumer.waited peers k
      (Consumer.triggered J ccfg env peers s)).fs ccfg.imagePath = none) :
    Consumer.ensureImageReady J ccfg env peers s =
      (.ok false, Consumer.waited peers 80 (Consumer.triggered J ccfg env peers s)) := by
  rw [ensureImageReady_eq, pollLoop_exhausted ccfg peers 80 _ (fun j hj => habs j (by omega))]
  simp only [habs 80 (Nat.le_refl 80), Option.isSome_none]

theorem ensureImageReady12_found (J : JsonCodec C) (ccfg : ConsumerConfig) (env : Env)
    (peers : Peers C) (s : World C) (k : Nat) (hk : k ≤ 80)
    (habs : ∀ j, j < k → (Consumer.waited peers j
      (Consumer.triggered J ccfg env peers s)).fs ccfg.imagePath = none)
    (hpres : ((Consumer.waited peers k
      (Consumer.triggered J ccfg env peers s)).fs ccfg.imagePath).isSome = true) :
    ∃ nt tr, Consumer12.ensureImageReady J ccfg env peers s =
      (.ok { ok := true, touched := nt, touchResult := tr },
        Consumer.waited peers k (Consumer.triggered J ccfg env peers s)) := by
  obtain ⟨nt, tr, h⟩ := ensureImageReady12_eq J ccfg env peers s
  refine ⟨nt, tr, ?_⟩
  rw [h]
  rcases Nat.lt_or_ge k 80 with hlt | hge
  · rw [pollLoop12_found ccfg peers nt tr 80 k _ hlt habs hpres]
  · have hk80 : k = 80 := by omega
    subst hk80
    rw [pollLoop12_exhausted ccfg peers nt tr 80 _ habs]
    simp only [hpres]

theorem ensureImageReady12_exhausted (J : JsonCodec C) (ccfg : ConsumerConfig) (env : Env)
    (peers : Peers C) (s : World C)
    (habs : ∀ k, k ≤ 80 → (Consumer.waited peers k
      (Consumer.triggered J ccfg env peers s)).fs ccfg.imagePath = none) :
    ∃ nt tr, Consumer12.ensureImageReady J ccfg env peers s =
      (.ok { ok := false, touched := nt, touchResult := tr },
        Consumer.waited peers 80 (Consumer.triggered J ccfg env peers s)) := by
  obtain ⟨nt, tr, h⟩ := ensureImageReady12_eq J ccfg env peers s
  refine ⟨nt, tr, ?_⟩
  rw [h, pollLoop12_exhausted ccfg peers nt tr 80 _ (fun j hj => habs j (by omega))]
  simp only [habs 80 (Nat.le_refl 80), Option.isSome_none]

/-- Among the checks that find the artifact there is a first one. -/
theorem first_check (p : Nat → Prop) (h : ∃ k, k ≤ 80 ∧ p k) :
    ∃ k, k ≤ 80 ∧ p k ∧ ∀ j, j < k → ¬ p j := by
  classical
  refine ⟨Nat.find h, (Nat.find_spec h).1, (Nat.find_spec h).2, ?_⟩
  intro j hj hp
  exact Nat.find_min h hj ⟨by have := (Nat.find_spec h).1; omega, hp⟩

/-- Without other processes the files stay as they are while the consumer waits. -/
theorem waited_alone_fs (k : Nat) : ∀ s : World Doc, (Consumer.waited alone k s).fs = s.fs := by
  induction k with
  | zero => intro s; rfl
  | succ k ih => intro s; rw [Consumer.waited, ih]; rfl

/-- C15: `ensureImageReady` always returns and never throws, whatever the outcome of the
trigger (not needed, success, another status, a rejection on timeout or network error):
the world in which the polling starts is the same for every outcome. From there it checks
the artifact after 0, 1, ..., 80 sleeps of 100 ms at most. It returns ready (`true` in
version 1.13, `ok: true` in version 1.12) at the first of these checks that finds the
artifact, having slept once per failed check before it, and not ready (`false`,
`ok: false`) after 80 sleeps when none of the 81 checks finds it; so it reports ready
exactly when one of these checks found the artifact. -/
theorem C15_bounded_polling (J : JsonCodec C) (ccfg : ConsumerConfig) (env : Env)
    (peers : Peers C) (s : World C) :
    (∀ k, k ≤ 80 →
      (∀ j, j < k → (Consumer.waited peers j
        (Consumer.triggered J ccfg env peers s)).fs ccfg.imagePath = none) →
      ((Consumer.waited peers k
        (Consumer.triggered J ccfg env peers s)).fs ccfg.imagePath).isSome = true →
      Consumer.ensureImageReady J ccfg env peers s =
        (.ok true, Consumer.waited peers k (Consumer.triggered J ccfg env peers s)) ∧
      ∃ nt tr, Consumer12.ensureImageReady J ccfg env peers s =
        (.ok { ok := true, touched := nt, touchResult := tr },
          Consumer.waited peers k (Consumer.triggered J ccfg env peers s))) ∧
    ((∀ k, k ≤ 80 → (Consumer.waited peers k
        (Consumer.triggered J ccfg env peers s)).fs ccfg.imagePath = none) →
      Consumer.ensureImageReady J ccfg env peers s =
        (.ok false, Consumer.waited peers 80 (Consumer.triggered J ccfg env peers s)) ∧
      ∃ nt tr, Consumer12.ensureImageReady J ccfg env peers s =
        (.ok { ok := false, touched := nt, touchResult := tr },
          Consumer.waited peers 80 (Consumer.triggered J ccfg env peers s))) ∧
    (∀ k, (Consumer.waited peers k (Consumer.triggered J ccfg env peers s)).log =
      (Consumer.triggered J ccfg env peers s).log ++ List.replicate k (Event.sleep 100)) ∧
    (∃ b, (Consumer.ensureImageReady J ccfg env peers s).1 = .ok b ∧
      (b = true ↔ ∃ k, k ≤ 80 ∧ ((Consumer.waited peers k
        (Consumer.triggered J ccfg env peers s)).fs ccfg.imagePath).isSome = true)) ∧
    (∃ r, (Consumer12.ensureImageReady J ccfg env peers s).1 = .ok r ∧
      (r.ok = true ↔ ∃ k, k ≤ 80 ∧ ((Consumer.waited peers k
        (Consumer.triggered J ccfg env peers s)).fs ccfg.imagePath).isSome = true)) ∧
    (∀ outcomes : Nat → FetchResult,
      Consumer.triggered J ccfg { env with fetch := outcomes } peers s =
        Consumer.triggered J ccfg env peers s ∧
      Consumer.ensureImageReady J ccfg { env with fetch := outcomes } peers s =
        Consumer.ensureImageReady J ccfg env peers s) := by
  refine ⟨?_, ?_, ?_, ?_, ?_, ?_⟩
  · intro k hk habs hpres
    exact ⟨ensureImageReady_found J ccfg env peers s k hk habs hpres,
      ensureImageReady12_found J ccfg env peers s k hk habs hpres⟩
  · intro habs
    exact ⟨ensureImageReady_exhausted J ccfg env peers s habs,
      ensureImageReady12_exhausted J ccfg env peers s habs⟩
  · intro k
    exact waited_log peers k _
  · by_cases h : ∃ k, k ≤ 80 ∧ ((Consumer.waited peers k
        (Consumer.triggered J ccfg env peers s)).fs ccfg.imagePath).isSome = true
    · obtain ⟨k, hk, hpres, hmin⟩ := first_check _ h
      refine ⟨true, ?_, ⟨fun _ => h, fun _ => rfl⟩⟩
      rw [ensureImageReady_found J ccfg env peers s k hk
        (fun j hj => isSome_ne_true _ (hmin j hj)) hpres]
    · refine ⟨false, ?_, ⟨fun hb => (by cases hb), fun hk => absurd hk h⟩⟩
      rw [ensureImageReady_exhausted J ccfg env peers s
        (fun k hk => isSome_ne_true _ (fun hp => h ⟨k, hk, hp⟩))]
  · by_cases h : ∃ k, k ≤ 80 ∧ ((Consumer.waited peers k
        (Consumer.triggered J ccfg env peers s)).fs ccfg.imagePath).isSome = true
    · obtain ⟨k, hk, hpres, hmin⟩ := first_check _ h
      obtain ⟨nt, tr, h12⟩ := ensureImageReady12_found J ccfg env peers s k hk
        (fun j hj => isSome_ne_true _ (hmin j hj)) hpres
      refine ⟨_, by rw [h12], ⟨fun _ => h, fun _ => rfl⟩⟩
    · obtain ⟨nt, tr, h12⟩ := ensureImageReady12_exhausted J ccfg env peers s
        (fun k hk => isSome_ne_true _ (fun hp => h ⟨k, hk, hp⟩))
      refine ⟨_, by rw [h12], ⟨fun hb => (by cases hb), fun hk => absurd hk h⟩⟩
  · intro outcomes
    have ht := triggered_any_outcome J ccfg env peers s outcomes
    refine ⟨ht, ?_⟩
    rw [ensureImageReady_eq, ensureImageReady_eq, ht]

/-- On the empty directory: when another process publishes the artifact during the second
sleep the consumer reports ready at the third check, and when no process does it reports
not ready after 80 sleeps. -/
theorem C15_witness_late_and_never :
    (Consumer.ensureImageReady docCodec ccfg0 env0 lateOwner emptyWorld).1 = .ok true ∧
    ((Consumer.ensureImageReady docCodec ccfg0 env0 lateOwner emptyWorld).2.log =
      [Event.fetch ccfg0.IMAGE_CACHE_URL, Event.sleep 100, Event.sleep 100]) ∧
    (Consumer.ensureImageReady docCodec ccfg0 env0 alone emptyWorld).1 = .ok false ∧
    ((Consumer.ensureImageReady docCodec ccfg0 env0 alone emptyWorld).2.log =
      Event.fetch ccfg0.IMAGE_CACHE_URL :: List.replicate 80 (Event.sleep 100)) := by
  have h1 := C15_bounded_polling docCodec ccfg0 env0 lateOwner emptyWorld
  have h2 := C15_bounded_polling docCodec ccfg0 env0 alone emptyWorld
  have htrig : ∀ peers : Peers Doc, (Consumer.triggered docCodec ccfg0 env0 peers emptyWorld) =
      Consumer.suspend peers { emptyWorld with
        fetches := 1, log := [Event.fetch ccfg0.IMAGE_CACHE_URL] } := by
    intro peers
    unfold Consumer.triggered
    rw [shouldTouchImageCache_run]
    rfl
  have ha := (h1.1 2 (by decide)
    (fun j hj => by
      rw [htrig]
      interval_cases j <;> rfl)
    (by rw [htrig]; rfl)).1
  have hb := (h2.2.1 (fun k _ => by rw [waited_alone_fs, htrig]; rfl)).1
  rw [ha, hb]
  refine ⟨rfl, ?_, rfl, ?_⟩
  · rw [h1.2.2.1 2, htrig]
    rfl
  · rw [h2.2.2.1 80, htrig]
    rfl

end ConsumerPolling

section ActionErrors
variable {C : Type} {α : Type}

/-- The first iteration of `withLock` on a free marker when the action throws an error
with code `EEXIST`: the `catch` of the loop takes it for a failed `open`; it throws the
timeout when the ceiling is exceeded and otherwise sleeps and goes round again. -/
theorem withLock_action_eexist (J : JsonCodec C) (cfg : Config) (env : Env) (fn : Prog C α)
    (fuel : Nat) (s : World C) (e : JsError) (s1 : World C)
    (hlock : s.fs cfg.lockPath = none)
    (hthrow : fn (acquired J cfg env s) = (.error e, s1))
    (hcode : e.code = some "EEXIST") :
    withLock J cfg env (fuel + 1) fn s =
      if env.clock s1.clockReads - env.clock s.clockReads > 15000 then
        some (.error lockTimeout, { released cfg s1 with
          clockReads := s1.clockReads + 1,
          log := (released cfg s1).log ++ [Event.now (env.clock s1.clockReads)] })
      else
        withLockLoop J cfg env fn (env.clock s.clockReads) fuel { released cfg s1 with
          clockReads := s1.clockReads + 1,
          log := (released cfg s1).log ++
            [Event.now (env.clock s1.clockReads), Event.sleep 150] } := by
  have hacq : fsp.openWx J env cfg.lockPath (nowMs env s).2 =
      (.ok (), acquired J cfg env s) := by
    simp [acquired, nowMs, fsp.openWx, hlock]
  have hbreak : breakStaleLockIfNeeded cfg env (nowMs env s).2 = (.ok (), (nowMs env s).2) := by
    simp [breakStaleLockIfNeeded, statOrNull_run, nowMs, hlock]
  simp only [nowMs] at hacq hbreak
  unfold withLock
  simp only [nowMs, withLockLoop, withLockIter, Prog.bind_run, Prog.tryCatch_run, lockedRun,
    Prog.finallyDo, hbreak, hacq, hthrow]
  by_cases ht : env.clock s1.clockReads - env.clock s.clockReads > 15000
  · simp [released, unlinkQuiet_run, hcode, ht, nowMs]
  · simp [released, unlinkQuiet_run, hcode, ht, sleep, nowMs]

/-- An iteration of the lock loop on a free marker whose action returns. -/
theorem withLockLoop_free_ok (J : JsonCodec C) (cfg : Config) (env : Env) (fn : Prog C α)
    (start : Int) (fuel : Nat) (s : World C) (v : α) (s3 : World C)
    (hlock : s.fs cfg.lockPath = none)
    (hrun : fn (fsp.openWx J env cfg.lockPath s).2 = (.ok v, s3)) :
    withLockLoop J cfg env fn start (fuel + 1) s = some (.ok v, released cfg s3) := by
  have hacq : fsp.openWx J env cfg.lockPath s =
      (.ok (), (fsp.openWx J env cfg.lockPath s).2) := by
    simp [fsp.openWx, hlock]
  have hbreak : breakStaleLockIfNeeded cfg env s = (.ok (), s) := by
    simp [breakStaleLockIfNeeded, statOrNull_run, hlock]
  simp only [withLockLoop, withLockIter, Prog.bind_run, Prog.tryCatch_run, lockedRun,
    Prog.finallyDo, hbreak]
  rw [hacq]
  simp [hrun, released]

/-- C17, on the code: when the action throws an error `e` with code `EEXIST` on a marker
that was free, `withLock` does not fail with `e`. It removes the marker and handles `e`
as a failed `open`: past the ceiling it throws the lock timeout, which is not `e`;
otherwise it sleeps 150 ms and goes round the loop again, where it acquires the marker
and runs the action a second time, and when that run returns `v` the call returns `v`. -/
theorem C17_action_eexist_taken_for_contention (J : JsonCodec C) (cfg : Config) (env : Env)
    (fn : Prog C α) (fuel : Nat) (s : World C) (e : JsError) (s1 : World C)
    (hlock : s.fs cfg.lockPath = none)
    (hthrow : fn (acquired J cfg env s) = (.error e, s1))
    (hcode : e.code = some "EEXIST") :
    lockTimeout ≠ e ∧
    (15000 < env.clock s1.clockReads - env.clock s.clockReads →
      withLock J cfg env (fuel + 1) fn s =
        some (.error lockTimeout, { released cfg s1 with
          clockReads := s1.clockReads + 1,
          log := s1.log ++ [Event.unlink cfg.lockPath, Event.now (env.clock s1.clockReads)] })) ∧
    (env.clock s1.clockReads - env.clock s.clockReads ≤ 15000 →
      withLock J cfg env (fuel + 1) fn s =
        withLockLoop J cfg env fn (env.clock s.clockReads) fuel { released cfg s1 with
          clockReads := s1.clockReads + 1,
          log := s1.log ++ [Event.unlink cfg.lockPath, Event.now (env.clock s1.clockReads),
            Event.sleep 150] } ∧
      ∀ v s3, fn (fsp.openWx J env cfg.lockPath { released cfg s1 with
          clockReads := s1.clockReads + 1,
          log := s1.log ++ [Event.unlink cfg.lockPath, Event.now (env.clock s1.clockReads),
            Event.sleep 150] }).2 = (.ok v, s3) →
        withLock J cfg env (fuel + 2) fn s = some (.ok v, released cfg s3)) := by
  have hlog : (released cfg s1).log = s1.log ++ [Event.unlink cfg.lockPath] := by
    simp [released, unlinkQuiet_run]
  have hstep := withLock_action_eexist J cfg env fn
  refine ⟨?_, ?_, ?_⟩
  · intro h
    rw [← h] at hcode
    simp [lockTimeout, JsError.new] at hcode
  · intro ht
    rw [hstep fuel s e s1 hlock hthrow hcode, if_pos ht, hlog]
    simp
  · intro ht
    have h1 : withLock J cfg env (fuel + 1) fn s =
        withLockLoop J cfg env fn (env.clock s.clockReads) fuel { released cfg s1 with
          clockReads := s1.clockReads + 1,
          log := s1.log ++ [Event.unlink cfg.lockPath, Event.now (env.clock s1.clockReads),
            Event.sleep 150] } := by
      rw [hstep fuel s e s1 hlock hthrow hcode, if_neg (not_lt.mpr ht), hlog]
      simp
    refine ⟨h1, ?_⟩
    intro v s3 hrun
    have h2 : withLock J cfg env (fuel + 1 + 1) fn s =
        withLockLoop J cfg env fn (env.clock s.clockReads) (fuel + 1) { released cfg s1 with
          clockReads := s1.clockReads + 1,
          log := s1.log ++ [Event.unlink cfg.lockPath, Event.now (env.clock s1.clockReads),
            Event.sleep 150] } := by
      rw [hstep (fuel + 1) s e s1 hlock hthrow hcode, if_neg (not_lt.mpr ht), hlog]
      simp
    rw [h2]
    exact withLockLoop_free_ok J cfg env fn _ fuel _ v s3
      (by simp [released, unlinkQuiet_run]) hrun

/-- An action that throws `EEXIST` on its first run and returns 200 on its second:
`withLock` runs it twice, with a sleep between, and returns 200. -/
theorem C17_witness_action_run_twice :
    ∃ s', withLock docCodec cfg0 envRetry 2 (clashingAction envRetry) emptyWorld =
        some (.ok 200, s') ∧
      s'.log = [Event.now 1000, Event.openWx cfg0.lockPath, Event.fetch "http://upstream.test/",
        Event.unlink cfg0.lockPath, Event.now 5000, Event.sleep 150,
        Event.openWx cfg0.lockPath, Event.fetch "http://upstream.test/",
        Event.unlink cfg0.lockPath] := by
  have h := (C17_action_eexist_taken_for_contention docCodec cfg0 envRetry
    (clashingAction envRetry) 0 emptyWorld eexistError
    (clashingAction envRetry (acquired docCodec cfg0 envRetry emptyWorld)).2
    rfl rfl rfl).2.2 (by decide)
  refine ⟨_, h.2 200 _ rfl, ?_⟩
  simp [released, unlinkQuiet_run]
  rfl

end ActionErrors

section Branches
variable {C : Type}

/-- The callback of `ensureImage` runs the body of the branch that the partition selects
for the artifact's existence, the parsed metadata and the time read. -/
theorem ensureImageLocked_branch (J : JsonCodec C) (cfg : Config) (env : Env) (s : World C) :
    ensureImageLocked J cfg env s =
      match selectBranch (s.fs cfg.imagePath).isSome (readJson J s.fs cfg.metaPath)
          (env.clock s.clockReads) with
      | Branch.downloadInitial =>
        (do
          downloadImageTo J cfg env cfg.imagePath
          let m ← newMeta cfg env
          writeMeta J cfg env m
          pure { action := "downloaded-initial", meta := m } : Prog C Result) s
      | Branch.keptValid =>
        (.ok { action := "kept-valid", meta := readJson J s.fs cfg.metaPath },
          { s with
            clockReads := s.clockReads + 1,
            log := s.log ++ [Event.now (env.clock s.clockReads)] })
      | Branch.expiredServedOldOnce =>
        (do
          writeMeta J cfg env
            ((readJson J s.fs cfg.metaPath).spreadSet "afterExpiryServedOnce" (Json.bool true))
          pure { action := "expired-served-old-once",
                 meta := (readJson J s.fs cfg.metaPath).spreadSet "afterExpiryServedOnce"
                   (Json.bool true) } : Prog C Result)
          { s with
            clockReads := s.clockReads + 1,
            log := s.log ++ [Event.now (env.clock s.clockReads)] }
      | Branch.downloadAfterExpiry =>
        (do
          downloadImageTo J cfg env cfg.imagePath
          let m ← newMeta cfg env
          writeMeta J cfg env m
          pure { action := "downloaded-after-expiry", meta := m } : Prog C Result)
          { s with
            clockReads := s.clockReads + 1,
            log := s.log ++ [Event.now (env.clock s.clockReads)] } := by
  unfold ensureImageLocked
  simp only [Prog.bind_run, fileExists_run, safeReadJson_run]
  cases hi : (s.fs cfg.imagePath).isSome with
  | false => simp [selectBranch]
  | true =>
    cases hk : (readJson J s.fs cfg.metaPath).getProp "expiresAtMs" with
    | none => simp [selectBranch, Json.isNumber, hk]
    | some x =>
      cases x with
      | num e =>
        have ht : (readJson J s.fs cfg.metaPath).truthy = true :=
          truthy_of_isNumber _ "expiresAtMs" (by rw [hk]; rfl)
        by_cases hnow : env.clock s.clockReads ≤ e
        · simp [selectBranch, Json.isNumber, ht, nowMs, Json.numberOf, hnow, hk]
        · cases hf : (readJson J s.fs cfg.metaPath).getProp "afterExpiryServedOnce" with
          | none =>
            simp [selectBranch, Json.isNumber, ht, nowMs, Json.numberOf, hnow, Json.isTrue, hk, hf]
          | some y =>
            cases y with
            | bool b =>
              cases b <;>
                simp [selectBranch, Json.isNumber, ht, nowMs, Json.numberOf, hnow, Json.isTrue,
                  hk, hf]
            | _ =>
              simp [selectBranch, Json.isNumber, ht, nowMs, Json.numberOf, hnow, Json.isTrue,
                hk, hf]
      | _ => simp [selectBranch, Json.isNumber, hk]

/-- A returned action tag is the tag of the selected branch. -/
theorem ensureImageLocked_tag (J : JsonCodec C) (cfg : Config) (env : Env) (s : World C)
    (r : Result) (s2 : World C) (h : ensureImageLocked J cfg env s = (.ok r, s2)) :
    r.action = (selectBranch (s.fs cfg.imagePath).isSome (readJson J s.fs cfg.metaPath)
      (env.clock s.clockReads)).tag := by
  rw [ensureImageLocked_branch] at h
  cases hb : selectBranch (s.fs cfg.imagePath).isSome (readJson J s.fs cfg.metaPath)
      (env.clock s.clockReads) with
  | downloadInitial =>
    rw [hb] at h
    simp only at h
    rcases publish_cases J cfg env "downloaded-initial" s _ rfl with ⟨_, e, h1⟩ | h1
    · rw [h] at h1; cases h1
    · obtain ⟨_, _, _, _, h2, _⟩ := h1
      rw [h] at h2
      simp only [Except.ok.injEq] at h2
      rw [h2]; rfl
  | keptValid =>
    rw [hb] at h
    simp only [Prod.mk.injEq, Except.ok.injEq] at h
    rw [← h.1]; rfl
  | expiredServedOldOnce =>
    rw [hb] at h
    simp only [Prog.bind_run, Prog.pure_run] at h
    cases hw : writeMeta J cfg env
        ((readJson J s.fs cfg.metaPath).spreadSet "afterExpiryServedOnce" (Json.bool true))
        { s with
          clockReads := s.clockReads + 1,
          log := s.log ++ [Event.now (env.clock s.clockReads)] } with
    | mk r1 s3 =>
      rw [hw] at h
      cases r1 with
      | ok _ =>
        simp only [Prod.mk.injEq, Except.ok.injEq] at h
        rw [← h.1]; rfl
      | error e => simp at h
  | downloadAfterExpiry =>
    rw [hb] at h
    simp only at h
    rcases publish_cases J cfg env "downloaded-after-expiry"
      { s with
        clockReads := s.clockReads + 1,
        log := s.log ++ [Event.now (env.clock s.clockReads)] } _ rfl with ⟨_, e, h1⟩ | h1
    · rw [h] at h1; cases h1
    · obtain ⟨_, _, _, _, h2, _⟩ := h1
      rw [h] at h2
      simp only [Except.ok.injEq] at h2
      rw [h2]; rfl

/-- The four tags are pairwise different. -/
theorem tag_injective (a b : Branch) (h : a.tag = b.tag) : a = b := by
  cases a <;> cases b <;> first | rfl | (revert h; decide)

/-- The conditions under which each branch is selected. -/
theorem selectBranch_iff (hasImage : Bool) (meta : Json) (now : Int) :
    (selectBranch hasImage meta now = Branch.downloadInitial ↔
      hasImage = false ∨ Json.isNumber (meta.getProp "expiresAtMs") = false) ∧
    (selectBranch hasImage meta now = Branch.keptValid ↔
      hasImage = true ∧ ∃ e, meta.getProp "expiresAtMs" = some (Json.num e) ∧ now ≤ e) ∧
    (selectBranch hasImage meta now = Branch.expiredServedOldOnce ↔
      hasImage = true ∧ ∃ e, meta.getProp "expiresAtMs" = some (Json.num e) ∧ e < now ∧
        meta.getProp "afterExpiryServedOnce" ≠ some (Json.bool true)) ∧
    (selectBranch hasImage meta now = Branch.downloadAfterExpiry ↔
      hasImage = true ∧ ∃ e, meta.getProp "expiresAtMs" = some (Json.num e) ∧ e < now ∧
        meta.getProp "afterExpiryServedOnce" = some (Json.bool true)) := by
  cases hasImage with
  | false => simp [selectBranch]
  | true =>
    cases hk : meta.getProp "expiresAtMs" with
    | none => simp [selectBranch, hk, Json.isNumber]
    | some x =>
      cases x with
      | num e =>
        by_cases hnow : now ≤ e
        · simp [selectBranch, hk, Json.isNumber, hnow, not_lt.mpr hnow]
        · have hlt : e < now := not_le.mp hnow
          cases hf : meta.getProp "afterExpiryServedOnce" with
          | none => simp [selectBranch, hk, Json.isNumber, hnow, hlt, hf]
          | some y =>
            cases y with
            | bool b => cases b <;> simp [selectBranch, hk, Json.isNumber, hnow, hlt, hf]
            | _ => simp [selectBranch, hk, Json.isNumber, hnow, hlt, hf]
      | _ => simp [selectBranch, hk, Json.isNumber]

/-- C18: on the same data directory, the same files and the same clock reading, the
consumer's `shouldTouchImageCache` returns `false` exactly when the owner's refresh policy
takes the `kept-valid` branch and returns that tag, and `true` exactly when the policy
selects one of the other three branches (initial download, grace step, forced refresh);
so the consumer never skips a trigger on which the owner would have acted. -/
theorem C18_consumer_agrees_with_owner (J : JsonCodec C) (cfg : Config)
    (ccfg : ConsumerConfig) (env : Env) (s : World C) (hdir : ccfg.DATA_DIR = cfg.DATA_DIR) :
    ((Consumer.shouldTouchImageCache J ccfg env s).1 = .ok false ↔
      ∃ m s2, ensureImageLocked J cfg env s =
        (.ok { action := "kept-valid", meta := m }, s2)) ∧
    ((Consumer.shouldTouchImageCache J ccfg env s).1 = .ok false ↔
      selectBranch (s.fs cfg.imagePath).isSome (readJson J s.fs cfg.metaPath)
        (env.clock s.clockReads) = Branch.keptValid) ∧
    ((Consumer.shouldTouchImageCache J ccfg env s).1 = .ok true ↔
      selectBranch (s.fs cfg.imagePath).isSome (readJson J s.fs cfg.metaPath)
          (env.clock s.clockReads) = Branch.downloadInitial ∨
        selectBranch (s.fs cfg.imagePath).isSome (readJson J s.fs cfg.metaPath)
          (env.clock s.clockReads) = Branch.expiredServedOldOnce ∨
        selectBranch (s.fs cfg.imagePath).isSome (readJson J s.fs cfg.metaPath)
          (env.clock s.clockReads) = Branch.downloadAfterExpiry) ∧
    ((Consumer.shouldTouchImageCache J ccfg env s).1 = .ok true ↔
      ¬ ∃ m s2, ensureImageLocked J cfg env s =
        (.ok { action := "kept-valid", meta := m }, s2)) := by
  have hp1 : ccfg.imagePath = cfg.imagePath := by
    simp [ConsumerConfig.imagePath, Config.imagePath, hdir]
  have hp2 : ccfg.metaPath = cfg.metaPath := by
    simp [ConsumerConfig.metaPath, Config.metaPath, hdir]
  have hsel := selectBranch_iff (s.fs cfg.imagePath).isSome (readJson J s.fs cfg.metaPath)
    (env.clock s.clockReads)
  have hA : (Consumer.shouldTouchImageCache J ccfg env s).1 = .ok false ↔
      selectBranch (s.fs cfg.imagePath).isSome (readJson J s.fs cfg.metaPath)
        (env.clock s.clockReads) = Branch.keptValid := by
    rw [hsel.2.1, shouldTouchImageCache_run, hp1, hp2]
    cases hi : (s.fs cfg.imagePath).isSome with
    | false => simp
    | true =>
      cases hk : (readJson J s.fs cfg.metaPath).getProp "expiresAtMs" with
      | none => simp [Json.isNumber]
      | some x =>
        cases x with
        | num e => simp [Json.isNumber, Json.numberOf]
        | _ => simp [Json.isNumber]
  have hB : selectBranch (s.fs cfg.imagePath).isSome (readJson J s.fs cfg.metaPath)
        (env.clock s.clockReads) = Branch.keptValid ↔
      ∃ m s2, ensureImageLocked J cfg env s =
        (.ok { action := "kept-valid", meta := m }, s2) := by
    constructor
    · intro hb
      rw [ensureImageLocked_branch, hb]
      exact ⟨_, _, rfl⟩
    · rintro ⟨m, s2, h⟩
      exact tag_injective _ _ (ensureImageLocked_tag J cfg env s _ s2 h).symm
  have hbool : (Consumer.shouldTouchImageCache J ccfg env s).1 = .ok true ↔
      ¬ (Consumer.shouldTouchImageCache J ccfg env s).1 = .ok false := by
    rw [shouldTouchImageCache_run]
    split
    · cases decide (env.clock s.clockReads >
        Json.numberOf ((readJson J s.fs ccfg.metaPath).getProp "expiresAtMs")) <;> simp
    · simp
  refine ⟨hA.trans hB, hA, ?_, ?_⟩
  · rw [hbool, hA]
    cases hb : selectBranch (s.fs cfg.imagePath).isSome (readJson J s.fs cfg.metaPath)
      (env.clock s.clockReads) <;> simp
  · rw [hbool, hA, hB]

/-- On the stored generation that expires at 600400: at 600400 the consumer does not
trigger and the owner keeps the artifact; at 600401 the consumer triggers and the owner
takes the grace step. -/
theorem C18_witness_boundary :
    ((Consumer.shouldTouchImageCache docCodec ccfg0 (envAt 600400)
        (storedWorld (metaAt cfg0 400))).1 = .ok false ∧
      ∃ m s2, ensureImageLocked docCodec cfg0 (envAt 600400) (storedWorld (metaAt cfg0 400)) =
        (.ok { action := "kept-valid", meta := m }, s2)) ∧
    ((Consumer.shouldTouchImageCache docCodec ccfg0 (envAt 600401)
        (storedWorld (metaAt cfg0 400))).1 = .ok true ∧
      selectBranch ((storedWorld (metaAt cfg0 400)).fs cfg0.imagePath).isSome
        (readJson docCodec (storedWorld (metaAt cfg0 400)).fs cfg0.metaPath) 600401 =
          Branch.expiredServedOldOnce) := by
  have h1 := C18_consumer_agrees_with_owner docCodec cfg0 ccfg0 (envAt 600400)
    (storedWorld (metaAt cfg0 400)) rfl
  have h2 := C18_consumer_agrees_with_owner docCodec cfg0 ccfg0 (envAt 600401)
    (storedWorld (metaAt cfg0 400)) rfl
  have e1 : selectBranch ((storedWorld (metaAt cfg0 400)).fs cfg0.imagePath).isSome
      (readJson docCodec (storedWorld (metaAt cfg0 400)).fs cfg0.metaPath) 600400 =
        Branch.keptValid := by rfl
  have e2 : selectBranch ((storedWorld (metaAt cfg0 400)).fs cfg0.imagePath).isSome
      (readJson docCodec (storedWorld (metaAt cfg0 400)).fs cfg0.metaPath) 600401 =
        Branch.expiredServedOldOnce := by rfl
  exact ⟨⟨h1.2.1.mpr e1, h1.1.mp (h1.2.1.mpr e1)⟩, ⟨h2.2.2.1.mpr (Or.inr (Or.inl e2)), e2⟩⟩

end Branches

section Partition
variable {C : Type}

/-- C19: the refresh policy is a total, deterministic four-way partition. On every world
the callback of `ensureImage` runs the body of the one branch that `selectBranch` gives
for the triple (artifact exists?, parsed metadata of any shape or `null`, time read) and
for nothing else, and a returned action tag is the tag of that branch, the four tags being
different. Without an artifact or without a numeric `expiresAtMs` the initial download
is selected; with both, `kept-valid` while the time is not after `expiresAtMs`; once
expired the forced refresh exactly when `afterExpiryServedOnce` is the boolean `true`,
and the grace step for an absent flag and for every other value. -/
theorem C19_policy_partition (J : JsonCodec C) (cfg : Config) (env : Env) (s : World C) :
    (ensureImageLocked J cfg env s =
      match selectBranch (s.fs cfg.imagePath).isSome (readJson J s.fs cfg.metaPath)
          (env.clock s.clockReads) with
      | Branch.downloadInitial =>
        (do
          downloadImageTo J cfg env cfg.imagePath
          let m ← newMeta cfg env
          writeMeta J cfg env m
          pure { action := "downloaded-initial", meta := m } : Prog C Result) s
      | Branch.keptValid =>
        (.ok { action := "kept-valid", meta := readJson J s.fs cfg.metaPath },
          { s with
            clockReads := s.clockReads + 1,
            log := s.log ++ [Event.now (env.clock s.clockReads)] })
      | Branch.expiredServedOldOnce =>
        (do
          writeMeta J cfg env
            ((readJson J s.fs cfg.metaPath).spreadSet "afterExpiryServedOnce" (Json.bool true))
          pure { action := "expired-served-old-once",
                 meta := (readJson J s.fs cfg.metaPath).spreadSet "afterExpiryServedOnce"
                   (Json.bool true) } : Prog C Result)
          { s with
            clockReads := s.clockReads + 1,
            log := s.log ++ [Event.now (env.clock s.clockReads)] }
      | Branch.downloadAfterExpiry =>
        (do
          downloadImageTo J cfg env cfg.imagePath
          let m ← newMeta cfg env
          writeMeta J cfg env m
          pure { action := "downloaded-after-expiry", meta := m } : Prog C Result)
          { s with
            clockReads := s.clockReads + 1,
            log := s.log ++ [Event.now (env.clock s.clockReads)] }) ∧
    (∀ r s2, ensureImageLocked J cfg env s = (.ok r, s2) →
      r.action = (selectBranch (s.fs cfg.imagePath).isSome (readJson J s.fs cfg.metaPath)
        (env.clock s.clockReads)).tag) ∧
    (∀ a b : Branch, a.tag = b.tag → a = b) ∧
    (∀ (hasImage : Bool) (meta : Json) (now : Int),
      (selectBranch hasImage meta now = Branch.downloadInitial ↔
        hasImage = false ∨ Json.isNumber (meta.getProp "expiresAtMs") = false) ∧
      (selectBranch hasImage meta now = Branch.keptValid ↔
        hasImage = true ∧ ∃ e, meta.getProp "expiresAtMs" = some (Json.num e) ∧ now ≤ e) ∧
      (selectBranch hasImage meta now = Branch.expiredServedOldOnce ↔
        hasImage = true ∧ ∃ e, meta.getProp "expiresAtMs" = some (Json.num e) ∧ e < now ∧
          meta.getProp "afterExpiryServedOnce" ≠ some (Json.bool true)) ∧
      (selectBranch hasImage meta now = Branch.downloadAfterExpiry ↔
        hasImage = true ∧ ∃ e, meta.getProp "expiresAtMs" = some (Json.num e) ∧ e < now ∧
          meta.getProp "afterExpiryServedOnce" = some (Json.bool true))) :=
  ⟨ensureImageLocked_branch J cfg env s, ensureImageLocked_tag J cfg env s, tag_injective,
    selectBranch_iff⟩

/-- Expired metadata whose flag is absent, `false`, `null`, `1` or `"true"` takes the grace
step, and only the boolean `true` forces the refresh; metadata that is a bare number leads
to the initial download. -/
theorem C19_witness_flag_values :
    (∃ m s2, ensureImageLocked docCodec cfg0 (envAt 700000) (storedWorld (metaWithFlag none)) =
      (.ok { action := "expired-served-old-once", meta := m }, s2)) ∧
    (∃ m s2, ensureImageLocked docCodec cfg0 (envAt 700000)
        (storedWorld (metaWithFlag (some (Json.bool false)))) =
      (.ok { action := "expired-served-old-once", meta := m }, s2)) ∧
    (∃ m s2, ensureImageLocked docCodec cfg0 (envAt 700000)
        (storedWorld (metaWithFlag (some Json.null))) =
      (.ok { action := "expired-served-old-once", meta := m }, s2)) ∧
    (∃ m s2, ensureImageLocked docCodec cfg0 (envAt 700000)
        (storedWorld (metaWithFlag (some (Json.num 1)))) =
      (.ok { action := "expired-served-old-once", meta := m }, s2)) ∧
    (∃ m s2, ensureImageLocked docCodec cfg0 (envAt 700000)
        (storedWorld (metaWithFlag (some (Json.str "true")))) =
      (.ok { action := "expired-served-old-once", meta := m }, s2)) ∧
    (∃ m s2, ensureImageLocked docCodec cfg0 (envAt 700000)
        (storedWorld (metaWithFlag (some (Json.bool true)))) =
      (.ok { action := "downloaded-after-expiry", meta := m }, s2)) ∧
    (∃ m s2, ensureImageLocked docCodec cfg0 (envAt 700000) (storedWorld (Json.num 5)) =
      (.ok { action := "downloaded-initial", meta := m }, s2)) := by
  have hlen : 1024 ≤ jpegBytes.length := by
    rw [jpegBytes, List.length_replicate]; decide
  have grace : ∀ x : Option Json,
      selectBranch ((storedWorld (metaWithFlag x)).fs cfg0.imagePath).isSome
        (readJson docCodec (storedWorld (metaWithFlag x)).fs cfg0.metaPath)
        ((envAt 700000).clock (storedWorld (metaWithFlag x)).clockReads) =
          Branch.expiredServedOldOnce →
      ∃ m s2, ensureImageLocked docCodec cfg0 (envAt 700000) (storedWorld (metaWithFlag x)) =
        (.ok { action := "expired-served-old-once", meta := m }, s2) := by
    intro x hx
    have h := (C19_policy_partition docCodec cfg0 (envAt 700000)
      (storedWorld (metaWithFlag x))).1
    rw [hx] at h
    simp only [Prog.bind_run, Prog.pure_run] at h
    rw [writeMeta_ok docCodec cfg0 (envAt 700000) _ _ rfl] at h
    exact ⟨_, _, h⟩
  refine ⟨grace _ rfl, grace _ rfl, grace _ rfl, grace _ rfl, grace _ rfl, ?_, ?_⟩
  · exact ⟨_, _, ensureImageLocked_refresh docCodec cfg0 (envAt 700000)
      (storedWorld (metaWithFlag (some (Json.bool true))))
      (metaWithFlag (some (Json.bool true))) 600400 goodResponse jpegBytes rfl rfl rfl
      (by decide) rfl rfl rfl (by decide) rfl hlen rfl rfl⟩
  · exact ⟨_, _, ensureImageLocked_initial docCodec cfg0 (envAt 700000)
      (storedWorld (Json.num 5)) goodResponse jpegBytes rfl rfl rfl (by decide) rfl hlen
      rfl rfl⟩

end Partition

end ImageCache
